import Mathlib

set_option maxHeartbeats 1000000

namespace MCW

/-! Shallow embedding of the mathcrosswordz puzzle engine.

Sources embedded here:
* `src/src/game/GameEngine.ts` — the game state machine (placeTile, removeTile,
  undoLastMove, getHint, equation validation, scoring, completion).
* `src/unnamed/part_000` — the `PuzzleGenerator` (two versions are present in the
  dump; the second version, the one with the bounded retry loops, the simple-equation
  backfill and the fallback puzzle, is the live one: its import path `../types/game`
  matches the engine's and the spec describes its backfill/fallback structure).

JavaScript `Map`s are modelled as insertion-ordered association lists (iteration
order of a JS `Map` is insertion order, and the program never deletes keys).
JavaScript numbers are modelled as `Int`/`Nat`: every arithmetic operation the
program performs on them is exact integer arithmetic in the reachable range.
`Math.random()`-derived draws are modelled by an explicit stream of naturals, so
every theorem about random code quantifies over all draw sequences.
Move `id` and `timestamp` fields are presentation metadata never read by any
engine logic and are omitted from the move record. -/

/-- Decimal digit character for a digit value `d < 10`, as produced by JavaScript
number-to-string conversion. -/
def digitChar (d : Nat) : Char :=
  if d = 0 then '0' else if d = 1 then '1' else if d = 2 then '2' else if d = 3 then '3'
  else if d = 4 then '4' else if d = 5 then '5' else if d = 6 then '6' else if d = 7 then '7'
  else if d = 8 then '8' else '9'

/-- Fuelled recursion for decimal rendering: structural in the fuel so the kernel
can evaluate it on closed inputs. The fuel never runs out when it exceeds the
input (each recursive step at least halves the number). -/
def natToCharsGo (fuel : Nat) (n : Nat) : List Char :=
  match fuel with
  | 0 => []
  | Nat.succ fuel => if n < 10 then [digitChar n] else natToCharsGo fuel (n / 10) ++ [digitChar (n % 10)]

/-- Decimal rendering of a natural number as a character list, mirroring JavaScript
template interpolation of a nonnegative integer (as in the template
`num1 op num2 = result` building an equation's `expression`). -/
def natToChars (n : Nat) : List Char := natToCharsGo (n + 1) n

/-- Decimal rendering of a natural number as a string. -/
def natToStr (n : Nat) : String := String.mk (natToChars n)

/-- Numeric value of a digit character (used to model capture groups fed to
JavaScript `parseInt` / `Number`, which on an all-digit string produce this value). -/
def digitsToNat (cs : List Char) : Nat := cs.foldl (fun a c => 10 * a + (c.toNat - 48)) 0

/-- Character class of the regex `\d`. -/
def isDig (c : Char) : Bool := 48 ≤ c.toNat && c.toNat ≤ 57

/-- Character class of the regex `\s` (the whitespace the program can produce is a
plain space; tab/newline/return are included for faithfulness to `\s`). -/
def isWs (c : Char) : Bool := c = ' ' || c = '\t' || c = '\n' || c = '\r'

/-- Character class of the regex `[+\-*/]`. -/
def isOpChar (c : Char) : Bool := c = '+' || c = '-' || c = '*' || c = '/'

/-- Maximal run of digits at the head of the list, with the remaining suffix
(the behaviour of a greedy `\d+` followed by a non-digit requirement). -/
def takeDigits : List Char → List Char × List Char
  | [] => ([], [])
  | c :: cs => if isDig c then
      let (d, r) := takeDigits cs
      (c :: d, r)
    else ([], c :: cs)

/-- Drop the maximal run of whitespace at the head of the list (greedy `\s*`). -/
def skipWs : List Char → List Char
  | [] => []
  | c :: cs => if isWs c then skipWs cs else c :: cs

/-- Attempt to match the regex `(\d+)\s*([+\-*/])\s*(\d+)\s*=\s*(\d+)` starting at
the head of the list. For this pattern greedy matching without backtracking is
equivalent to the backtracking regex semantics: shortening a `\d+` or `\s*` run can
never make the following single-character class match, because a digit is neither
an operator character nor `=`, and neither is a whitespace character. -/
def matchEqnAt (l : List Char) : Option (Nat × Char × Nat × Nat) :=
  let (d1, r1) := takeDigits l
  if d1.isEmpty then none else
  match skipWs r1 with
  | [] => none
  | c :: r3 =>
    if isOpChar c then
      let (d2, r5) := takeDigits (skipWs r3)
      if d2.isEmpty then none else
      match skipWs r5 with
      | '=' :: r7 =>
        let (d3, _) := takeDigits (skipWs r7)
        if d3.isEmpty then none else
        some (digitsToNat d1, c, digitsToNat d2, digitsToNat d3)
      | _ => none
    else none

/-- Leftmost match of the equation regex, mirroring `String.prototype.match`
which scans candidate start positions left to right. -/
def findEqnMatch : List Char → Option (Nat × Char × Nat × Nat)
  | [] => none
  | c :: rest =>
    match matchEqnAt (c :: rest) with
    | some r => some r
    | none => findEqnMatch rest

/-- Embedding of `expression.match(/(\d+)\s*([+\-*\/])\s*(\d+)\s*=\s*(\d+)/)` with the
capture groups converted by `parseInt`/`Number` (the variant in
`generateAvailableNumbers` does not capture the operator; both use the same match). -/
def parseExpression (s : String) : Option (Nat × Char × Nat × Nat) := findEqnMatch s.data

/-! Data model, from `src/types` usage sites in the two source files. -/

inductive CellType
  | number
  | operator
  | equals
  | empty
deriving DecidableEq

inductive CellValue
  | num (n : Int)
  | sym (s : String)
deriving DecidableEq

structure CellData where
  id : String
  type : CellType
  value : Option CellValue
  position : Nat × Nat
  isFixed : Bool
  isCorrect : Option Bool
  belongsToEquation : List String
deriving DecidableEq

structure Equation where
  id : String
  cells : List String
  expression : String
  result : Int
  isHorizontal : Bool
  startPosition : Nat × Nat
  isComplete : Bool
  isValid : Bool
deriving DecidableEq

abbrev CellMap := List (String × CellData)
abbrev EqnMap := List (String × Equation)

structure GameBoard where
  cells : CellMap
  equations : EqnMap
  gridSize : Nat × Nat
deriving DecidableEq

/-- Lookup in an insertion-ordered association list (JS `Map.get`). -/
def mapGet {α : Type} (m : List (String × α)) (k : String) : Option α :=
  match m.find? (fun p => p.1 == k) with
  | some p => some p.2
  | none => none

/-- Update the first entry with the given key (mutating the object a JS `Map.get`
returned mutates exactly that entry). -/
def updateFirst {α : Type} : List (String × α) → String → (α → α) → List (String × α)
  | [], _, _ => []
  | p :: rest, k, f => if p.1 == k then (p.1, f p.2) :: rest else p :: updateFirst rest k f

structure NumberTile where
  id : String
  value : Int
  isUsed : Bool
deriving DecidableEq

inductive MoveType
  | place
  | remove
deriving DecidableEq

structure GameMove where
  type : MoveType
  tileId : String
  cellId : String
deriving DecidableEq

inductive DifficultyLevel
  | easy
  | medium
  | hard
  | epic
deriving DecidableEq

structure GameState where
  level : DifficultyLevel
  board : GameBoard
  availableNumbers : List NumberTile
  currentScore : Int
  timeElapsed : Int
  isComplete : Bool
  moves : List GameMove
  hints : Int
deriving DecidableEq

/-- Modelled from the spec: the shared model module `src/types/game.ts` (with the
`SCORING` constants) is not part of the provided sources. The spec fixes only their
signs and roles: base points awarded per freshly valid equation, a fixed hint
penalty, a time-bonus multiplier and increasing per-tier multipliers, all
nonnegative. Concrete representative values are chosen; no claim depends on the
particular magnitudes. -/
def SCORING_BASE_POINTS : Int := 10

/-- Modelled from the spec: the fixed score penalty `getHint` deducts. -/
def SCORING_HINT_PENALTY : Int := 5

/-- Modelled from the spec: the multiplier for `max(0, 300 - elapsed)` at completion. -/
def SCORING_TIME_BONUS_MULTIPLIER : Int := 2

/-- Modelled from the spec: per-tier multipliers increasing easy < medium < hard < epic. -/
def SCORING_DIFFICULTY_MULTIPLIER : DifficultyLevel → Int
  | DifficultyLevel.easy => 1
  | DifficultyLevel.medium => 2
  | DifficultyLevel.hard => 3
  | DifficultyLevel.epic => 4

/-! The game engine (`GameEngine.ts`). Methods that read `this.gameState` (which may
be null) are wrapped over `Option GameState`; the `Core` functions are the bodies
running on a present game state. Event emission has no effect on engine state and
is omitted. -/

/-- Embedding of `this.gameState.availableNumbers.find(t => t.id === tileId)`. -/
def findTile (tiles : List NumberTile) (tid : String) : Option NumberTile :=
  tiles.find? (fun t => t.id == tid)

/-- Update the first tile with the given id (JS `find` returns the first match and
mutation affects that object). -/
def updateFirstTile : List NumberTile → String → (NumberTile → NumberTile) → List NumberTile
  | [], _, _ => []
  | t :: ts, tid, f => if t.id == tid then f t :: ts else t :: updateFirstTile ts tid f

/-- Embedding of `GameEngine.isEquationComplete`. -/
def isEquationComplete (cells : CellMap) (e : Equation) : Bool :=
  e.cells.all fun cid =>
    match mapGet cells cid with
    | some c => c.value.isSome || c.type == CellType.operator || c.type == CellType.equals
    | none => false

/-- Embedding of `GameEngine.validateEquation`. The `typeof` guards become the
requirement that positions 0, 2, 4 hold numeric values and position 1 a string; the
JS `/` on numbers is exact rational division, and for `num2 ≠ 0` the test
`num1 / num2 === result` is equivalent to `num1 = result * num2` (all values in the
reachable range are small integers, where float division equal to an integer forces
exact divisibility). -/
def cellValueAt (cells : CellMap) (e : Equation) (i : Nat) : Option CellValue :=
  match e.cells.get? i with
  | some cid =>
    match mapGet cells cid with
    | some c => c.value
    | none => none
  | none => none

def validateEquation (cells : CellMap) (e : Equation) : Bool :=
  match cellValueAt cells e 0, cellValueAt cells e 1, cellValueAt cells e 2,
      cellValueAt cells e 4 with
  | some (CellValue.num num1), some (CellValue.sym op), some (CellValue.num num2),
      some (CellValue.num result) =>
    if op = "+" then num1 + num2 == result
    else if op = "-" then num1 - num2 == result
    else if op = "*" then num1 * num2 == result
    else if op = "/" then num2 != 0 && num1 == result * num2
    else false
  | _, _, _, _ => false

/-- Embedding of the cell-correctness update inside `checkEquations`. -/
def setCellCorrect (cells : CellMap) (cid : String) (v : Bool) : CellMap :=
  updateFirst cells cid (fun c => if c.type == CellType.number then { c with isCorrect := some v } else c)

/-- Embedding of the `equations.forEach` body of `GameEngine.checkEquations`,
processing equations in map (insertion) order while threading the cell map and the
score. Each step reads its own equation's stored flags (untouched by earlier
steps) and the current cells. -/
def checkEqGo : EqnMap → CellMap → Int → EqnMap × CellMap × Int
  | [], cells, score => ([], cells, score)
  | (k, equation) :: rest, cells, score =>
    let wasComplete := equation.isComplete
    let isNowComplete := isEquationComplete cells equation
    let isValid := isNowComplete && validateEquation cells equation
    let cells2 := equation.cells.foldl (fun m cid => setCellCorrect m cid isValid) cells
    let score2 := if !wasComplete && isNowComplete && isValid then score + SCORING_BASE_POINTS
      else score
    let out := checkEqGo rest cells2 score2
    ((k, { equation with isComplete := isNowComplete, isValid := isValid }) :: out.1, out.2)

/-- Embedding of `GameEngine.checkEquations`. -/
def checkEquations (s : GameState) : GameState :=
  let out := checkEqGo s.board.equations s.board.cells s.currentScore
  { s with board := { s.board with equations := out.1, cells := out.2.1 },
           currentScore := out.2.2 }

/-- Embedding of `GameEngine.completeGame` (timer stop is presentation-side). -/
def completeGame (s : GameState) : GameState :=
  let timeBonus := max 0 (300 - s.timeElapsed) * SCORING_TIME_BONUS_MULTIPLIER
  let difficultyBonus := SCORING_BASE_POINTS * SCORING_DIFFICULTY_MULTIPLIER s.level
  { s with isComplete := true, currentScore := s.currentScore + timeBonus + difficultyBonus }

/-- Embedding of `GameEngine.checkGameCompletion`. -/
def checkGameCompletion (s : GameState) : GameState :=
  if s.isComplete then s
  else if s.board.equations.all (fun p => p.2.isComplete && p.2.isValid) then completeGame s
  else s

/-- Embedding of `GameEngine.placeTile` on a present game state. Note the guard
checks tile existence/usedness and that the cell exists, is not fixed and has type
number — it does not test `cell.value === null`. -/
def placeTileCore (s : GameState) (tileId cellId : String) : Bool × GameState :=
  if s.isComplete then (false, s) else
  match findTile s.availableNumbers tileId, mapGet s.board.cells cellId with
  | some tile, some cell =>
    if tile.isUsed || cell.isFixed || cell.type != CellType.number then (false, s)
    else
      let tiles2 := updateFirstTile s.availableNumbers tileId (fun t => { t with isUsed := true })
      let cells2 := updateFirst s.board.cells cellId
        (fun c => { c with value := some (CellValue.num tile.value) })
      let s1 : GameState := { s with
        availableNumbers := tiles2,
        board := { s.board with cells := cells2 },
        moves := s.moves ++ [{ type := MoveType.place, tileId := tileId, cellId := cellId }] }
      (true, checkGameCompletion (checkEquations s1))
  | _, _ => (false, s)

/-- Embedding of `GameEngine.placeTile` including the null-state guard. -/
def placeTile (g : Option GameState) (tileId cellId : String) : Bool × Option GameState :=
  match g with
  | none => (false, none)
  | some s =>
    let out := placeTileCore s tileId cellId
    (out.1, some out.2)

/-- Embedding of `GameEngine.removeTile` on a present game state: the occupying
tile is resolved by scanning the move log backwards for the most recent `place`
move targeting the cell. No completion check is performed after a removal. -/
def removeTileCore (s : GameState) (cellId : String) : Bool × GameState :=
  if s.isComplete then (false, s) else
  match mapGet s.board.cells cellId with
  | none => (false, s)
  | some cell =>
    if cell.isFixed || cell.value = none then (false, s) else
    match s.moves.reverse.find? (fun m => m.type == MoveType.place && m.cellId == cellId) with
    | none => (false, s)
    | some lastMove =>
      match findTile s.availableNumbers lastMove.tileId with
      | none => (false, s)
      | some _ =>
        let tiles2 := updateFirstTile s.availableNumbers lastMove.tileId
          (fun t => { t with isUsed := false })
        let cells2 := updateFirst s.board.cells cellId (fun c => { c with value := none })
        let s1 : GameState := { s with
          availableNumbers := tiles2,
          board := { s.board with cells := cells2 },
          moves := s.moves ++
            [{ type := MoveType.remove, tileId := lastMove.tileId, cellId := cellId }] }
        (true, checkEquations s1)

/-- Embedding of `GameEngine.removeTile` including the null-state guard. -/
def removeTile (g : Option GameState) (cellId : String) : Bool × Option GameState :=
  match g with
  | none => (false, none)
  | some s =>
    let out := removeTileCore s cellId
    (out.1, some out.2)

/-- Embedding of `GameEngine.undoLastMove` on a present game state: pops the last
move and applies its structural inverse; only re-validates equations, with no
completion check and no clearing of the completion flag. -/
def undoLastMoveCore (s : GameState) : Bool × GameState :=
  match s.moves.getLast? with
  | none => (false, s)
  | some lastMove =>
    let s1 : GameState := { s with moves := s.moves.dropLast }
    let s2 : GameState :=
      match lastMove.type with
      | MoveType.place =>
        match findTile s1.availableNumbers lastMove.tileId, mapGet s1.board.cells lastMove.cellId with
        | some _, some _ =>
          let tiles2 := updateFirstTile s1.availableNumbers lastMove.tileId
            (fun t => { t with isUsed := false })
          let cells2 := updateFirst s1.board.cells lastMove.cellId
            (fun c => { c with value := none })
          { s1 with availableNumbers := tiles2, board := { s1.board with cells := cells2 } }
        | _, _ => s1
      | MoveType.remove =>
        match findTile s1.availableNumbers lastMove.tileId, mapGet s1.board.cells lastMove.cellId with
        | some tile, some _ =>
          let tiles2 := updateFirstTile s1.availableNumbers lastMove.tileId
            (fun t => { t with isUsed := true })
          let cells2 := updateFirst s1.board.cells lastMove.cellId
            (fun c => { c with value := some (CellValue.num tile.value) })
          { s1 with availableNumbers := tiles2, board := { s1.board with cells := cells2 } }
        | _, _ => s1
    (true, checkEquations s2)

/-- Embedding of `GameEngine.undoLastMove` including the null-state guard. -/
def undoLastMove (g : Option GameState) : Bool × Option GameState :=
  match g with
  | none => (false, none)
  | some s =>
    let out := undoLastMoveCore s
    (out.1, some out.2)

/-- First index of an element in a list (JS `Array.prototype.indexOf`, with the
absent case `-1` falling to the default branch of the caller's switch). -/
def idxOf : List String → String → Option Nat
  | [], _ => none
  | a :: l, x => if a == x then some 0 else (idxOf l x).map (fun n => n + 1)

/-- Embedding of `GameEngine.getCorrectValueForCell`. -/
def getCorrectValueForCell (s : GameState) (cell : CellData) : Option Int :=
  match cell.belongsToEquation.head? with
  | none => none
  | some eqId =>
    match mapGet s.board.equations eqId with
    | none => none
    | some equation =>
      match parseExpression equation.expression with
      | none => none
      | some (num1, _, num2, result) =>
        match idxOf equation.cells cell.id with
        | some 0 => some (num1 : Int)
        | some 2 => some (num2 : Int)
        | some 4 => some (result : Int)
        | _ => none

/-- Embedding of `GameEngine.getHint`. The uniformly random index
`Math.floor(Math.random() * unfilledCells.length)` is modelled by `pick % length`,
which ranges over exactly the same indices as `pick` ranges over the naturals. -/
def getHint (g : Option GameState) (pick : Nat) : Option (String × Int) × Option GameState :=
  match g with
  | none => (none, none)
  | some s =>
    if s.hints ≤ 0 then (none, some s) else
    let unfilledCells := s.board.cells.filterMap (fun p =>
      if p.2.type == CellType.number && !p.2.isFixed && p.2.value == none then some p.2 else none)
    if unfilledCells.length = 0 then (none, some s) else
    match unfilledCells.get? (pick % unfilledCells.length) with
    | none => (none, some s)
    | some targetCell =>
      match getCorrectValueForCell s targetCell with
      | none => (none, some s)
      | some correctValue =>
        (some (targetCell.id, correctValue),
         some { s with hints := s.hints - 1,
                       currentScore := max 0 (s.currentScore - SCORING_HINT_PENALTY) })

/-- Embedding of `GameEngine.canPlaceTile`, the pure drag-feasibility predicate.
Unlike `placeTile` it also requires `cell.value === null`. -/
def canPlaceTile (g : Option GameState) (tileId cellId : String) : Bool :=
  match g with
  | none => false
  | some s =>
    match findTile s.availableNumbers tileId, mapGet s.board.cells cellId with
    | some tile, some cell =>
      !tile.isUsed && !cell.isFixed && cell.type == CellType.number && cell.value == none
    | _, _ => false

/-- Embedding of the game-state construction in `GameEngine.startNewGame` from a
generated board and the generated value hand (timer fields start at zero). -/
def startNewGameState (level : DifficultyLevel) (board : GameBoard)
    (availableNumbers : List Int) : GameState :=
  { level := level,
    board := board,
    availableNumbers := availableNumbers.enum.map
      (fun p => { id := "tile-" ++ natToStr p.1, value := p.2, isUsed := false }),
    currentScore := 0,
    timeElapsed := 0,
    isComplete := false,
    moves := [],
    hints := 3 }

/-! The puzzle generator (`PuzzleGenerator`, second version in `src/unnamed/part_000`).
Randomness is an explicit stream of naturals. The `try/catch` around
`generatePuzzle`'s body can only throw through `this.cells.get(cellId)!` on a
missing key, which cannot happen because every committed position is
bounds-checked first; the catch branch is therefore unreachable and its
`createFallbackPuzzle` is embedded as a separate function. -/

/-- Explicit randomness source: a stream of naturals and a cursor into it. -/
structure Rng where
  stream : Nat → Nat
  idx : Nat

/-- Draw the next raw value from the stream. -/
def Rng.next (r : Rng) : Nat × Rng := (r.stream r.idx, { r with idx := r.idx + 1 })

/-- Embedding of `Math.floor(Math.random() * n)` for a nonnegative bound `n`: an
arbitrary draw in `[0, n)`, and `0` when `n = 0` (in JS the product is then `0`). -/
def randBelow (n : Nat) (r : Rng) : Nat × Rng :=
  let (v, r2) := r.next
  (if n = 0 then 0 else v % n, r2)

/-- Embedding of a probability test `Math.random() < p` for a fixed `0 < p < 1`
(the generator uses p = 0.1, 0.4, 0.5, 0.6): both outcomes are possible, and every
theorem quantifies over all draw streams, so the bias is irrelevant. -/
def randChance (r : Rng) : Bool × Rng :=
  let (v, r2) := r.next
  (v % 2 == 0, r2)

/-- Cell key `x-y` as built by the template in the generator. -/
def cellId (x y : Nat) : String := natToStr x ++ "-" ++ natToStr y

/-- The generator's mutable fields. -/
structure GenState where
  width : Nat
  height : Nat
  equationCount : Nat
  usedPositions : List String
  equations : List Equation
  cells : CellMap

/-- A freshly initialized cell from `PuzzleGenerator.reset`. -/
def emptyCell (x y : Nat) : CellData :=
  { id := cellId x y, type := CellType.empty, value := none, position := (x, y),
    isFixed := false, isCorrect := none, belongsToEquation := [] }

/-- Embedding of `PuzzleGenerator.reset`: row-major initialization of the grid. -/
def resetState (width height equationCount : Nat) : GenState :=
  { width := width, height := height, equationCount := equationCount,
    usedPositions := [], equations := [],
    cells := (List.range height).flatMap
      (fun y => (List.range width).map (fun x => (cellId x y, emptyCell x y))) }

/-- Embedding of `PuzzleGenerator.getRandomOperation`. -/
def getRandomOperation (r : Rng) : String × Rng :=
  let (includeDiv, r2) := randChance r
  let operations := if includeDiv then ["+", "-", "*", "/"] else ["+", "-", "*"]
  let (i, r3) := randBelow operations.length r2
  (operations.getD i "+", r3)

/-- Embedding of `PuzzleGenerator.generateNumbers`, returning `(num1, num2, result)`. -/
def generateNumbers (operation : String) (r : Rng) : (Nat × Nat × Nat) × Rng :=
  if operation = "+" then
    let (a, r2) := randBelow 20 r
    let (b, r3) := randBelow 20 r2
    ((a + 1, b + 1, (a + 1) + (b + 1)), r3)
  else if operation = "-" then
    let (x, r2) := randBelow 30 r
    let result := x + 1
    let (y, r3) := randBelow result r2
    let num2 := y + 1
    ((result + num2, num2, result), r3)
  else if operation = "*" then
    let (a, r2) := randBelow 12 r
    let (b, r3) := randBelow 12 r2
    ((a + 1, b + 1, (a + 1) * (b + 1)), r3)
  else if operation = "/" then
    let (x, r2) := randBelow 20 r
    let result := x + 1
    let (y, r3) := randBelow 10 r2
    let num2 := y + 2
    ((result * num2, num2, result), r3)
  else ((1, 1, 2), r)

/-- Embedding of `PuzzleGenerator.canPlaceHorizontalEquation` (second version:
5 consecutive cells in bounds and unclaimed). -/
def canPlaceHorizontalEquation (g : GenState) (startX startY : Nat) : Bool :=
  (List.range 5).all fun i =>
    startX + i < g.width && !(g.usedPositions.contains (cellId (startX + i) startY))

/-- Embedding of `PuzzleGenerator.canPlaceVerticalEquation` (second version). -/
def canPlaceVerticalEquation (g : GenState) (startX startY : Nat) : Bool :=
  (List.range 5).all fun i =>
    startY + i < g.height && !(g.usedPositions.contains (cellId startX (startY + i)))

/-- One entry of the local `positions` array in the equation creators. -/
structure PosSpec where
  x : Nat
  y : Nat
  ctype : CellType
  value : Option CellValue
  isFixed : Bool

/-- The value a number slot holds after the hint mutation: pre-filled exactly when
the drawn hint index selected this slot (slots 0, 1, 2 are positions 0, 2, 4). -/
def hintNumValue (hintIndex : Option Nat) (slot : Nat) (v : Nat) : Option CellValue :=
  if hintIndex == some slot then some (CellValue.num (v : Int)) else none

/-- The five `positions` entries shared by the three equation creators: number,
operator, number, equals, result along the given coordinates. -/
def mkEqnPositions (c0 c1 c2 c3 c4 : Nat × Nat) (operation : String)
    (num1 num2 result : Nat) (hintIndex : Option Nat) : List PosSpec :=
  [ { x := c0.1, y := c0.2, ctype := CellType.number,
      value := hintNumValue hintIndex 0 num1, isFixed := hintIndex == some 0 },
    { x := c1.1, y := c1.2, ctype := CellType.operator,
      value := some (CellValue.sym operation), isFixed := true },
    { x := c2.1, y := c2.2, ctype := CellType.number,
      value := hintNumValue hintIndex 1 num2, isFixed := hintIndex == some 1 },
    { x := c3.1, y := c3.2, ctype := CellType.equals,
      value := some (CellValue.sym "="), isFixed := true },
    { x := c4.1, y := c4.2, ctype := CellType.number,
      value := hintNumValue hintIndex 2 result, isFixed := hintIndex == some 2 } ]

/-- Embedding of the `positions.forEach` commit block shared verbatim by
`createHorizontalEquation`, `createVerticalEquation` and `createSimpleEquation`:
collects the cell ids in order, marks each coordinate used, and writes
type/value/fixed/equation-membership into the cell map. -/
def commitPositions (eqId : String) : List PosSpec → GenState → List String × GenState
  | [], g => ([], g)
  | p :: ps, g =>
    let cid := cellId p.x p.y
    let cells2 := updateFirst g.cells cid (fun c =>
      { c with type := p.ctype, value := p.value, isFixed := p.isFixed,
               belongsToEquation := c.belongsToEquation ++ [eqId] })
    let g2 : GenState := { g with usedPositions := g.usedPositions ++ [cid], cells := cells2 }
    let out := commitPositions eqId ps g2
    (cid :: out.1, out.2)

/-- The `this.equations.push(equation)` step shared by the three equation
creators. -/
def pushEqn (g : GenState) (e : Equation) : GenState :=
  { g with equations := g.equations ++ [e] }

/-- Common body of `createHorizontalEquation` / `createVerticalEquation` (the two
source functions are verbatim copies up to the direction of the coordinate step;
the hint draw is `Math.random() < 0.4 ? Math.floor(Math.random()*3) : -1`). -/
def createStripEquation (g : GenState) (horizontal : Bool) (startX startY : Nat)
    (r : Rng) : GenState × Rng :=
  let equationId := "eq-" ++ natToStr (g.equations.length + 1)
  let (operation, r2) := getRandomOperation r
  let (nums, r3) := generateNumbers operation r2
  let num1 := nums.1
  let num2 := nums.2.1
  let result := nums.2.2
  let (doHint, r4) := randChance r3
  let (hintIndex, r5) :=
    if doHint then
      let (i, rb) := randBelow 3 r4
      (some i, rb)
    else (none, r4)
  let positions :=
    if horizontal then
      mkEqnPositions (startX, startY) (startX + 1, startY) (startX + 2, startY)
        (startX + 3, startY) (startX + 4, startY) operation num1 num2 result hintIndex
    else
      mkEqnPositions (startX, startY) (startX, startY + 1) (startX, startY + 2)
        (startX, startY + 3) (startX, startY + 4) operation num1 num2 result hintIndex
  let out := commitPositions equationId positions g
  let equation : Equation :=
    { id := equationId, cells := out.1,
      expression := natToStr num1 ++ " " ++ operation ++ " " ++ natToStr num2 ++ " = " ++
        natToStr result,
      result := (result : Int), isHorizontal := horizontal,
      startPosition := (startX, startY), isComplete := false, isValid := false }
  (pushEqn out.2 equation, r5)

/-- Embedding of `PuzzleGenerator.createHorizontalEquation`. -/
def createHorizontalEquation (g : GenState) (startX startY : Nat) (r : Rng) : GenState × Rng :=
  createStripEquation g true startX startY r

/-- Embedding of `PuzzleGenerator.createVerticalEquation`. -/
def createVerticalEquation (g : GenState) (startX startY : Nat) (r : Rng) : GenState × Rng :=
  createStripEquation g false startX startY r

/-- Embedding of the `while` loop of `generateHorizontalEquations` (second
version): target `min(ceil(equationCount*0.6), floor(height*0.8))`, at most 50
attempts; each attempt draws `startX` below `max(1, width-4)` and `startY` below
`height`. The float products `0.6*c` and `0.8*h` agree with exact rational
arithmetic on the whole reachable range, so the ceil/floor are the exact
`⌈3c/5⌉ = (3c+4)/5` and `⌊4h/5⌋`. -/
def generateHorizontalLoop : Nat → GenState → Rng → GenState × Rng
  | 0, g, r => (g, r)
  | Nat.succ fuel, g, r =>
    if (g.equations.filter (fun e => e.isHorizontal)).length <
        min ((3 * g.equationCount + 4) / 5) (4 * g.height / 5) then
      let (startX, r2) := randBelow (max 1 (g.width - 4)) r
      let (startY, r3) := randBelow g.height r2
      if canPlaceHorizontalEquation g startX startY then
        let (g2, r4) := createHorizontalEquation g startX startY r3
        generateHorizontalLoop fuel g2 r4
      else generateHorizontalLoop fuel g r3
    else (g, r)

/-- Embedding of `PuzzleGenerator.generateHorizontalEquations` (second version). -/
def generateHorizontalEquations (g : GenState) (r : Rng) : GenState × Rng :=
  generateHorizontalLoop 50 g r

/-- Embedding of the `while` loop of `generateVerticalEquations` (second version):
target `min(ceil(equationCount*0.4), floor(width*0.8))`, at most 50 attempts. -/
def generateVerticalLoop : Nat → GenState → Rng → GenState × Rng
  | 0, g, r => (g, r)
  | Nat.succ fuel, g, r =>
    if (g.equations.filter (fun e => !e.isHorizontal)).length <
        min ((2 * g.equationCount + 4) / 5) (4 * g.width / 5) then
      let (startX, r2) := randBelow g.width r
      let (startY, r3) := randBelow (max 1 (g.height - 4)) r2
      if canPlaceVerticalEquation g startX startY then
        let (g2, r4) := createVerticalEquation g startX startY r3
        generateVerticalLoop fuel g2 r4
      else generateVerticalLoop fuel g r3
    else (g, r)

/-- Embedding of `PuzzleGenerator.generateVerticalEquations` (second version). -/
def generateVerticalEquations (g : GenState) (r : Rng) : GenState × Rng :=
  generateVerticalLoop 50 g r

/-- Embedding of the `for` loop of `addRandomEquation`: up to 50 attempts, 60%
horizontal bias, returning on the first successful placement. The horizontal
branch draws `startX` below `width - 6` (Nat subtraction agrees with the JS value
whenever `width ≥ 6`, which the modelled configurations guarantee; at `width = 6`
both give a constant draw of 0). -/
def addRandomEquationLoop : Nat → GenState → Rng → GenState × Rng
  | 0, g, r => (g, r)
  | Nat.succ fuel, g, r =>
    let (isHorizontal, r2) := randChance r
    if isHorizontal then
      let (startX, r3) := randBelow (g.width - 6) r2
      let (startY, r4) := randBelow g.height r3
      if canPlaceHorizontalEquation g startX startY then
        createHorizontalEquation g startX startY r4
      else addRandomEquationLoop fuel g r4
    else
      let (startX, r3) := randBelow g.width r2
      let (startY, r4) := randBelow (g.height - 6) r3
      if canPlaceVerticalEquation g startX startY then
        createVerticalEquation g startX startY r4
      else addRandomEquationLoop fuel g r4

/-- Embedding of `PuzzleGenerator.addRandomEquation`. -/
def addRandomEquation (g : GenState) (r : Rng) : GenState × Rng :=
  addRandomEquationLoop 50 g r

/-- Embedding of the bounded `while (equations.length < equationCount && attempts < 50)`
loop in `generatePuzzle` (second version). -/
def addRandomOuterLoop : Nat → GenState → Rng → GenState × Rng
  | 0, g, r => (g, r)
  | Nat.succ fuel, g, r =>
    if g.equations.length < g.equationCount then
      let (g2, r2) := addRandomEquation g r
      addRandomOuterLoop fuel g2 r2
    else (g, r)

/-- Embedding of JavaScript `parseInt` on the digit strings the callers pass
(`expression.split(' ')` parts): the numeric value of the leading digit run. -/
def parseIntJS (cs : List Char) : Nat := digitsToNat (cs.takeWhile isDig)

/-- Embedding of `expression.split(' ')` on a character list. -/
def splitOnSpace : List Char → List (List Char)
  | [] => [[]]
  | c :: rest =>
    if c = ' ' then [] :: splitOnSpace rest
    else
      match splitOnSpace rest with
      | [] => [[c]]
      | h :: t => (c :: h) :: t

/-- Embedding of `PuzzleGenerator.createSimpleEquation` (second version): parses
the expression parts, builds the same five positions as the other creators (hint
probability 0.5 here) and commits them. -/
def createSimpleEquation (g : GenState) (startX startY : Nat) (expression : String)
    (id : String) (r : Rng) : GenState × Rng :=
  let parts := splitOnSpace expression.data
  let num1 := parseIntJS (parts.getD 0 [])
  let operation := String.mk (parts.getD 1 [])
  let num2 := parseIntJS (parts.getD 2 [])
  let result := parseIntJS (parts.getD 4 [])
  let (doHint, r2) := randChance r
  let (hintIndex, r3) :=
    if doHint then
      let (i, rb) := randBelow 3 r2
      (some i, rb)
    else (none, r2)
  let positions := mkEqnPositions (startX, startY) (startX + 1, startY) (startX + 2, startY)
    (startX + 3, startY) (startX + 4, startY) operation num1 num2 result hintIndex
  let out := commitPositions id positions g
  let equation : Equation :=
    { id := id, cells := out.1, expression := expression, result := (result : Int),
      isHorizontal := true, startPosition := (startX, startY),
      isComplete := false, isValid := false }
  (pushEqn out.2 equation, r3)

/-- Embedding of the per-slot number generation in `fillWithSimpleEquations`
(addition/subtraction/multiplication with smaller bounds). -/
def simpleEquationNumbers (op : String) (r : Rng) : (Nat × Nat × Nat) × Rng :=
  if op = "+" then
    let (a, r2) := randBelow 10 r
    let (b, r3) := randBelow 10 r2
    ((a + 1, b + 1, (a + 1) + (b + 1)), r3)
  else if op = "-" then
    let (x, r2) := randBelow 15 r
    let result := x + 1
    let (y, r3) := randBelow result r2
    let num2 := y + 1
    ((result + num2, num2, result), r3)
  else if op = "*" then
    let (a, r2) := randBelow 5 r
    let (b, r3) := randBelow 5 r2
    ((a + 1, b + 1, (a + 1) * (b + 1)), r3)
  else ((2, 3, 5), r)

/-- Embedding of the inner 20-attempt placement loop in `fillWithSimpleEquations`. -/
def fillPlaceLoop : Nat → GenState → String → String → Rng → GenState × Rng
  | 0, g, _, _, r => (g, r)
  | Nat.succ fuel, g, expression, id, r =>
    let (startX, r2) := randBelow (max 1 (g.width - 4)) r
    let (startY, r3) := randBelow g.height r2
    if canPlaceHorizontalEquation g startX startY then
      createSimpleEquation g startX startY expression id r3
    else fillPlaceLoop fuel g expression id r3

/-- Embedding of the `for (let i = 0; i < needed; i++)` loop of
`fillWithSimpleEquations`, over the given list of loop indices. -/
def fillWithSimpleEquationsGo : List Nat → GenState → Rng → GenState × Rng
  | [], g, r => (g, r)
  | i :: rest, g, r =>
    let (oi, r2) := randBelow 3 r
    let op := (["+", "-", "*"]).getD oi "+"
    let (nums, r3) := simpleEquationNumbers op r2
    let expression := natToStr nums.1 ++ " " ++ op ++ " " ++ natToStr nums.2.1 ++ " = " ++
      natToStr nums.2.2
    let (g2, r4) := fillPlaceLoop 20 g expression ("simple-" ++ natToStr i) r3
    fillWithSimpleEquationsGo rest g2 r4

/-- Embedding of `PuzzleGenerator.fillWithSimpleEquations` (`needed` is computed
once at entry). -/
def fillWithSimpleEquations (g : GenState) (r : Rng) : GenState × Rng :=
  fillWithSimpleEquationsGo (List.range (g.equationCount - g.equations.length)) g r

/-- The final board assembly shared by `generatePuzzle` and `createFallbackPuzzle`. -/
def mkBoard (g : GenState) : GameBoard :=
  { cells := g.cells, equations := g.equations.map (fun e => (e.id, e)),
    gridSize := (g.width, g.height) }

/-- Embedding of `PuzzleGenerator.createFallbackPuzzle`: reset, then three fixed
simple equations, each guarded by the bounds check `y < height && x + 4 < width`. -/
def createFallbackPuzzle (width height equationCount : Nat) (r : Rng) : GameBoard × Rng :=
  let g0 := resetState width height equationCount
  let (g1, r1) :=
    if 1 < height ∧ 5 < width then createSimpleEquation g0 1 1 "2 + 3 = 5" "fallback-0" r
    else (g0, r)
  let (g2, r2) :=
    if 3 < height ∧ 5 < width then createSimpleEquation g1 1 3 "4 - 1 = 3" "fallback-1" r1
    else (g1, r1)
  let (g3, r3) :=
    if 5 < height ∧ 5 < width then createSimpleEquation g2 1 5 "3 * 2 = 6" "fallback-2" r2
    else (g2, r2)
  (mkBoard g3, r3)

/-- The generator-state pipeline of `PuzzleGenerator.generatePuzzle` (second
version): horizontal phase, vertical phase, bounded random backfill, then
simple-equation backfill if still short of the target. -/
def generatePuzzleState (width height equationCount : Nat) (r : Rng) : GenState × Rng :=
  let g0 := resetState width height equationCount
  let (g1, r1) := generateHorizontalEquations g0 r
  let (g2, r2) := generateVerticalEquations g1 r1
  let (g3, r3) := addRandomOuterLoop 50 g2 r2
  if g3.equations.length < g3.equationCount then fillWithSimpleEquations g3 r3 else (g3, r3)

/-- Embedding of `PuzzleGenerator.generatePuzzle` (second version): run the
pipeline and assemble the board. -/
def generatePuzzle (width height equationCount : Nat) (r : Rng) : GameBoard × Rng :=
  let out := generatePuzzleState width height equationCount r
  (mkBoard out.1, out.2)

/-- The per-cell contribution to the needed-number derivation in
`generateAvailableNumbers` (resolving the cell's structural role 0/2/4 in each
owning equation's parsed expression). -/
def cellNeededValues (b : GameBoard) (c : CellData) : List Int :=
  c.belongsToEquation.filterMap (fun eqId =>
    match mapGet b.equations eqId with
    | none => none
    | some equation =>
      match parseExpression equation.expression with
      | none => none
      | some (num1, _, num2, result) =>
        match idxOf equation.cells c.id with
        | some 0 => some ((num1 : Int))
        | some 2 => some ((num2 : Int))
        | some 4 => some ((result : Int))
        | _ => none)

/-- The needed-number multiset derived by `generateAvailableNumbers` before decoys
and shuffling: one pass over the cell map in insertion order. -/
def neededNumbers (b : GameBoard) : List Int :=
  b.cells.foldl (fun acc p =>
    if p.2.type == CellType.number && !p.2.isFixed then acc ++ cellNeededValues b p.2 else acc) []

/-- Embedding of the decoy draw loop: `extraCount` values in `[1, 50]`. -/
def drawExtras : Nat → Rng → List Int × Rng
  | 0, r => ([], r)
  | Nat.succ k, r =>
    let (v, r2) := randBelow 50 r
    let out := drawExtras k r2
    ((((v + 1 : Nat) : Int)) :: out.1, out.2)

/-- Embedding of the Fisher–Yates loop body of `shuffleArray`, with `i` counting
down to 1. -/
def shuffleGo : Array Int → Nat → Rng → Array Int × Rng
  | a, 0, r => (a, r)
  | a, Nat.succ k, r =>
    let i := Nat.succ k
    let (j, r2) := randBelow (i + 1) r
    let vi := a.getD i 0
    let vj := a.getD j 0
    shuffleGo ((a.setD i vj).setD j vi) k r2

/-- Embedding of `PuzzleGenerator.shuffleArray`. -/
def shuffleArray (l : List Int) (r : Rng) : List Int × Rng :=
  let out := shuffleGo l.toArray (l.length - 1) r
  (out.1.toList, out.2)

/-- Embedding of `PuzzleGenerator.generateAvailableNumbers`: needed values, then
`ceil(20%)` decoys in `[1, 50]`, then a Fisher–Yates shuffle (the float product
`0.2 * len` again agrees with exact rational arithmetic on the reachable range, so
the ceil is `(len + 4) / 5`). -/
def generateAvailableNumbers (b : GameBoard) (r : Rng) : List Int × Rng :=
  let needed := neededNumbers b
  let extraCount := (needed.length + 4) / 5
  let (extras, r2) := drawExtras extraCount r
  shuffleArray (needed ++ extras) r2

/-- Modelled from the spec: `DIFFICULTY_CONFIG` lives in the missing shared module
`src/types/game.ts`. The spec fixes easy = 10 equations on an 8×6 grid and
epic = 25 equations on a 15×12 grid, with medium and hard strictly between; the
intermediate tiers are interpolated. Each claim that quantifies over difficulty
configurations is proved for every configuration with grid at least 6×6 and a
positive equation target, which covers all four tiers. The triple is
`(equationCount, width, height)`. -/
def DIFFICULTY_CONFIG : DifficultyLevel → Nat × Nat × Nat
  | DifficultyLevel.easy => (10, 8, 6)
  | DifficultyLevel.medium => (15, 10, 8)
  | DifficultyLevel.hard => (20, 12, 10)
  | DifficultyLevel.epic => (25, 15, 12)

/-! Specification-side predicates used to state and carry the generator
invariants. These are definitions about the embedded generator, derived from the
structure of the commit code, not translations of further source code. -/

/-- The exact arithmetic relation `generateNumbers` establishes for each operator
(for subtraction and division in the product form the generator uses). -/
def opArith (op : String) (n1 n2 res : Nat) : Prop :=
  (op = "+" ∧ n1 + n2 = res) ∨
  (op = "-" ∧ res + n2 = n1) ∨
  (op = "*" ∧ n1 * n2 = res) ∨
  (op = "/" ∧ 2 ≤ n2 ∧ n1 = res * n2)

/-- The row-major key list `reset` installs in the cell map. -/
def gridKeys (w h : Nat) : List String :=
  (List.range h).flatMap (fun y => (List.range w).map (fun x => cellId x y))

/-- A committed number slot of an equation: present in the map, of number type,
owned exactly by its equation, pre-filled with its correct value when fixed and
empty otherwise. -/
def numCellOK (cells : CellMap) (cid eid : String) (v : Nat) : Prop :=
  ∃ c, mapGet cells cid = some c ∧ c.id = cid ∧ c.type = CellType.number ∧
    c.belongsToEquation = [eid] ∧
    (c.isFixed = true → c.value = some (CellValue.num (v : Int))) ∧
    (c.isFixed = false → c.value = none)

/-- A committed operator or equals slot: present, of the given type, owned exactly
by its equation, holding the given symbol, fixed. -/
def symCellOK (cells : CellMap) (cid eid : String) (t : CellType) (sv : String) : Prop :=
  ∃ c, mapGet cells cid = some c ∧ c.id = cid ∧ c.type = t ∧
    c.belongsToEquation = [eid] ∧ c.value = some (CellValue.sym sv) ∧ c.isFixed = true

/-- Structural well-formedness of one committed equation: five distinct cells in
the fixed num/op/num/equals/result order, an expression that is exactly the
construction template, an operator from the four, arithmetic that holds, and the five
cells committed consistently. -/
def EqnWF (cells : CellMap) (e : Equation) : Prop :=
  ∃ n1 n2 res : Nat, ∃ op : String, ∃ i0 i1 i2 i3 i4 : String,
    e.cells = [i0, i1, i2, i3, i4] ∧
    List.Pairwise (fun a b => a ≠ b) [i0, i1, i2, i3, i4] ∧
    e.expression = natToStr n1 ++ " " ++ op ++ " " ++ natToStr n2 ++ " = " ++ natToStr res ∧
    (op = "+" ∨ op = "-" ∨ op = "*" ∨ op = "/") ∧
    opArith op n1 n2 res ∧
    numCellOK cells i0 e.id n1 ∧
    symCellOK cells i1 e.id CellType.operator op ∧
    numCellOK cells i2 e.id n2 ∧
    symCellOK cells i3 e.id CellType.equals "=" ∧
    numCellOK cells i4 e.id res ∧
    ((∃ c, mapGet cells i0 = some c ∧ c.isFixed = false) ∨
      (∃ c, mapGet cells i2 = some c ∧ c.isFixed = false) ∨
      (∃ c, mapGet cells i4 = some c ∧ c.isFixed = false))

/-- The cells of an equation form 5 consecutive in-bounds coordinates along the
given orientation. -/
def EqnStripCells (w h : Nat) (hor : Bool) (l : List String) : Prop :=
  ∃ x y : Nat,
    (hor = true ∧
      l = [cellId x y, cellId (x + 1) y, cellId (x + 2) y, cellId (x + 3) y, cellId (x + 4) y] ∧
      x + 4 < w ∧ y < h) ∨
    (hor = false ∧
      l = [cellId x y, cellId x (y + 1), cellId x (y + 2), cellId x (y + 3), cellId x (y + 4)] ∧
      x < w ∧ y + 4 < h)

/-- The generator-state invariant maintained by every placement phase. -/
structure GenInv (g : GenState) : Prop where
  keys : g.cells.map Prod.fst = gridKeys g.width g.height
  idcoh : ∀ p ∈ g.cells, (p.2).id = p.1
  used_iff : ∀ s : String, s ∈ g.usedPositions ↔ ∃ e ∈ g.equations, s ∈ e.cells
  wf : ∀ e ∈ g.equations, EqnWF g.cells e
  strip : ∀ e ∈ g.equations, EqnStripCells g.width g.height e.isHorizontal e.cells
  fresh : ∀ p ∈ g.cells, p.1 ∉ g.usedPositions →
    (p.2).type = CellType.empty ∧ (p.2).value = none ∧ (p.2).isFixed = false ∧
    (p.2).belongsToEquation = []
  disj : List.Pairwise (fun e1 e2 => ∀ cid ∈ e1.cells, cid ∉ e2.cells) g.equations
  idnodup : List.Pairwise (fun e1 e2 => e1.id ≠ e2.id) g.equations

/-- During the first three phases every equation id is `eq-(k+1)` for some k
below the current count. -/
def IdsSeq (g : GenState) : Prop :=
  ∀ e ∈ g.equations, ∃ k, k < g.equations.length ∧ e.id = "eq-" ++ natToStr (k + 1)

/-- The player-editable number cells in cell-map order (the traversal
`generateAvailableNumbers` derives one needed value for). -/
def editableCellIds (b : GameBoard) : List String :=
  b.cells.filterMap (fun p =>
    if p.2.type == CellType.number && !p.2.isFixed then some p.1 else none)

/-- Fold a list of (tileId, cellId) placements through the engine, conjoining the
success flags. -/
def placeAll (s : GameState) (pairs : List (String × String)) : Bool × GameState :=
  pairs.foldl (fun acc pr =>
    let out := placeTileCore acc.2 pr.1 pr.2
    (acc.1 && out.1, out.2)) (true, s)

/-- Pair the k-th needed tile (`tile-k`, as `startNewGameState` names it) with the
k-th editable cell, in derivation order. -/
def neededPairs (b : GameBoard) : List (String × String) :=
  (editableCellIds b).enum.map (fun p => ("tile-" ++ natToStr p.1, p.2))

/-- The solved form of a cell: an editable number cell holds its derived needed
value, every other cell is unchanged. -/
def solveCell (b : GameBoard) (c : CellData) : CellData :=
  if c.type == CellType.number && !c.isFixed then
    { c with value := some (CellValue.num ((cellNeededValues b c).headD 0)) }
  else c

/-- The fully solved cell map of a board. -/
def solvedCells (b : GameBoard) : CellMap := b.cells.map (fun p => (p.1, solveCell b p.2))

/-- The consumed part of the tile hand: the given values with ids numbered from
`start`, all marked used. -/
def usedTilesOf (start : Nat) (vals : List Int) : List NumberTile :=
  (vals.enumFrom start).map (fun p =>
    { id := "tile-" ++ natToStr p.1, value := p.2, isUsed := true })

/-- The untouched part of the tile hand: the given values with ids numbered from
`start`, all unused (`startNewGameState` builds the `start = 0` instance). -/
def freshTilesOf (start : Nat) (vals : List Int) : List NumberTile :=
  (vals.enumFrom start).map (fun p =>
    { id := "tile-" ++ natToStr p.1, value := p.2, isUsed := false })

/-- An equation record with its progress flags cleared, for stating which parts of
the equation list the engine commands leave untouched. -/
def eqnShape (e : Equation) : Equation := { e with isComplete := false, isValid := false }

/-- A player command to the engine, for stating properties of command sequences. -/
inductive EngineOp
  | placeOp (tileId cellId : String)
  | removeOp (cellId : String)
  | undoOp

/-- Run one command, keeping the resulting state. -/
def applyOp (s : GameState) : EngineOp → GameState
  | EngineOp.placeOp t c => (placeTileCore s t c).2
  | EngineOp.removeOp c => (removeTileCore s c).2
  | EngineOp.undoOp => (undoLastMoveCore s).2

/-- Run a sequence of commands. -/
def applyOps (s : GameState) (ops : List EngineOp) : GameState := ops.foldl applyOp s

/-! Concrete states used as failing inputs, counterexamples and witnesses. -/

/-- Build one cell-map entry at grid coordinate `(x, y)`. -/
def mkCell (x y : Nat) (t : CellType) (v : Option CellValue) (fixed : Bool)
    (eqs : List String) : String × CellData :=
  (cellId x y,
   { id := cellId x y, type := t, value := v, position := (x, y), isFixed := fixed,
     isCorrect := none, belongsToEquation := eqs })

/-- The equation record `2 + 3 = 5` laid out over row 0. -/
def eqA : Equation :=
  { id := "eq-1", cells := ["0-0", "1-0", "2-0", "3-0", "4-0"], expression := "2 + 3 = 5",
    result := 5, isHorizontal := true, startPosition := (0, 0),
    isComplete := false, isValid := false }

/-- Board for the `placeTile` overwrite scenario: `_ + 3 = 5` with the first
operand still blank and the result cell already filled with 5. -/
def boardA : GameBoard :=
  { cells := [ mkCell 0 0 CellType.number none false ["eq-1"],
               mkCell 1 0 CellType.operator (some (CellValue.sym "+")) true ["eq-1"],
               mkCell 2 0 CellType.number (some (CellValue.num 3)) true ["eq-1"],
               mkCell 3 0 CellType.equals (some (CellValue.sym "=")) true ["eq-1"],
               mkCell 4 0 CellType.number (some (CellValue.num 5)) false ["eq-1"] ],
    equations := [("eq-1", eqA)], gridSize := (8, 6) }

/-- In-progress game where tile-0 (value 5) already fills cell `4-0` and tile-1
(value 7) is still unused. -/
def stateA : GameState :=
  { level := DifficultyLevel.easy, board := boardA,
    availableNumbers := [ { id := "tile-0", value := 5, isUsed := true },
                          { id := "tile-1", value := 7, isUsed := false } ],
    currentScore := 0, timeElapsed := 0, isComplete := false,
    moves := [ { type := MoveType.place, tileId := "tile-0", cellId := "4-0" } ], hints := 3 }

/-- Board `2 + 3 = _` with both operands fixed and the result cell blank. -/
def boardB : GameBoard :=
  { cells := [ mkCell 0 0 CellType.number (some (CellValue.num 2)) true ["eq-1"],
               mkCell 1 0 CellType.operator (some (CellValue.sym "+")) true ["eq-1"],
               mkCell 2 0 CellType.number (some (CellValue.num 3)) true ["eq-1"],
               mkCell 3 0 CellType.equals (some (CellValue.sym "=")) true ["eq-1"],
               mkCell 4 0 CellType.number none false ["eq-1"] ],
    equations := [("eq-1", eqA)], gridSize := (8, 6) }

/-- In-progress game on `boardB` whose move log ends with the removal of tile-0
from the result cell: undoing that removal refills the final blank. -/
def stateB : GameState :=
  { level := DifficultyLevel.easy, board := boardB,
    availableNumbers := [ { id := "tile-0", value := 5, isUsed := false } ],
    currentScore := 0, timeElapsed := 0, isComplete := false,
    moves := [ { type := MoveType.place, tileId := "tile-0", cellId := "4-0" },
               { type := MoveType.remove, tileId := "tile-0", cellId := "4-0" } ], hints := 3 }

/-- Board `2 + 3 = 5` fully filled, the result placed by the player. -/
def boardC : GameBoard :=
  { cells := [ mkCell 0 0 CellType.number (some (CellValue.num 2)) true ["eq-1"],
               mkCell 1 0 CellType.operator (some (CellValue.sym "+")) true ["eq-1"],
               mkCell 2 0 CellType.number (some (CellValue.num 3)) true ["eq-1"],
               mkCell 3 0 CellType.equals (some (CellValue.sym "=")) true ["eq-1"],
               mkCell 4 0 CellType.number (some (CellValue.num 5)) false ["eq-1"] ],
    equations := [("eq-1", eqA)], gridSize := (8, 6) }

/-- In-progress game on `boardC` with tile-0 placed on the result cell. -/
def stateC : GameState :=
  { level := DifficultyLevel.easy, board := boardC,
    availableNumbers := [ { id := "tile-0", value := 5, isUsed := true } ],
    currentScore := 0, timeElapsed := 0, isComplete := false,
    moves := [ { type := MoveType.place, tileId := "tile-0", cellId := "4-0" } ], hints := 3 }

/-- The same game after its completion flag has been set. -/
def stateD : GameState := { stateC with isComplete := true }

/-- The in-progress game `stateB` with its hints exhausted. -/
def stateE : GameState := { stateB with hints := 0 }

/-- A cell with its correctness flag normalized away: `checkEquations` only ever
rewrites `isCorrect`, so two cells with the same shape agree on everything the
engine's guards and validators read. -/
def cellShape (c : CellData) : CellData := { c with isCorrect := none }

/-! Lemmas. -/

theorem natToCharsGo_fuel (f1 f2 n : Nat) (h1 : n < f1) (h2 : n < f2) :
    natToCharsGo f1 n = natToCharsGo f2 n := by
  induction n using Nat.strong_induction_on generalizing f1 f2 with
  | _ n ih =>
    cases f1 with
    | zero => omega
    | succ g1 =>
      cases f2 with
      | zero => omega
      | succ g2 =>
        unfold natToCharsGo
        by_cases hn : n < 10
        · rw [if_pos hn, if_pos hn]
        · rw [if_neg hn, if_neg hn]
          have hdiv : n / 10 < n := Nat.div_lt_self (by omega) (by omega)
          rw [ih (n / 10) hdiv g1 g2 (by omega) (by omega)]

theorem natToChars_eq (n : Nat) :
    natToChars n = if n < 10 then [digitChar n] else natToChars (n / 10) ++ [digitChar (n % 10)] := by
  have hgo : natToChars n = natToCharsGo (Nat.succ n) n := rfl
  by_cases hn : n < 10
  · rw [if_pos hn, hgo]
    unfold natToCharsGo
    rw [if_pos hn]
  · rw [if_neg hn, hgo]
    unfold natToCharsGo
    rw [if_neg hn]
    have hdiv : n / 10 < n := Nat.div_lt_self (by omega) (by omega)
    rw [natToCharsGo_fuel n (n / 10 + 1) (n / 10) (by omega) (by omega)]
    rfl

theorem mapGet_nil {α : Type} (k : String) : mapGet ([] : List (String × α)) k = none := rfl

theorem mapGet_cons {α : Type} (p : String × α) (m : List (String × α)) (k : String) :
    mapGet (p :: m) k = if p.1 == k then some p.2 else mapGet m k := by
  unfold mapGet
  cases h : p.1 == k <;> simp [List.find?_cons, h]

theorem mapGet_updateFirst {α : Type} (m : List (String × α)) (k k' : String) (f : α → α) :
    mapGet (updateFirst m k f) k' =
      if k' = k then (mapGet m k').map f else mapGet m k' := by
  induction m with
  | nil => simp [updateFirst, mapGet_nil]
  | cons p rest ih =>
    unfold updateFirst
    cases hpk : p.1 == k
    · rw [if_neg (by simp [hpk]), mapGet_cons, mapGet_cons, ih]
      by_cases hk : k' = k
      · subst hk
        have hne : (p.1 == k') = false := hpk
        simp [hne]
      · simp [hk]
    · have hpk' : p.1 = k := by simpa using hpk
      rw [if_pos (by simp [hpk]), mapGet_cons, mapGet_cons]
      by_cases hk : k' = k
      · subst hk
        simp [hpk']
      · have hne : (p.1 == k') = false := by
          simp [hpk']
          exact fun hh => hk hh.symm
        simp [hne, hk]

theorem findTile_cons (t : NumberTile) (ts : List NumberTile) (tid : String) :
    findTile (t :: ts) tid = if t.id == tid then some t else findTile ts tid := by
  unfold findTile
  cases h : t.id == tid <;> simp [List.find?_cons, h]

theorem findTile_updateFirstTile (ts : List NumberTile) (tid : String) (f : NumberTile → NumberTile)
    (hf : ∀ t, (f t).id = t.id) :
    findTile (updateFirstTile ts tid f) tid = (findTile ts tid).map f := by
  induction ts with
  | nil => simp [updateFirstTile, findTile]
  | cons t rest ih =>
    unfold updateFirstTile
    cases h : t.id == tid
    · rw [if_neg (by simp [h]), findTile_cons, findTile_cons, ih]
      simp [h]
    · rw [if_pos (by simp [h]), findTile_cons, findTile_cons]
      have h2 : ((f t).id == tid) = true := by
        rw [hf]
        exact h
      simp [h, h2]

theorem findTile_updateFirstTile_other (ts : List NumberTile) (tid tid' : String)
    (f : NumberTile → NumberTile) (hf : ∀ t, (f t).id = t.id) (hne : tid' ≠ tid) :
    findTile (updateFirstTile ts tid f) tid' = findTile ts tid' := by
  induction ts with
  | nil => simp [updateFirstTile]
  | cons t rest ih =>
    unfold updateFirstTile
    cases h : t.id == tid
    · rw [if_neg (by simp [h]), findTile_cons, findTile_cons, ih]
    · have h1 : t.id = tid := by simpa using h
      have h2 : ((f t).id == tid') = false := by
        simp [hf, h1]
        exact fun hh => hne hh.symm
      have h3 : (t.id == tid') = false := by
        simp [h1]
        exact fun hh => hne hh.symm
      rw [if_pos (by simp [h]), findTile_cons, findTile_cons, h2, h3]
      simp

theorem cellShape_setCellCorrect (cs : CellMap) (cid : String) (v : Bool) (k : String) :
    (mapGet (setCellCorrect cs cid v) k).map cellShape = (mapGet cs k).map cellShape := by
  unfold setCellCorrect
  rw [mapGet_updateFirst]
  by_cases hk : k = cid
  · subst hk
    cases h : mapGet cs k with
    | none => simp
    | some c =>
      simp only [if_true, h, Option.map_some]
      by_cases ht : c.type = CellType.number
      · simp [ht, cellShape]
      · simp [ht, cellShape]
  · simp [hk]

theorem cellShape_foldl_setCellCorrect (cids : List String) (cs : CellMap) (v : Bool) (k : String) :
    (mapGet (cids.foldl (fun m cid => setCellCorrect m cid v) cs) k).map cellShape =
      (mapGet cs k).map cellShape := by
  induction cids generalizing cs with
  | nil => rfl
  | cons cid rest ih => rw [List.foldl_cons, ih, cellShape_setCellCorrect]

theorem isEquationComplete_shape_congr (cs cs' : CellMap) (e : Equation)
    (h : ∀ k, (mapGet cs' k).map cellShape = (mapGet cs k).map cellShape) :
    isEquationComplete cs' e = isEquationComplete cs e := by
  unfold isEquationComplete
  have hfun : ∀ cid : String,
      (match mapGet cs' cid with
        | some c => c.value.isSome || c.type == CellType.operator || c.type == CellType.equals
        | none => false) =
      (match mapGet cs cid with
        | some c => c.value.isSome || c.type == CellType.operator || c.type == CellType.equals
        | none => false) := by
    intro cid
    have hk := h cid
    cases h1 : mapGet cs cid with
    | none =>
      rw [h1] at hk
      rw [Option.map_none', Option.map_eq_none'] at hk
      rw [hk]
    | some c =>
      rw [h1] at hk
      cases h2 : mapGet cs' cid with
      | none => rw [h2] at hk; rw [Option.map_none', Option.map_some'] at hk; exact absurd hk (by simp)
      | some c' =>
        rw [h2] at hk
        simp only [Option.map_some', Option.some_inj] at hk
        have hv : c'.value = c.value := by
          have := congrArg CellData.value hk
          simpa [cellShape] using this
        have ht : c'.type = c.type := by
          have := congrArg CellData.type hk
          simpa [cellShape] using this
        simp [hv, ht]
  exact congrArg e.cells.all (funext hfun)

theorem cellValueAt_shape_congr (cs cs' : CellMap) (e : Equation)
    (h : ∀ k, (mapGet cs' k).map cellShape = (mapGet cs k).map cellShape) (i : Nat) :
    cellValueAt cs' e i = cellValueAt cs e i := by
  unfold cellValueAt
  cases e.cells.get? i with
  | none => rfl
  | some cid =>
    dsimp only
    have hk := h cid
    cases h1 : mapGet cs cid with
    | none =>
      rw [h1] at hk
      rw [Option.map_none', Option.map_eq_none'] at hk
      simp [hk, h1]
    | some c =>
      rw [h1] at hk
      cases h2 : mapGet cs' cid with
      | none => rw [h2] at hk; rw [Option.map_none', Option.map_some'] at hk; exact absurd hk (by simp)
      | some c' =>
        rw [h2] at hk
        simp only [Option.map_some', Option.some_inj] at hk
        have hv : c'.value = c.value := by
          have := congrArg CellData.value hk
          simpa [cellShape] using this
        simp [h1, h2, hv]

theorem validateEquation_shape_congr (cs cs' : CellMap) (e : Equation)
    (h : ∀ k, (mapGet cs' k).map cellShape = (mapGet cs k).map cellShape) :
    validateEquation cs' e = validateEquation cs e := by
  unfold validateEquation
  rw [cellValueAt_shape_congr cs cs' e h 0, cellValueAt_shape_congr cs cs' e h 1,
    cellValueAt_shape_congr cs cs' e h 2, cellValueAt_shape_congr cs cs' e h 4]


theorem checkEqGo_cells_shape (l : EqnMap) (cs : CellMap) (sc : Int) (k : String) :
    (mapGet (checkEqGo l cs sc).2.1 k).map cellShape = (mapGet cs k).map cellShape := by
  induction l generalizing cs sc with
  | nil => rfl
  | cons p rest ih =>
    obtain ⟨ke, equation⟩ := p
    unfold checkEqGo
    dsimp only
    rw [ih, cellShape_foldl_setCellCorrect]

theorem checkEqGo_score_mono (l : EqnMap) (cs : CellMap) (sc : Int) :
    sc ≤ (checkEqGo l cs sc).2.2 := by
  induction l generalizing cs sc with
  | nil => exact le_refl _
  | cons p rest ih =>
    obtain ⟨ke, equation⟩ := p
    unfold checkEqGo
    dsimp only
    refine le_trans ?_ (ih _ _)
    split
    · have hb : (0 : Int) ≤ SCORING_BASE_POINTS := by norm_num [SCORING_BASE_POINTS]
      omega
    · exact le_refl _

theorem checkEqGo_eqns (l : EqnMap) (cs : CellMap) (sc : Int) :
    (checkEqGo l cs sc).1 = l.map (fun p =>
      (p.1, { p.2 with isComplete := isEquationComplete cs p.2,
                       isValid := isEquationComplete cs p.2 && validateEquation cs p.2 })) := by
  induction l generalizing cs sc with
  | nil => rfl
  | cons p rest ih =>
    obtain ⟨ke, equation⟩ := p
    unfold checkEqGo
    dsimp only
    rw [ih]
    rw [List.map_cons]
    congr 1
    apply List.map_congr_left
    intro q _
    have hsh : ∀ k, (mapGet (equation.cells.foldl
        (fun m cid => setCellCorrect m cid
          (isEquationComplete cs equation && validateEquation cs equation)) cs) k).map cellShape =
        (mapGet cs k).map cellShape := fun k => cellShape_foldl_setCellCorrect _ _ _ _
    rw [isEquationComplete_shape_congr cs _ q.2 hsh, validateEquation_shape_congr cs _ q.2 hsh]

theorem checkEquations_moves (s : GameState) : (checkEquations s).moves = s.moves := rfl

theorem checkEquations_tiles (s : GameState) :
    (checkEquations s).availableNumbers = s.availableNumbers := rfl

theorem checkEquations_hints (s : GameState) : (checkEquations s).hints = s.hints := rfl

theorem checkEquations_isComplete (s : GameState) :
    (checkEquations s).isComplete = s.isComplete := rfl

theorem checkEquations_level (s : GameState) : (checkEquations s).level = s.level := rfl

theorem checkEquations_timeElapsed (s : GameState) :
    (checkEquations s).timeElapsed = s.timeElapsed := rfl

theorem checkEquations_cells_shape (s : GameState) (k : String) :
    (mapGet (checkEquations s).board.cells k).map cellShape =
      (mapGet s.board.cells k).map cellShape :=
  checkEqGo_cells_shape _ _ _ _

theorem checkEquations_score_mono (s : GameState) :
    s.currentScore ≤ (checkEquations s).currentScore :=
  checkEqGo_score_mono _ _ _

theorem checkEquations_eqns (s : GameState) :
    (checkEquations s).board.equations = s.board.equations.map (fun p =>
      (p.1, { p.2 with isComplete := isEquationComplete s.board.cells p.2,
                       isValid := isEquationComplete s.board.cells p.2 &&
                         validateEquation s.board.cells p.2 })) :=
  checkEqGo_eqns _ _ _

theorem completeGame_board (s : GameState) : (completeGame s).board = s.board := rfl

theorem completeGame_moves (s : GameState) : (completeGame s).moves = s.moves := rfl

theorem completeGame_tiles (s : GameState) :
    (completeGame s).availableNumbers = s.availableNumbers := rfl

theorem completeGame_hints (s : GameState) : (completeGame s).hints = s.hints := rfl

theorem completeGame_isComplete (s : GameState) : (completeGame s).isComplete = true := rfl

theorem completeGame_score_mono (s : GameState) :
    s.currentScore ≤ (completeGame s).currentScore := by
  unfold completeGame
  dsimp only
  have h1 : (0 : Int) ≤ max 0 (300 - s.timeElapsed) * SCORING_TIME_BONUS_MULTIPLIER := by
    apply mul_nonneg (le_max_left 0 _)
    norm_num [SCORING_TIME_BONUS_MULTIPLIER]
  have h2 : (0 : Int) ≤ SCORING_BASE_POINTS * SCORING_DIFFICULTY_MULTIPLIER s.level := by
    apply mul_nonneg
    · norm_num [SCORING_BASE_POINTS]
    · cases s.level <;> norm_num [SCORING_DIFFICULTY_MULTIPLIER]
  omega

theorem checkGameCompletion_board (s : GameState) :
    (checkGameCompletion s).board = s.board := by
  unfold checkGameCompletion
  split
  · rfl
  · split <;> rfl

theorem checkGameCompletion_moves (s : GameState) :
    (checkGameCompletion s).moves = s.moves := by
  unfold checkGameCompletion
  split
  · rfl
  · split <;> rfl

theorem checkGameCompletion_tiles (s : GameState) :
    (checkGameCompletion s).availableNumbers = s.availableNumbers := by
  unfold checkGameCompletion
  split
  · rfl
  · split <;> rfl

theorem checkGameCompletion_hints (s : GameState) :
    (checkGameCompletion s).hints = s.hints := by
  unfold checkGameCompletion
  split
  · rfl
  · split <;> rfl

theorem checkGameCompletion_score_mono (s : GameState) :
    s.currentScore ≤ (checkGameCompletion s).currentScore := by
  unfold checkGameCompletion
  split
  · exact le_refl _
  · split
    · exact completeGame_score_mono s
    · exact le_refl _

theorem checkGameCompletion_isComplete (s : GameState) :
    (checkGameCompletion s).isComplete =
      (s.isComplete || s.board.equations.all (fun p => p.2.isComplete && p.2.isValid)) := by
  unfold checkGameCompletion
  by_cases h1 : s.isComplete = true
  · rw [if_pos h1, h1]
    rfl
  · rw [if_neg h1]
    have h1f : s.isComplete = false := by
      cases hc : s.isComplete
      · rfl
      · exact absurd hc h1
    by_cases h2 : s.board.equations.all (fun p => p.2.isComplete && p.2.isValid) = true
    · rw [if_pos h2, h2, h1f]
      rfl
    · have h2f : s.board.equations.all (fun p => p.2.isComplete && p.2.isValid) = false := by
        cases hc : s.board.equations.all (fun p => p.2.isComplete && p.2.isValid)
        · rfl
        · exact absurd hc h2
      rw [if_neg h2, h2f, h1f]
      rfl


theorem mapGet_shape_proj {β : Type} (f : CellData → β) (hf : ∀ x, f (cellShape x) = f x)
    (cs cs' : CellMap) (k : String)
    (h : (mapGet cs' k).map cellShape = (mapGet cs k).map cellShape) :
    (mapGet cs' k).map f = (mapGet cs k).map f := by
  cases h1 : mapGet cs k with
  | none =>
    rw [h1] at h
    rw [Option.map_none', Option.map_eq_none'] at h
    rw [h]
  | some c =>
    rw [h1] at h
    cases h2 : mapGet cs' k with
    | none =>
      rw [h2, Option.map_none', Option.map_some'] at h
      exact absurd h (by simp)
    | some c2 =>
      rw [h2] at h
      simp only [Option.map_some', Option.some_inj] at h ⊢
      rw [← hf c2, h, hf]

theorem mapGet_some_of_shape (cs cs' : CellMap) (k : String) (c : CellData)
    (h : (mapGet cs' k).map cellShape = (mapGet cs k).map cellShape)
    (hc : mapGet cs k = some c) : ∃ c2, mapGet cs' k = some c2 := by
  rw [hc, Option.map_some'] at h
  cases h2 : mapGet cs' k with
  | none => rw [h2, Option.map_none'] at h; exact absurd h (by simp)
  | some c2 => exact ⟨c2, rfl⟩

theorem placeTileCore_hints (s : GameState) (tid cid : String) :
    ((placeTileCore s tid cid).2).hints = s.hints := by
  unfold placeTileCore
  split
  · rfl
  · split
    · split
      · rfl
      · dsimp only
        rw [checkGameCompletion_hints, checkEquations_hints]
    · rfl

theorem removeTileCore_hints (s : GameState) (cid : String) :
    ((removeTileCore s cid).2).hints = s.hints := by
  unfold removeTileCore
  split
  · rfl
  · split
    · rfl
    · split
      · rfl
      · split
        · rfl
        · split
          · rfl
          · dsimp only
            rw [checkEquations_hints]

theorem undoLastMoveCore_hints (s : GameState) :
    ((undoLastMoveCore s).2).hints = s.hints := by
  unfold undoLastMoveCore
  split
  · rfl
  · dsimp only
    rw [checkEquations_hints]
    split
    · split <;> rfl
    · split <;> rfl

theorem placeTileCore_score_mono (s : GameState) (tid cid : String) :
    s.currentScore ≤ ((placeTileCore s tid cid).2).currentScore := by
  unfold placeTileCore
  split
  · exact le_refl _
  · split
    · split
      · exact le_refl _
      · dsimp only
        refine le_trans ?_ (checkGameCompletion_score_mono _)
        exact checkEquations_score_mono _
    · exact le_refl _

theorem removeTileCore_score_mono (s : GameState) (cid : String) :
    s.currentScore ≤ ((removeTileCore s cid).2).currentScore := by
  unfold removeTileCore
  split
  · exact le_refl _
  · split
    · exact le_refl _
    · split
      · exact le_refl _
      · split
        · exact le_refl _
        · split
          · exact le_refl _
          · dsimp only
            exact checkEquations_score_mono _

theorem undoLastMoveCore_score_mono (s : GameState) :
    s.currentScore ≤ ((undoLastMoveCore s).2).currentScore := by
  unfold undoLastMoveCore
  split
  · exact le_refl _
  · dsimp only
    refine le_trans ?_ (checkEquations_score_mono _)
    split
    · split <;> exact le_refl _
    · split <;> exact le_refl _

theorem applyOp_score_mono (s : GameState) (o : EngineOp) :
    s.currentScore ≤ (applyOp s o).currentScore := by
  cases o with
  | placeOp t c => exact placeTileCore_score_mono s t c
  | removeOp c => exact removeTileCore_score_mono s c
  | undoOp => exact undoLastMoveCore_score_mono s

theorem applyOp_hints (s : GameState) (o : EngineOp) : (applyOp s o).hints = s.hints := by
  cases o with
  | placeOp t c => exact placeTileCore_hints s t c
  | removeOp c => exact removeTileCore_hints s c
  | undoOp => exact undoLastMoveCore_hints s


theorem getHint_state (s : GameState) (pick : Nat) :
    (getHint (some s) pick).2 = some s ∨
    (¬ s.hints ≤ 0 ∧ (getHint (some s) pick).2 =
      some { s with hints := s.hints - 1, currentScore := max 0 (s.currentScore - SCORING_HINT_PENALTY) }) := by
  unfold getHint
  dsimp only
  split
  · left
    rfl
  · next hh =>
    split
    · left
      rfl
    · split
      · left
        rfl
      · split
        · left
          rfl
        · right
          exact ⟨hh, rfl⟩

/-- C8: across any sequence of placeTile, removeTile and undoLastMove commands the
score never decreases: the only score changes those commands make are the
nonnegative fresh-completion award in `checkEquations` and the nonnegative
completion bonuses, and no points are ever retracted. (Only `getHint`, outside
this command set, can lower the score.) -/
theorem claim_C8_score_monotone (s : GameState) (ops : List EngineOp) :
    s.currentScore ≤ (applyOps s ops).currentScore := by
  induction ops generalizing s with
  | nil => exact le_refl _
  | cons o rest ih => exact le_trans (applyOp_score_mono s o) (ih _)

/-- C9: `getHint` returns none and leaves the hint counter and score unchanged
when there is no game, when no hints remain, or when no blank non-fixed number
cell exists; a successful hint is the only way the counter decreases (by exactly
one, never below zero, guarded by `hints ≤ 0`), the hint penalty is clamped so the
score never becomes negative, and no place/remove/undo command touches the
counter. -/
theorem claim_C9_getHint_guards (s : GameState) (pick : Nat) :
    getHint none pick = (none, none) ∧
    (s.hints ≤ 0 → getHint (some s) pick = (none, some s)) ∧
    ((∀ p ∈ s.board.cells,
        ¬(p.2.type = CellType.number ∧ p.2.isFixed = false ∧ p.2.value = none)) →
      getHint (some s) pick = (none, some s)) ∧
    (∀ s2, (getHint (some s) pick).2 = some s2 →
      (s2.hints = s.hints ∧ s2.currentScore = s.currentScore) ∨
      (0 < s.hints ∧ s2.hints = s.hints - 1 ∧
        s2.currentScore = max 0 (s.currentScore - SCORING_HINT_PENALTY) ∧
        0 ≤ s2.currentScore)) ∧
    (∀ o : EngineOp, (applyOp s o).hints = s.hints) := by
  refine ⟨rfl, ?_, ?_, ?_, applyOp_hints s⟩
  · intro h
    unfold getHint
    dsimp only
    rw [if_pos h]
  · intro hall
    unfold getHint
    dsimp only
    split
    · rfl
    · have hempty : s.board.cells.filterMap (fun p =>
          if p.2.type == CellType.number && !p.2.isFixed && p.2.value == none
          then some p.2 else none) = [] := by
        rw [List.filterMap_eq_nil_iff]
        intro p hp
        cases hx : (p.2.type == CellType.number && !p.2.isFixed && p.2.value == none)
        · simp [hx]
        · exfalso
          apply hall p hp
          simp only [Bool.and_eq_true, beq_iff_eq, Bool.not_eq_true'] at hx
          exact ⟨hx.1.1, hx.1.2, hx.2⟩
      rw [hempty]
      simp
  · intro s2 h2
    rcases getHint_state s pick with h | ⟨hh, h⟩
    · rw [h] at h2
      left
      have hs : s = s2 := by injection h2
      subst hs
      exact ⟨rfl, rfl⟩
    · rw [h] at h2
      right
      have hs : { s with hints := s.hints - 1, currentScore := max 0 (s.currentScore - SCORING_HINT_PENALTY) } = s2 := by
        injection h2
      subst hs
      exact ⟨by omega, rfl, rfl, le_max_left 0 _⟩

/-- Witness for C9: with the hints of `stateE` exhausted (0 left), a further
`getHint` call returns none and leaves the state untouched. -/
theorem claim_C9_witness :
    stateE.hints ≤ 0 ∧ getHint (some stateE) 0 = (none, some stateE) :=
  ⟨by norm_num [stateE, stateB],
   (claim_C9_getHint_guards stateE 0).2.1 (by norm_num [stateE, stateB])⟩

/-- C10 (implicit): a completed game still accepts `undoLastMove` — the move log
guard is the only one checked, the board is mutated (the structural inverse of the
popped move), the completion flag is neither re-checked nor cleared, while
`placeTile` and `removeTile` are rejected without mutation on the same state. -/
theorem claim_C10_undo_after_completion (s : GameState) (ms : List GameMove) (m : GameMove)
    (t : NumberTile) (c : CellData)
    (hcomp : s.isComplete = true)
    (hm : s.moves = ms ++ [m])
    (ht : findTile s.availableNumbers m.tileId = some t)
    (hc : mapGet s.board.cells m.cellId = some c) :
    (undoLastMoveCore s).1 = true ∧
    ((undoLastMoveCore s).2).isComplete = true ∧
    ((undoLastMoveCore s).2).moves = ms ∧
    (m.type = MoveType.place →
      (mapGet ((undoLastMoveCore s).2).board.cells m.cellId).map (fun x => x.value) =
        some none ∧
      findTile ((undoLastMoveCore s).2).availableNumbers m.tileId =
        some { t with isUsed := false }) ∧
    (m.type = MoveType.remove →
      (mapGet ((undoLastMoveCore s).2).board.cells m.cellId).map (fun x => x.value) =
        some (some (CellValue.num t.value)) ∧
      findTile ((undoLastMoveCore s).2).availableNumbers m.tileId =
        some { t with isUsed := true }) ∧
    (∀ tid cid, placeTileCore s tid cid = (false, s)) ∧
    (∀ cid, removeTileCore s cid = (false, s)) := by
  have hlast : s.moves.getLast? = some m := by
    rw [hm]
    simp
  have hdrop : s.moves.dropLast = ms := by
    rw [hm]
    simp
  have hpl : ∀ tid cid, placeTileCore s tid cid = (false, s) := by
    intro tid cid
    unfold placeTileCore
    simp [hcomp]
  have hrm : ∀ cid, removeTileCore s cid = (false, s) := by
    intro cid
    unfold removeTileCore
    simp [hcomp]
  cases hmt : m.type with
  | place =>
    have hred : undoLastMoveCore s = (true, checkEquations
        { s with moves := ms,
                 availableNumbers := updateFirstTile s.availableNumbers m.tileId (fun x => { x with isUsed := false }),
                 board := { s.board with cells := updateFirst s.board.cells m.cellId (fun x => { x with value := none }) } }) := by
      unfold undoLastMoveCore
      rw [hlast]
      dsimp only
      rw [hmt]
      dsimp only
      rw [ht, hc]
      dsimp only
      rw [hdrop]
    rw [hred]
    dsimp only
    refine ⟨rfl, ?_, ?_, ?_, ?_, hpl, hrm⟩
    · rw [checkEquations_isComplete]
      exact hcomp
    · rw [checkEquations_moves]
    · intro _
      constructor
      · rw [mapGet_shape_proj (fun x => x.value) (fun _ => rfl) _ _ _
          (checkEquations_cells_shape _ m.cellId)]
        dsimp only
        rw [mapGet_updateFirst, if_pos rfl, hc]
        rfl
      · rw [checkEquations_tiles]
        dsimp only
        rw [findTile_updateFirstTile s.availableNumbers m.tileId
          (fun x => { x with isUsed := false }) (fun _ => rfl), ht]
        rfl
    · intro hx
      exact absurd hx (by simp)
  | remove =>
    have hred : undoLastMoveCore s = (true, checkEquations
        { s with moves := ms,
                 availableNumbers := updateFirstTile s.availableNumbers m.tileId (fun x => { x with isUsed := true }),
                 board := { s.board with cells := updateFirst s.board.cells m.cellId (fun x => { x with value := some (CellValue.num t.value) }) } }) := by
      unfold undoLastMoveCore
      rw [hlast]
      dsimp only
      rw [hmt]
      dsimp only
      rw [ht, hc]
      dsimp only
      rw [hdrop]
    rw [hred]
    dsimp only
    refine ⟨rfl, ?_, ?_, ?_, ?_, hpl, hrm⟩
    · rw [checkEquations_isComplete]
      exact hcomp
    · rw [checkEquations_moves]
    · intro hx
      exact absurd hx (by simp)
    · intro _
      constructor
      · rw [mapGet_shape_proj (fun x => x.value) (fun _ => rfl) _ _ _
          (checkEquations_cells_shape _ m.cellId)]
        dsimp only
        rw [mapGet_updateFirst, if_pos rfl, hc]
        rfl
      · rw [checkEquations_tiles]
        dsimp only
        rw [findTile_updateFirstTile s.availableNumbers m.tileId
          (fun x => { x with isUsed := true }) (fun _ => rfl), ht]
        rfl

/-- Witness for C10 on the completed `stateD`: the undo is accepted and the
completion flag survives. -/
theorem claim_C10_witness :
    stateD.isComplete = true ∧ (undoLastMoveCore stateD).1 = true ∧
    ((undoLastMoveCore stateD).2).isComplete = true :=
  ⟨rfl,
   (claim_C10_undo_after_completion stateD []
      { type := MoveType.place, tileId := "tile-0", cellId := "4-0" }
      { id := "tile-0", value := 5, isUsed := true }
      { id := "4-0", type := CellType.number, value := some (CellValue.num 5), position := (4, 0), isFixed := false, isCorrect := none, belongsToEquation := ["eq-1"] }
      rfl rfl rfl rfl).1,
   (claim_C10_undo_after_completion stateD []
      { type := MoveType.place, tileId := "tile-0", cellId := "4-0" }
      { id := "tile-0", value := 5, isUsed := true }
      { id := "4-0", type := CellType.number, value := some (CellValue.num 5), position := (4, 0), isFixed := false, isCorrect := none, belongsToEquation := ["eq-1"] }
      rfl rfl rfl rfl).2.1⟩


theorem undoLastMoveCore_remove_last (w : GameState) (base : List GameMove)
    (tid cid : String) (tw : NumberTile) (cw : CellData)
    (hmv : w.moves = base ++ [{ type := MoveType.remove, tileId := tid, cellId := cid }])
    (htw : findTile w.availableNumbers tid = some tw)
    (hcw : mapGet w.board.cells cid = some cw) :
    undoLastMoveCore w = (true, checkEquations
      { w with moves := base,
               availableNumbers := updateFirstTile w.availableNumbers tid (fun x => { x with isUsed := true }),
               board := { w.board with cells := updateFirst w.board.cells cid (fun x => { x with value := some (CellValue.num tw.value) }) } }) := by
  have hlast : w.moves.getLast? =
      some { type := MoveType.remove, tileId := tid, cellId := cid } := by
    rw [hmv]
    simp
  have hdrop : w.moves.dropLast = base := by
    rw [hmv]
    simp
  unfold undoLastMoveCore
  rw [hlast]
  dsimp only
  rw [htw, hcw]
  dsimp only
  rw [hdrop]

/-- C7: on a consistent in-progress state (the most recent `place` move on the
filled cell names an existing, used tile whose value is the cell's value — the
invariant every reachable state satisfies), a successful `removeTile` followed
immediately by `undoLastMove` restores the prior cell value, sets the removed
tile's used-flag back to true, and returns the move log to exactly the
pre-removal log. -/
theorem claim_C7_remove_undo_roundtrip (s : GameState) (cellId : String) (cell : CellData)
    (v : CellValue) (pm : GameMove) (tile : NumberTile)
    (hcomp : s.isComplete = false)
    (hc : mapGet s.board.cells cellId = some cell)
    (hfix : cell.isFixed = false)
    (hval : cell.value = some v)
    (hpm : s.moves.reverse.find? (fun mv => mv.type == MoveType.place && mv.cellId == cellId) =
      some pm)
    (ht : findTile s.availableNumbers pm.tileId = some tile)
    (htv : CellValue.num tile.value = v)
    (hused : tile.isUsed = true) :
    (removeTileCore s cellId).1 = true ∧
    (undoLastMoveCore (removeTileCore s cellId).2).1 = true ∧
    ((undoLastMoveCore (removeTileCore s cellId).2).2).moves = s.moves ∧
    (mapGet ((undoLastMoveCore (removeTileCore s cellId).2).2).board.cells cellId).map
      (fun x => x.value) = some (some v) ∧
    findTile ((undoLastMoveCore (removeTileCore s cellId).2).2).availableNumbers pm.tileId =
      some tile := by
  have hrem : removeTileCore s cellId = (true, checkEquations
      { s with availableNumbers := updateFirstTile s.availableNumbers pm.tileId (fun x => { x with isUsed := false }),
               board := { s.board with cells := updateFirst s.board.cells cellId (fun x => { x with value := none }) },
               moves := s.moves ++ [{ type := MoveType.remove, tileId := pm.tileId, cellId := cellId }] }) := by
    unfold removeTileCore
    rw [if_neg (by rw [hcomp]; simp)]
    rw [hc]
    dsimp only
    rw [if_neg (by rw [hfix, hval]; simp)]
    rw [hpm]
    dsimp only
    rw [ht]
  have htile1 : findTile (removeTileCore s cellId).2.availableNumbers pm.tileId =
      some { tile with isUsed := false } := by
    rw [hrem]
    dsimp only
    rw [checkEquations_tiles]
    dsimp only
    rw [findTile_updateFirstTile s.availableNumbers pm.tileId
      (fun x => { x with isUsed := false }) (fun _ => rfl), ht]
    rfl
  have hcell1 : ∃ c1, mapGet (removeTileCore s cellId).2.board.cells cellId = some c1 := by
    rw [hrem]
    dsimp only
    apply mapGet_some_of_shape _ _ cellId ({ cell with value := none })
      (checkEquations_cells_shape _ cellId)
    dsimp only
    rw [mapGet_updateFirst, if_pos rfl, hc]
    rfl
  obtain ⟨c1, hc1⟩ := hcell1
  have hmv1 : (removeTileCore s cellId).2.moves =
      s.moves ++ [{ type := MoveType.remove, tileId := pm.tileId, cellId := cellId }] := by
    rw [hrem]
    dsimp only
    rw [checkEquations_moves]
  have hundo := undoLastMoveCore_remove_last (removeTileCore s cellId).2 s.moves
    pm.tileId cellId { tile with isUsed := false } c1 hmv1 htile1 hc1
  refine ⟨by rw [hrem], by rw [hundo], ?_, ?_, ?_⟩
  · rw [hundo]
    dsimp only
    rw [checkEquations_moves]
  · rw [hundo]
    dsimp only
    rw [mapGet_shape_proj (fun x => x.value) (fun _ => rfl) _ _ _
      (checkEquations_cells_shape _ cellId)]
    dsimp only
    rw [mapGet_updateFirst, if_pos rfl, hc1]
    simp only [Option.map_some']
    show some (some (CellValue.num tile.value)) = some (some v)
    rw [htv]
  · rw [hundo]
    dsimp only
    rw [checkEquations_tiles]
    dsimp only
    rw [findTile_updateFirstTile _ pm.tileId
      (fun x => { x with isUsed := true }) (fun _ => rfl), htile1]
    simp only [Option.map_some']
    obtain ⟨ta, tv, tu⟩ := tile
    have htu : tu = true := hused
    show some (NumberTile.mk ta tv true) = some (NumberTile.mk ta tv tu)
    rw [htu]

/-- Witness for C7 on `stateC`: removing the placed result tile and undoing the
removal restores the log, the used-flag and the cell value. -/
theorem claim_C7_witness :
    (removeTileCore stateC "4-0").1 = true ∧
    ((undoLastMoveCore (removeTileCore stateC "4-0").2).2).moves = stateC.moves ∧
    (mapGet ((undoLastMoveCore (removeTileCore stateC "4-0").2).2).board.cells "4-0").map
      (fun x => x.value) = some (some (CellValue.num 5)) := by
  have h := claim_C7_remove_undo_roundtrip stateC "4-0"
    { id := "4-0", type := CellType.number, value := some (CellValue.num 5), position := (4, 0), isFixed := false, isCorrect := none, belongsToEquation := ["eq-1"] }
    (CellValue.num 5)
    { type := MoveType.place, tileId := "tile-0", cellId := "4-0" }
    { id := "tile-0", value := 5, isUsed := true }
    rfl rfl rfl rfl rfl rfl rfl rfl
  exact ⟨h.1, h.2.2.1, h.2.2.2.1⟩


/-- C3 (amended): the in-progress → complete transition is triggered exactly by a
successful `placeTile` whose re-validation leaves every equation complete and
valid; a failed `placeTile` changes nothing, and neither `removeTile` nor
`undoLastMove` performs the completion check — they leave the completion flag
exactly as it was. -/
theorem claim_C3_completion_after_place_only :
    (∀ (s : GameState) (tid cid : String), (placeTileCore s tid cid).1 = true →
      ((placeTileCore s tid cid).2).isComplete =
        ((placeTileCore s tid cid).2).board.equations.all
          (fun p => p.2.isComplete && p.2.isValid)) ∧
    (∀ (s : GameState) (tid cid : String), (placeTileCore s tid cid).1 = false →
      (placeTileCore s tid cid).2 = s) ∧
    (∀ (s : GameState) (cid : String), ((removeTileCore s cid).2).isComplete = s.isComplete) ∧
    (∀ s : GameState, ((undoLastMoveCore s).2).isComplete = s.isComplete) := by
  refine ⟨?_, ?_, ?_, ?_⟩
  · intro s tid cid
    unfold placeTileCore
    split
    · intro h
      exact absurd h (by simp)
    · next hcomp =>
      split
      · split
        · intro h
          exact absurd h (by simp)
        · intro _
          dsimp only
          rw [checkGameCompletion_isComplete, checkGameCompletion_board]
          rw [checkEquations_isComplete]
          have hcf : s.isComplete = false := by
            cases hx : s.isComplete
            · rfl
            · exact absurd hx hcomp
          dsimp only
          rw [hcf]
          rw [Bool.false_or]
      · intro h
        exact absurd h (by simp)
  · intro s tid cid
    unfold placeTileCore
    split
    · intro _
      rfl
    · split
      · split
        · intro _
          rfl
        · intro h
          exact absurd h (by simp)
      · intro _
        rfl
  · intro s cid
    unfold removeTileCore
    split
    · rfl
    · split
      · rfl
      · split
        · rfl
        · split
          · rfl
          · split
            · rfl
            · dsimp only
              rw [checkEquations_isComplete]
  · intro s
    unfold undoLastMoveCore
    split
    · rfl
    · dsimp only
      rw [checkEquations_isComplete]
      split
      · split <;> rfl
      · split <;> rfl

/-- Witness for C3: on `stateB` (one equation `2 + 3 = _`, both operands fixed),
placing the value-5 tile on the result cell succeeds and the resulting completion
flag equals the all-equations-complete-and-valid test (both are true here). -/
theorem claim_C3_witness :
    (placeTileCore stateB "tile-0" "4-0").1 = true ∧
    ((placeTileCore stateB "tile-0" "4-0").2).isComplete =
      ((placeTileCore stateB "tile-0" "4-0").2).board.equations.all
        (fun p => p.2.isComplete && p.2.isValid) ∧
    ((placeTileCore stateB "tile-0" "4-0").2).isComplete = true :=
  ⟨rfl, claim_C3_completion_after_place_only.1 stateB "tile-0" "4-0" rfl, rfl⟩

/-- Counterexample to C3 as stated: in `stateB` the last move is the removal of
tile-0 from the result cell; `undoLastMove` refills that cell, after which every
equation in the grid is complete and valid, yet the game does not transition to
the complete state — the completion check is not performed after an undo (nor
after a remove). -/
theorem claim_C3_counterexample :
    (undoLastMoveCore stateB).1 = true ∧
    ((undoLastMoveCore stateB).2).board.equations.all
      (fun p => p.2.isComplete && p.2.isValid) = true ∧
    ((undoLastMoveCore stateB).2).isComplete = false := by
  refine ⟨rfl, ?_, rfl⟩
  decide

/-- C1 (divergence witness): on `stateA` the result cell `4-0` is already filled
(by tile-0, value 5) and tile-1 is unused. `canPlaceTile` — the engine's own
feasibility predicate — rejects the placement because the cell is not empty, yet
`placeTile` accepts it: it returns true, overwrites the cell value with 7 and
marks tile-1 used, consuming a second tile for the same cell. -/
theorem claim_C1_placeTile_overwrites :
    canPlaceTile (some stateA) "tile-1" "4-0" = false ∧
    (placeTileCore stateA "tile-1" "4-0").1 = true ∧
    ((placeTileCore stateA "tile-1" "4-0").2).availableNumbers.all (fun t => t.isUsed) = true ∧
    (mapGet ((placeTileCore stateA "tile-1" "4-0").2).board.cells "4-0").map
      (fun x => x.value) = some (some (CellValue.num 7)) ∧
    ((placeTileCore stateA "tile-1" "4-0").2).moves.length = stateA.moves.length + 1 := by
  refine ⟨rfl, rfl, ?_, ?_, rfl⟩
  · decide
  · decide


/-- C4: the operator generator only ever yields one of the four operators, and for
each operator `generateNumbers` returns a triple satisfying that operator's exact
arithmetic: addition and multiplication compute the result from operands in range,
subtraction builds `num1 = result + num2` (so `num1 > num2 > 0` and the difference
is exact), and division builds `num1 = result * num2` with a divisor in `[2, 11]`
(never zero or one), so the division is exact. -/
theorem claim_C4_generateNumbers_contract (r : Rng) :
    ((getRandomOperation r).1 = "+" ∨ (getRandomOperation r).1 = "-" ∨
      (getRandomOperation r).1 = "*" ∨ (getRandomOperation r).1 = "/") ∧
    (∀ (r2 : Rng) (n1 n2 res : Nat), (generateNumbers "+" r2).1 = (n1, n2, res) →
      n1 + n2 = res ∧ 1 ≤ n1 ∧ n1 ≤ 20 ∧ 1 ≤ n2 ∧ n2 ≤ 20) ∧
    (∀ (r2 : Rng) (n1 n2 res : Nat), (generateNumbers "-" r2).1 = (n1, n2, res) →
      n1 - n2 = res ∧ n2 < n1 ∧ 0 < n2) ∧
    (∀ (r2 : Rng) (n1 n2 res : Nat), (generateNumbers "*" r2).1 = (n1, n2, res) →
      n1 * n2 = res ∧ 1 ≤ n1 ∧ n1 ≤ 12 ∧ 1 ≤ n2 ∧ n2 ≤ 12) ∧
    (∀ (r2 : Rng) (n1 n2 res : Nat), (generateNumbers "/" r2).1 = (n1, n2, res) →
      2 ≤ n2 ∧ n2 ≤ 11 ∧ n1 = res * n2) := by
  refine ⟨?_, ?_, ?_, ?_, ?_⟩
  · unfold getRandomOperation randChance randBelow Rng.next
    dsimp only
    cases hv : (r.stream r.idx % 2 == 0)
    · rw [if_neg (by simp [hv])]
      have hk : r.stream (r.idx + 1) % 3 < 3 := Nat.mod_lt _ (by omega)
      interval_cases h : r.stream (r.idx + 1) % 3 <;> simp [h]
    · rw [if_pos (by simp [hv])]
      have hk : r.stream (r.idx + 1) % 4 < 4 := Nat.mod_lt _ (by omega)
      interval_cases h : r.stream (r.idx + 1) % 4 <;> simp [h]
  · intro r2 n1 n2 res h
    unfold generateNumbers randBelow Rng.next at h
    rw [if_pos rfl] at h
    dsimp only at h
    rw [if_neg (by omega), if_neg (by omega)] at h
    obtain ⟨h1, h2, h3⟩ := Prod.mk.injEq .. ▸ h
    have ha : r2.stream r2.idx % 20 < 20 := Nat.mod_lt _ (by omega)
    have hb : r2.stream (r2.idx + 1) % 20 < 20 := Nat.mod_lt _ (by omega)
    omega
  · intro r2 n1 n2 res h
    unfold generateNumbers randBelow Rng.next at h
    rw [if_neg (by decide), if_pos rfl] at h
    dsimp only at h
    rw [if_neg (by omega), if_neg (by omega)] at h
    obtain ⟨h1, h2, h3⟩ := Prod.mk.injEq .. ▸ h
    omega
  · intro r2 n1 n2 res h
    unfold generateNumbers randBelow Rng.next at h
    rw [if_neg (by decide), if_neg (by decide), if_pos rfl] at h
    dsimp only at h
    rw [if_neg (by omega), if_neg (by omega)] at h
    injection h with h1 hrest
    injection hrest with h2 h3
    subst h1
    subst h2
    subst h3
    have ha : r2.stream r2.idx % 12 < 12 := Nat.mod_lt _ (by omega)
    have hb : r2.stream (r2.idx + 1) % 12 < 12 := Nat.mod_lt _ (by omega)
    exact ⟨rfl, by omega, by omega, by omega, by omega⟩
  · intro r2 n1 n2 res h
    unfold generateNumbers randBelow Rng.next at h
    rw [if_neg (by decide), if_neg (by decide), if_neg (by decide), if_pos rfl] at h
    dsimp only at h
    rw [if_neg (by omega), if_neg (by omega)] at h
    obtain ⟨h1, h2, h3⟩ := Prod.mk.injEq .. ▸ h
    have hb : r2.stream (r2.idx + 1) % 10 < 10 := Nat.mod_lt _ (by omega)
    refine ⟨by omega, by omega, ?_⟩
    omega

/-- Witness for C4 at a concrete stream: the division generator yields
`(2, 2, 1)` (that is, `2 / 2 = 1`), whose divisor lies in `[2, 11]` and whose
dividend is exactly `result * divisor`. -/
theorem claim_C4_witness :
    (generateNumbers "/" { stream := fun _ => 0, idx := 0 }).1 = (2, 2, 1) ∧
    (2 ≤ 2 ∧ 2 ≤ 11 ∧ 2 = 1 * 2) :=
  ⟨rfl, (claim_C4_generateNumbers_contract { stream := fun _ => 0, idx := 0 }).2.2.2.2
    { stream := fun _ => 0, idx := 0 } 2 2 1 rfl⟩


theorem digitChar_isDig (d : Nat) (h : d < 10) : isDig (digitChar d) = true := by
  interval_cases d <;> decide

theorem digitChar_toNat (d : Nat) (h : d < 10) : (digitChar d).toNat = 48 + d := by
  interval_cases d <;> decide

theorem natToChars_ne_nil (n : Nat) : natToChars n ≠ [] := by
  rw [natToChars_eq]
  split <;> simp

theorem natToChars_digits (n : Nat) : ∀ c ∈ natToChars n, isDig c = true := by
  induction n using Nat.strong_induction_on with
  | _ n ih =>
    rw [natToChars_eq]
    by_cases h : n < 10
    · rw [if_pos h]
      intro c hc
      rw [List.mem_singleton] at hc
      subst hc
      exact digitChar_isDig n h
    · rw [if_neg h]
      intro c hc
      rw [List.mem_append] at hc
      rcases hc with hc | hc
      · exact ih (n / 10) (Nat.div_lt_self (by omega) (by omega)) c hc
      · rw [List.mem_singleton] at hc
        subst hc
        exact digitChar_isDig _ (Nat.mod_lt _ (by omega))

theorem digitsToNat_append_digit (xs : List Char) (c : Char) :
    digitsToNat (xs ++ [c]) = 10 * digitsToNat xs + (c.toNat - 48) := by
  unfold digitsToNat
  rw [List.foldl_append]
  rfl

theorem digitsToNat_natToChars (n : Nat) : digitsToNat (natToChars n) = n := by
  induction n using Nat.strong_induction_on with
  | _ n ih =>
    rw [natToChars_eq]
    by_cases h : n < 10
    · rw [if_pos h]
      show 10 * 0 + ((digitChar n).toNat - 48) = n
      rw [digitChar_toNat n h]
      omega
    · rw [if_neg h]
      rw [digitsToNat_append_digit, ih (n / 10) (Nat.div_lt_self (by omega) (by omega)),
        digitChar_toNat _ (Nat.mod_lt _ (by omega))]
      omega

theorem natToChars_inj (a b : Nat) (h : natToChars a = natToChars b) : a = b := by
  rw [← digitsToNat_natToChars a, ← digitsToNat_natToChars b, h]

theorem natToStr_data (n : Nat) : (natToStr n).data = natToChars n := rfl

theorem natToStr_inj (a b : Nat) (h : natToStr a = natToStr b) : a = b := by
  apply natToChars_inj
  rw [← natToStr_data, ← natToStr_data, h]

theorem no_sep_append_inj (sep : Char) (xs xs' ys ys' : List Char)
    (hx : ∀ c ∈ xs, c ≠ sep) (hx' : ∀ c ∈ xs', c ≠ sep)
    (h : xs ++ sep :: ys = xs' ++ sep :: ys') : xs = xs' ∧ ys = ys' := by
  induction xs generalizing xs' with
  | nil =>
    cases xs' with
    | nil => simpa using h
    | cons a t =>
      rw [List.nil_append, List.cons_append, List.cons.injEq] at h
      exact absurd h.1.symm (hx' a (by simp))
  | cons a t ih =>
    cases xs' with
    | nil =>
      rw [List.nil_append, List.cons_append, List.cons.injEq] at h
      exact absurd h.1 (hx a (by simp))
    | cons b t' =>
      rw [List.cons_append, List.cons_append, List.cons.injEq] at h
      obtain ⟨hab, hrest⟩ := h
      obtain ⟨h1, h2⟩ := ih t' (fun c hc => hx c (by simp [hc])) (fun c hc => hx' c (by simp [hc])) hrest
      exact ⟨by rw [hab, h1], h2⟩

theorem natToChars_ne_dash (n : Nat) : ∀ c ∈ natToChars n, c ≠ '-' := by
  intro c hc heq
  subst heq
  have := natToChars_digits n '-' hc
  exact absurd this (by decide)

theorem cellId_data (x y : Nat) : (cellId x y).data = natToChars x ++ '-' :: natToChars y := by
  unfold cellId
  rw [String.data_append, String.data_append, natToStr_data, natToStr_data]
  rw [List.append_assoc]
  rfl

theorem cellId_inj (x y x2 y2 : Nat) (h : cellId x y = cellId x2 y2) : x = x2 ∧ y = y2 := by
  have h2 : natToChars x ++ '-' :: natToChars y = natToChars x2 ++ '-' :: natToChars y2 := by
    rw [← cellId_data, ← cellId_data, h]
  obtain ⟨h3, h4⟩ := no_sep_append_inj '-' _ _ _ _ (natToChars_ne_dash x) (natToChars_ne_dash x2) h2
  exact ⟨natToChars_inj _ _ h3, natToChars_inj _ _ h4⟩

theorem prefix_natToStr_inj (pre : String) (a b : Nat)
    (h : pre ++ natToStr a = pre ++ natToStr b) : a = b := by
  have h2 := congrArg String.data h
  rw [String.data_append, String.data_append, natToStr_data, natToStr_data] at h2
  exact natToChars_inj _ _ (List.append_cancel_left h2)

theorem eq_id_ne_simple_id (k i : Nat) : "eq-" ++ natToStr k ≠ "simple-" ++ natToStr i := by
  intro h
  have h1 : ("eq-" ++ natToStr k).data.head? = some 'e' := by
    rw [String.data_append]
    rfl
  rw [h] at h1
  rw [String.data_append] at h1
  have h2 : ("simple-".data ++ (natToStr i).data).head? = some 's' := rfl
  rw [h2] at h1
  exact absurd h1 (by decide)


theorem natToChars_isEmpty (n : Nat) : (natToChars n).isEmpty = false := by
  cases h : natToChars n with
  | nil => exact absurd h (natToChars_ne_nil n)
  | cons c t => rfl

theorem isDig_not_ws (c : Char) (h : isDig c = true) : isWs c = false := by
  unfold isDig at h
  simp only [Bool.and_eq_true, decide_eq_true_eq] at h
  have h32 : c ≠ ' ' := by
    intro he
    subst he
    exact absurd h (by decide)
  have h9 : c ≠ '\t' := by
    intro he
    subst he
    exact absurd h (by decide)
  have h10 : c ≠ '\n' := by
    intro he
    subst he
    exact absurd h (by decide)
  have h13 : c ≠ '\r' := by
    intro he
    subst he
    exact absurd h (by decide)
  simp [isWs, h32, h9, h10, h13]

theorem takeDigits_append (ds rest : List Char) (hd : ∀ c ∈ ds, isDig c = true)
    (hr : ∀ c, rest.head? = some c → isDig c = false) :
    takeDigits (ds ++ rest) = (ds, rest) := by
  induction ds with
  | nil =>
    rw [List.nil_append]
    cases rest with
    | nil => rfl
    | cons c t =>
      have hc : isDig c = false := hr c rfl
      unfold takeDigits
      rw [hc]
      simp
  | cons d t ih =>
    have hd0 : isDig d = true := hd d (by simp)
    show takeDigits (d :: (t ++ rest)) = (d :: t, rest)
    unfold takeDigits
    rw [hd0]
    simp only [if_true]
    rw [ih (fun c hc => hd c (by simp [hc]))]

theorem takeDigits_all (ds : List Char) (hd : ∀ c ∈ ds, isDig c = true) :
    takeDigits ds = (ds, []) := by
  have := takeDigits_append ds [] hd (by intro c hc; simp at hc)
  simpa using this

theorem skipWs_cons_ws (rest : List Char) : skipWs (' ' :: rest) = skipWs rest := by
  simp only [skipWs]
  rw [if_pos (show isWs ' ' = true from rfl)]

theorem skipWs_head_not (c : Char) (rest : List Char) (h : isWs c = false) :
    skipWs (c :: rest) = c :: rest := by
  simp only [skipWs]
  rw [h]
  simp

theorem skipWs_digits_append (ds rest : List Char) (hd : ∀ c ∈ ds, isDig c = true)
    (hne : ds ≠ []) : skipWs (ds ++ rest) = ds ++ rest := by
  cases ds with
  | nil => exact absurd rfl hne
  | cons d t =>
    rw [List.cons_append]
    exact skipWs_head_not _ _ (isDig_not_ws d (hd d (by simp)))

theorem matchEqnAt_template (n1 n2 res : Nat) (opc : Char)
    (hop : isOpChar opc = true) (hopw : isWs opc = false) :
    matchEqnAt (natToChars n1 ++ ' ' :: opc :: ' ' ::
        (natToChars n2 ++ ' ' :: '=' :: ' ' :: natToChars res)) =
      some (n1, opc, n2, res) := by
  unfold matchEqnAt
  rw [takeDigits_append _ _ (natToChars_digits n1)
    (fun c hc => by injection hc with h2; rw [← h2]; rfl)]
  dsimp only
  rw [natToChars_isEmpty]
  simp only [Bool.false_eq_true, if_false]
  rw [skipWs_cons_ws, skipWs_head_not _ _ hopw]
  dsimp only
  rw [hop]
  simp only [if_true]
  rw [skipWs_cons_ws,
    skipWs_digits_append _ _ (natToChars_digits n2) (natToChars_ne_nil n2)]
  rw [takeDigits_append _ _ (natToChars_digits n2)
    (fun c hc => by injection hc with h2; rw [← h2]; rfl)]
  dsimp only
  rw [natToChars_isEmpty]
  simp only [Bool.false_eq_true, if_false]
  rw [skipWs_cons_ws, skipWs_head_not '=' _ (by decide)]
  show (if (takeDigits (skipWs (' ' :: natToChars res))).1.isEmpty = true then none
    else some (digitsToNat (natToChars n1), opc, digitsToNat (natToChars n2),
      digitsToNat (takeDigits (skipWs (' ' :: natToChars res))).1)) = some (n1, opc, n2, res)
  rw [skipWs_cons_ws,
    show skipWs (natToChars res) = natToChars res from by
      have := skipWs_digits_append (natToChars res) [] (natToChars_digits res) (natToChars_ne_nil res)
      simpa using this]
  rw [takeDigits_all _ (natToChars_digits res)]
  dsimp only
  rw [natToChars_isEmpty]
  simp only [Bool.false_eq_true, if_false]
  rw [digitsToNat_natToChars, digitsToNat_natToChars, digitsToNat_natToChars]

theorem findEqnMatch_head (l : List Char) (r : Nat × Char × Nat × Nat)
    (h : matchEqnAt l = some r) (hne : l ≠ []) : findEqnMatch l = some r := by
  cases l with
  | nil => exact absurd rfl hne
  | cons c t =>
    unfold findEqnMatch
    rw [h]

theorem parseExpression_template (n1 n2 res : Nat) (op : String)
    (hop : op = "+" ∨ op = "-" ∨ op = "*" ∨ op = "/") :
    ∃ opc : Char,
      parseExpression (natToStr n1 ++ " " ++ op ++ " " ++ natToStr n2 ++ " = " ++ natToStr res) =
        some (n1, opc, n2, res) := by
  have hdata : ∀ opc : Char, op.data = [opc] →
      (natToStr n1 ++ " " ++ op ++ " " ++ natToStr n2 ++ " = " ++ natToStr res).data =
        natToChars n1 ++ ' ' :: opc :: ' ' ::
          (natToChars n2 ++ ' ' :: '=' :: ' ' :: natToChars res) := by
    intro opc hopc
    simp only [String.data_append, natToStr_data, hopc, List.append_assoc]
    rfl
  have hne : ∀ rest : List Char, natToChars n1 ++ rest ≠ [] := by
    intro rest h
    rcases List.append_eq_nil.mp h with ⟨h1, _⟩
    exact natToChars_ne_nil n1 h1
  rcases hop with h | h | h | h <;> subst h
  · exact ⟨'+', by
      unfold parseExpression
      rw [hdata '+' rfl]
      exact findEqnMatch_head _ _ (matchEqnAt_template n1 n2 res '+' (by decide) (by decide)) (hne _)⟩
  · exact ⟨'-', by
      unfold parseExpression
      rw [hdata '-' rfl]
      exact findEqnMatch_head _ _ (matchEqnAt_template n1 n2 res '-' (by decide) (by decide)) (hne _)⟩
  · exact ⟨'*', by
      unfold parseExpression
      rw [hdata '*' rfl]
      exact findEqnMatch_head _ _ (matchEqnAt_template n1 n2 res '*' (by decide) (by decide)) (hne _)⟩
  · exact ⟨'/', by
      unfold parseExpression
      rw [hdata '/' rfl]
      exact findEqnMatch_head _ _ (matchEqnAt_template n1 n2 res '/' (by decide) (by decide)) (hne _)⟩


theorem updateFirst_keys {α : Type} (m : List (String × α)) (k : String) (f : α → α) :
    (updateFirst m k f).map Prod.fst = m.map Prod.fst := by
  induction m with
  | nil => rfl
  | cons p rest ih =>
    unfold updateFirst
    split
    · simp
    · simp [ih]

theorem mem_updateFirst {α : Type} (m : List (String × α)) (k : String) (f : α → α)
    (q : String × α) (hq : q ∈ updateFirst m k f) :
    q ∈ m ∨ ∃ v, (k, v) ∈ m ∧ q = (k, f v) := by
  induction m with
  | nil => simp [updateFirst] at hq
  | cons p rest ih =>
    unfold updateFirst at hq
    by_cases h : (p.1 == k) = true
    · rw [if_pos h] at hq
      have hpk : p.1 = k := by simpa using h
      rcases List.mem_cons.mp hq with h1 | h1
      · right
        exact ⟨p.2, by simp [← hpk], by rw [h1, hpk]⟩
      · left
        exact List.mem_cons_of_mem _ h1
    · rw [if_neg h] at hq
      rcases List.mem_cons.mp hq with h1 | h1
      · left
        rw [h1]
        exact List.mem_cons_self _ _
      · rcases ih h1 with h2 | ⟨v, hv, hqv⟩
        · left
          exact List.mem_cons_of_mem _ h2
        · right
          exact ⟨v, List.mem_cons_of_mem _ hv, hqv⟩

theorem mem_updateFirst_of_ne {α : Type} (m : List (String × α)) (k : String) (f : α → α)
    (q : String × α) (hq : q ∈ updateFirst m k f) (hk : q.1 ≠ k) : q ∈ m := by
  rcases mem_updateFirst m k f q hq with h | ⟨v, _, hqv⟩
  · exact h
  · exact absurd (by rw [hqv]) hk

theorem updateFirst_pres {α : Type} (P : String × α → Prop) (m : List (String × α))
    (k : String) (f : α → α) (hf : ∀ k0 v, P (k0, v) → P (k0, f v))
    (hall : ∀ q ∈ m, P q) : ∀ q ∈ updateFirst m k f, P q := by
  intro q hq
  rcases mem_updateFirst m k f q hq with h | ⟨v, hv, hqv⟩
  · exact hall q h
  · rw [hqv]
    exact hf k v (hall (k, v) hv)

theorem mapGet_mem {α : Type} (m : List (String × α)) (k : String) (v : α)
    (h : mapGet m k = some v) : (k, v) ∈ m := by
  induction m with
  | nil => exact absurd h (by simp [mapGet, List.find?])
  | cons p rest ih =>
    rw [mapGet_cons] at h
    by_cases hpk : (p.1 == k) = true
    · rw [if_pos hpk] at h
      have hpk2 : p.1 = k := by simpa using hpk
      have hv : p.2 = v := by injection h
      exact List.mem_cons.mpr (Or.inl (by rw [← hpk2, ← hv]))
    · rw [if_neg hpk] at h
      exact List.mem_cons_of_mem _ (ih h)

theorem mem_keys_mapGet {α : Type} (m : List (String × α)) (k : String)
    (h : k ∈ m.map Prod.fst) : ∃ v, mapGet m k = some v := by
  induction m with
  | nil => simp at h
  | cons p rest ih =>
    rw [mapGet_cons]
    by_cases hpk : (p.1 == k) = true
    · rw [if_pos hpk]
      exact ⟨p.2, rfl⟩
    · rw [if_neg hpk]
      apply ih
      rcases List.mem_map.mp h with ⟨q, hq, hqk⟩
      rcases List.mem_cons.mp hq with h1 | h1
      · exact absurd (by rw [h1] at hqk; simp [hqk]) hpk
      · exact List.mem_map.mpr ⟨q, h1, hqk⟩

theorem mapGet_of_mem_nodup {α : Type} (m : List (String × α)) (k : String) (v : α)
    (hm : (k, v) ∈ m) (hnd : (m.map Prod.fst).Nodup) : mapGet m k = some v := by
  induction m with
  | nil => simp at hm
  | cons p rest ih =>
    rw [List.map_cons, List.nodup_cons] at hnd
    rw [mapGet_cons]
    rcases List.mem_cons.mp hm with h1 | h1
    · rw [← h1]
      simp
    · have hk : p.1 ≠ k := by
        intro he
        apply hnd.1
        rw [he]
        exact List.mem_map.mpr ⟨(k, v), h1, rfl⟩
      rw [if_neg (by simpa using hk)]
      exact ih h1 hnd.2

theorem mem_gridKeys (w h x y : Nat) (hx : x < w) (hy : y < h) :
    cellId x y ∈ gridKeys w h := by
  unfold gridKeys
  rw [List.mem_flatMap]
  exact ⟨y, List.mem_range.mpr hy, List.mem_map.mpr ⟨x, List.mem_range.mpr hx, rfl⟩⟩

theorem gridKeys_nodup (w h : Nat) : (gridKeys w h).Nodup := by
  unfold gridKeys
  rw [List.nodup_flatMap]
  constructor
  · intro y _
    apply List.Nodup.map
    · intro a b hab
      exact (cellId_inj a y b y hab).1
    · exact List.nodup_range w
  · apply List.Pairwise.imp ?_ (List.nodup_range h)
    intro y1 y2 hne
    simp only [Function.onFun]
    rw [List.disjoint_left]
    intro k hk1 hk2
    rcases List.mem_map.mp hk1 with ⟨x1, _, he1⟩
    rcases List.mem_map.mp hk2 with ⟨x2, _, he2⟩
    exact hne ((cellId_inj x1 y1 x2 y2 (by rw [he1, he2])).2)

theorem commitPositions_fst (eid : String) (ps : List PosSpec) (g : GenState) :
    (commitPositions eid ps g).1 = ps.map (fun p => cellId p.x p.y) := by
  induction ps generalizing g with
  | nil => rfl
  | cons p rest ih =>
    unfold commitPositions
    dsimp only
    rw [ih]
    rfl

theorem commitPositions_used (eid : String) (ps : List PosSpec) (g : GenState) :
    (commitPositions eid ps g).2.usedPositions =
      g.usedPositions ++ ps.map (fun p => cellId p.x p.y) := by
  induction ps generalizing g with
  | nil => simp [commitPositions]
  | cons p rest ih =>
    unfold commitPositions
    dsimp only
    rw [ih]
    dsimp only
    rw [List.append_assoc]
    rfl

theorem commitPositions_dims (eid : String) (ps : List PosSpec) (g : GenState) :
    (commitPositions eid ps g).2.width = g.width ∧
    (commitPositions eid ps g).2.height = g.height ∧
    (commitPositions eid ps g).2.equationCount = g.equationCount ∧
    (commitPositions eid ps g).2.equations = g.equations := by
  induction ps generalizing g with
  | nil => exact ⟨rfl, rfl, rfl, rfl⟩
  | cons p rest ih =>
    unfold commitPositions
    dsimp only
    exact ih _

theorem commitPositions_keys (eid : String) (ps : List PosSpec) (g : GenState) :
    (commitPositions eid ps g).2.cells.map Prod.fst = g.cells.map Prod.fst := by
  induction ps generalizing g with
  | nil => rfl
  | cons p rest ih =>
    unfold commitPositions
    dsimp only
    rw [ih]
    dsimp only
    exact updateFirst_keys _ _ _

theorem commitPositions_cells_other (eid : String) (ps : List PosSpec) (g : GenState)
    (k : String) (hk : k ∉ ps.map (fun p => cellId p.x p.y)) :
    mapGet (commitPositions eid ps g).2.cells k = mapGet g.cells k := by
  induction ps generalizing g with
  | nil => rfl
  | cons p rest ih =>
    rw [List.map_cons] at hk
    unfold commitPositions
    dsimp only
    rw [ih _ (fun hmem => hk (List.mem_cons_of_mem _ hmem))]
    dsimp only
    rw [mapGet_updateFirst, if_neg (fun he => hk (by rw [he]; exact List.mem_cons_self _ _))]

theorem commitPositions_cells_mem (eid : String) (ps : List PosSpec) (g : GenState)
    (hnd : (ps.map (fun p => cellId p.x p.y)).Nodup) (p : PosSpec) (hp : p ∈ ps) :
    mapGet (commitPositions eid ps g).2.cells (cellId p.x p.y) =
      (mapGet g.cells (cellId p.x p.y)).map (fun c =>
        { c with type := p.ctype, value := p.value, isFixed := p.isFixed,
                 belongsToEquation := c.belongsToEquation ++ [eid] }) := by
  induction ps generalizing g with
  | nil => simp at hp
  | cons q rest ih =>
    rw [List.map_cons, List.nodup_cons] at hnd
    unfold commitPositions
    dsimp only
    rcases List.mem_cons.mp hp with h1 | h1
    · subst h1
      rw [commitPositions_cells_other eid rest _ _ hnd.1]
      dsimp only
      rw [mapGet_updateFirst, if_pos rfl]
    · have hne : cellId p.x p.y ≠ cellId q.x q.y := by
        intro he
        apply hnd.1
        rw [← he]
        exact List.mem_map.mpr ⟨p, h1, rfl⟩
      rw [ih _ hnd.2 h1]
      dsimp only
      rw [mapGet_updateFirst, if_neg hne]

theorem commitPositions_mem_cells_of_ne (eid : String) (ps : List PosSpec) (g : GenState)
    (q : String × CellData) (hq : q ∈ (commitPositions eid ps g).2.cells)
    (hk : q.1 ∉ ps.map (fun p => cellId p.x p.y)) : q ∈ g.cells := by
  induction ps generalizing g with
  | nil => exact hq
  | cons p rest ih =>
    rw [List.map_cons] at hk
    unfold commitPositions at hq
    dsimp only at hq
    have h1 := ih _ hq (fun hmem => hk (List.mem_cons_of_mem _ hmem))
    exact mem_updateFirst_of_ne _ _ _ _ h1
      (fun he => hk (by rw [he]; exact List.mem_cons_self _ _))

theorem commitPositions_idcoh (eid : String) (ps : List PosSpec) (g : GenState)
    (hall : ∀ q ∈ g.cells, (q.2).id = q.1) :
    ∀ q ∈ (commitPositions eid ps g).2.cells, (q.2).id = q.1 := by
  induction ps generalizing g with
  | nil => exact hall
  | cons p rest ih =>
    unfold commitPositions
    dsimp only
    apply ih
    exact updateFirst_pres (fun q : String × CellData => q.2.id = q.1) g.cells (cellId p.x p.y)
      (fun c => { c with type := p.ctype, value := p.value, isFixed := p.isFixed, belongsToEquation := c.belongsToEquation ++ [eid] })
      (fun _ _ hv => hv) hall


theorem cellId_ne_of_ne (x y x2 y2 : Nat) (hne : x ≠ x2 ∨ y ≠ y2) :
    cellId x y ≠ cellId x2 y2 := by
  intro h
  rcases cellId_inj x y x2 y2 h with ⟨h1, h2⟩
  rcases hne with h3 | h3
  · exact h3 h1
  · exact h3 h2

theorem nodup5 (a b c d e : String) (h01 : a ≠ b) (h02 : a ≠ c) (h03 : a ≠ d) (h04 : a ≠ e)
    (h12 : b ≠ c) (h13 : b ≠ d) (h14 : b ≠ e) (h23 : c ≠ d) (h24 : c ≠ e) (h34 : d ≠ e) :
    ([a, b, c, d, e] : List String).Nodup := by
  simp [List.nodup_cons, List.mem_cons, h01, h02, h03, h04, h12, h13, h14, h23, h24, h34]

theorem EqnStripCells_nodup (w h : Nat) (hor : Bool) (l : List String)
    (hs : EqnStripCells w h hor l) : l.Nodup := by
  obtain ⟨x, y, hc⟩ := hs
  rcases hc with ⟨_, hl, _, _⟩ | ⟨_, hl, _, _⟩ <;> rw [hl] <;>
    exact nodup5 _ _ _ _ _
      (cellId_ne_of_ne _ _ _ _ (by omega)) (cellId_ne_of_ne _ _ _ _ (by omega))
      (cellId_ne_of_ne _ _ _ _ (by omega)) (cellId_ne_of_ne _ _ _ _ (by omega))
      (cellId_ne_of_ne _ _ _ _ (by omega)) (cellId_ne_of_ne _ _ _ _ (by omega))
      (cellId_ne_of_ne _ _ _ _ (by omega)) (cellId_ne_of_ne _ _ _ _ (by omega))
      (cellId_ne_of_ne _ _ _ _ (by omega)) (cellId_ne_of_ne _ _ _ _ (by omega))

theorem EqnStripCells_bounds (w h : Nat) (hor : Bool) (l : List String)
    (hs : EqnStripCells w h hor l) :
    ∀ cid ∈ l, ∃ x y : Nat, x < w ∧ y < h ∧ cid = cellId x y := by
  obtain ⟨x, y, hc⟩ := hs
  rcases hc with ⟨_, hl, hx, hy⟩ | ⟨_, hl, hx, hy⟩ <;> rw [hl] <;> intro cid hcid <;>
    simp only [List.mem_cons, List.not_mem_nil, or_false] at hcid <;>
    rcases hcid with h1 | h1 | h1 | h1 | h1 <;> rw [h1] <;>
    refine ⟨_, _, ?_, ?_, rfl⟩ <;> omega

theorem resetState_cells_mem (w h c : Nat) (p : String × CellData)
    (hp : p ∈ (resetState w h c).cells) :
    ∃ x y : Nat, x < w ∧ y < h ∧ p = (cellId x y, emptyCell x y) := by
  unfold resetState at hp
  dsimp only at hp
  rw [List.mem_flatMap] at hp
  obtain ⟨y, hy, hp2⟩ := hp
  rw [List.mem_map] at hp2
  obtain ⟨x, hx, he⟩ := hp2
  exact ⟨x, y, List.mem_range.mp hx, List.mem_range.mp hy, he.symm⟩

theorem resetState_keys (w h c : Nat) :
    (resetState w h c).cells.map Prod.fst = gridKeys w h := by
  have hrow : ∀ y : Nat, ((List.range w).map
      (fun x => (cellId x y, emptyCell x y))).map Prod.fst =
      (List.range w).map (fun x => cellId x y) := by
    intro y
    rw [List.map_map]
    rfl
  unfold resetState gridKeys
  dsimp only
  rw [List.map_flatMap]
  simp only [hrow]

theorem resetState_inv (w h c : Nat) : GenInv (resetState w h c) := by
  refine ⟨resetState_keys w h c, ?_, ?_, ?_, ?_, ?_, ?_, ?_⟩
  · intro p hp
    obtain ⟨x, y, _, _, he⟩ := resetState_cells_mem w h c p hp
    rw [he]
    rfl
  · intro s
    constructor
    · intro hs
      exact absurd hs (by simp [resetState])
    · rintro ⟨e, he, _⟩
      exact absurd he (by simp [resetState])
  · intro e he
    exact absurd he (by simp [resetState])
  · intro e he
    exact absurd he (by simp [resetState])
  · intro p hp _
    obtain ⟨x, y, _, _, he⟩ := resetState_cells_mem w h c p hp
    rw [he]
    exact ⟨rfl, rfl, rfl, rfl⟩
  · simp [resetState]
  · simp [resetState]

theorem resetState_idsSeq (w h c : Nat) : IdsSeq (resetState w h c) := by
  intro e he
  exact absurd he (by simp [resetState])

theorem commitPositions_cells_at (eid : String) (ps : List PosSpec) (g : GenState)
    (hnd : (ps.map (fun p => cellId p.x p.y)).Nodup)
    (x y : Nat) (t : CellType) (v : Option CellValue) (fx : Bool)
    (hp : (⟨x, y, t, v, fx⟩ : PosSpec) ∈ ps) :
    mapGet (commitPositions eid ps g).2.cells (cellId x y) =
      (mapGet g.cells (cellId x y)).map (fun c =>
        { c with type := t, value := v, isFixed := fx,
                 belongsToEquation := c.belongsToEquation ++ [eid] }) :=
  commitPositions_cells_mem eid ps g hnd ⟨x, y, t, v, fx⟩ hp

theorem committed_numCellOK (g : GenState) (hg : GenInv g) (eid : String)
    (x y : Nat) (hx : x < g.width) (hy : y < g.height)
    (hfr : cellId x y ∉ g.usedPositions) (cells2 : CellMap) (v : Nat) (hi : Option Nat)
    (slot : Nat)
    (hget : mapGet cells2 (cellId x y) = (mapGet g.cells (cellId x y)).map (fun c =>
      { c with type := CellType.number, value := hintNumValue hi slot v, isFixed := hi == some slot, belongsToEquation := c.belongsToEquation ++ [eid] })) :
    numCellOK cells2 (cellId x y) eid v := by
  obtain ⟨c, hc⟩ := mem_keys_mapGet g.cells (cellId x y)
    (by rw [hg.keys]; exact mem_gridKeys g.width g.height x y hx hy)
  have hmem := mapGet_mem g.cells (cellId x y) c hc
  have hid : c.id = cellId x y := hg.idcoh (cellId x y, c) hmem
  have hfresh := hg.fresh (cellId x y, c) hmem hfr
  refine ⟨{ c with type := CellType.number, value := hintNumValue hi slot v, isFixed := hi == some slot, belongsToEquation := c.belongsToEquation ++ [eid] }, by rw [hget, hc]; rfl, hid, rfl, ?_, ?_, ?_⟩
  · show c.belongsToEquation ++ [eid] = [eid]
    rw [hfresh.2.2.2]
    rfl
  · intro hfx
    have hfx2 : (hi == some slot) = true := hfx
    show hintNumValue hi slot v = some (CellValue.num (v : Int))
    simp [hintNumValue, hfx2]
  · intro hfx
    have hfx2 : (hi == some slot) = false := hfx
    show hintNumValue hi slot v = none
    simp [hintNumValue, hfx2]

theorem committed_symCellOK (g : GenState) (hg : GenInv g) (eid : String)
    (x y : Nat) (hx : x < g.width) (hy : y < g.height)
    (hfr : cellId x y ∉ g.usedPositions) (cells2 : CellMap)
    (t : CellType) (sv : String)
    (hget : mapGet cells2 (cellId x y) = (mapGet g.cells (cellId x y)).map (fun c =>
      { c with type := t, value := some (CellValue.sym sv), isFixed := true, belongsToEquation := c.belongsToEquation ++ [eid] })) :
    symCellOK cells2 (cellId x y) eid t sv := by
  obtain ⟨c, hc⟩ := mem_keys_mapGet g.cells (cellId x y)
    (by rw [hg.keys]; exact mem_gridKeys g.width g.height x y hx hy)
  have hmem := mapGet_mem g.cells (cellId x y) c hc
  have hid : c.id = cellId x y := hg.idcoh (cellId x y, c) hmem
  have hfresh := hg.fresh (cellId x y, c) hmem hfr
  refine ⟨{ c with type := t, value := some (CellValue.sym sv), isFixed := true, belongsToEquation := c.belongsToEquation ++ [eid] }, by rw [hget, hc]; rfl, hid, rfl, ?_, rfl, rfl⟩
  show c.belongsToEquation ++ [eid] = [eid]
  rw [hfresh.2.2.2]
  rfl

theorem EqnWF_of_agree (cells cells2 : CellMap) (e : Equation)
    (hag : ∀ cid ∈ e.cells, mapGet cells2 cid = mapGet cells cid) (hwf : EqnWF cells e) :
    EqnWF cells2 e := by
  obtain ⟨n1, n2, res, op, i0, i1, i2, i3, i4, hc, hpw, hex, hop, har, h0, h1, h2, h3, h4, h5⟩ :=
    hwf
  have hmem : ∀ i ∈ ([i0, i1, i2, i3, i4] : List String),
      mapGet cells2 i = mapGet cells i := by
    intro i hi
    exact hag i (by rw [hc]; exact hi)
  refine ⟨n1, n2, res, op, i0, i1, i2, i3, i4, hc, hpw, hex, hop, har, ?_, ?_, ?_, ?_, ?_, ?_⟩
  · obtain ⟨c, hcg, hrest⟩ := h0
    exact ⟨c, (hmem i0 (by simp)).trans hcg, hrest⟩
  · obtain ⟨c, hcg, hrest⟩ := h1
    exact ⟨c, (hmem i1 (by simp)).trans hcg, hrest⟩
  · obtain ⟨c, hcg, hrest⟩ := h2
    exact ⟨c, (hmem i2 (by simp)).trans hcg, hrest⟩
  · obtain ⟨c, hcg, hrest⟩ := h3
    exact ⟨c, (hmem i3 (by simp)).trans hcg, hrest⟩
  · obtain ⟨c, hcg, hrest⟩ := h4
    exact ⟨c, (hmem i4 (by simp)).trans hcg, hrest⟩
  · rcases h5 with ⟨c, hcg, hfx⟩ | ⟨c, hcg, hfx⟩ | ⟨c, hcg, hfx⟩
    · exact Or.inl ⟨c, (hmem i0 (by simp)).trans hcg, hfx⟩
    · exact Or.inr (Or.inl ⟨c, (hmem i2 (by simp)).trans hcg, hfx⟩)
    · exact Or.inr (Or.inr ⟨c, (hmem i4 (by simp)).trans hcg, hfx⟩)


theorem commit_mkEqn_inv (g : GenState) (hg : GenInv g) (eid : String)
    (heid : ∀ e0 ∈ g.equations, e0.id ≠ eid)
    (c0 c1 c2 c3 c4 : Nat × Nat) (op : String) (n1 n2 res : Nat) (hintIndex : Option Nat)
    (hop : op = "+" ∨ op = "-" ∨ op = "*" ∨ op = "/")
    (har : opArith op n1 n2 res)
    (hor : Bool)
    (hstrip : EqnStripCells g.width g.height hor
      [cellId c0.1 c0.2, cellId c1.1 c1.2, cellId c2.1 c2.2, cellId c3.1 c3.2, cellId c4.1 c4.2])
    (hfree : ∀ cid ∈ ([cellId c0.1 c0.2, cellId c1.1 c1.2, cellId c2.1 c2.2, cellId c3.1 c3.2,
      cellId c4.1 c4.2] : List String), cid ∉ g.usedPositions)
    (e : Equation) (he_id : e.id = eid)
    (he_cells : e.cells =
      (commitPositions eid (mkEqnPositions c0 c1 c2 c3 c4 op n1 n2 res hintIndex) g).1)
    (he_expr : e.expression =
      natToStr n1 ++ " " ++ op ++ " " ++ natToStr n2 ++ " = " ++ natToStr res)
    (he_hor : e.isHorizontal = hor) :
    GenInv (pushEqn
      (commitPositions eid (mkEqnPositions c0 c1 c2 c3 c4 op n1 n2 res hintIndex) g).2 e) := by
  have hnd : ((mkEqnPositions c0 c1 c2 c3 c4 op n1 n2 res hintIndex).map
      (fun p => cellId p.x p.y)).Nodup := EqnStripCells_nodup _ _ _ _ hstrip
  have hcells_eq : e.cells = (mkEqnPositions c0 c1 c2 c3 c4 op n1 n2 res hintIndex).map
      (fun p => cellId p.x p.y) := by
    rw [he_cells, commitPositions_fst]
  have hbnd : ∀ k l : Nat, cellId k l ∈ (mkEqnPositions c0 c1 c2 c3 c4 op n1 n2 res
      hintIndex).map (fun p => cellId p.x p.y) → k < g.width ∧ l < g.height := by
    intro k l hkl
    obtain ⟨x, y, hx, hy, he2⟩ := EqnStripCells_bounds _ _ _ _ hstrip _ hkl
    obtain ⟨h1, h2⟩ := cellId_inj k l x y he2
    exact ⟨h1 ▸ hx, h2 ▸ hy⟩
  have hid0 : cellId c0.1 c0.2 ∈ (mkEqnPositions c0 c1 c2 c3 c4 op n1 n2 res hintIndex).map
      (fun p => cellId p.x p.y) := by simp [mkEqnPositions]
  have hid1 : cellId c1.1 c1.2 ∈ (mkEqnPositions c0 c1 c2 c3 c4 op n1 n2 res hintIndex).map
      (fun p => cellId p.x p.y) := by simp [mkEqnPositions]
  have hid2 : cellId c2.1 c2.2 ∈ (mkEqnPositions c0 c1 c2 c3 c4 op n1 n2 res hintIndex).map
      (fun p => cellId p.x p.y) := by simp [mkEqnPositions]
  have hid3 : cellId c3.1 c3.2 ∈ (mkEqnPositions c0 c1 c2 c3 c4 op n1 n2 res hintIndex).map
      (fun p => cellId p.x p.y) := by simp [mkEqnPositions]
  have hid4 : cellId c4.1 c4.2 ∈ (mkEqnPositions c0 c1 c2 c3 c4 op n1 n2 res hintIndex).map
      (fun p => cellId p.x p.y) := by simp [mkEqnPositions]
  have hget0 := commitPositions_cells_at eid _ g hnd c0.1 c0.2 CellType.number
    (hintNumValue hintIndex 0 n1) (hintIndex == some 0) (by simp [mkEqnPositions])
  have hget1 := commitPositions_cells_at eid _ g hnd c1.1 c1.2 CellType.operator
    (some (CellValue.sym op)) true (by simp [mkEqnPositions])
  have hget2 := commitPositions_cells_at eid _ g hnd c2.1 c2.2 CellType.number
    (hintNumValue hintIndex 1 n2) (hintIndex == some 1) (by simp [mkEqnPositions])
  have hget3 := commitPositions_cells_at eid _ g hnd c3.1 c3.2 CellType.equals
    (some (CellValue.sym "=")) true (by simp [mkEqnPositions])
  have hget4 := commitPositions_cells_at eid _ g hnd c4.1 c4.2 CellType.number
    (hintNumValue hintIndex 2 res) (hintIndex == some 2) (by simp [mkEqnPositions])
  have hnum0 := committed_numCellOK g hg eid c0.1 c0.2 (hbnd _ _ hid0).1 (hbnd _ _ hid0).2
    (hfree _ hid0) _ n1 hintIndex 0 hget0
  have hsym1 := committed_symCellOK g hg eid c1.1 c1.2 (hbnd _ _ hid1).1 (hbnd _ _ hid1).2
    (hfree _ hid1) _ CellType.operator op hget1
  have hnum2 := committed_numCellOK g hg eid c2.1 c2.2 (hbnd _ _ hid2).1 (hbnd _ _ hid2).2
    (hfree _ hid2) _ n2 hintIndex 1 hget2
  have hsym3 := committed_symCellOK g hg eid c3.1 c3.2 (hbnd _ _ hid3).1 (hbnd _ _ hid3).2
    (hfree _ hid3) _ CellType.equals "=" hget3
  have hnum4 := committed_numCellOK g hg eid c4.1 c4.2 (hbnd _ _ hid4).1 (hbnd _ _ hid4).2
    (hfree _ hid4) _ res hintIndex 2 hget4
  have hused := commitPositions_used eid (mkEqnPositions c0 c1 c2 c3 c4 op n1 n2 res hintIndex) g
  have hdims := commitPositions_dims eid (mkEqnPositions c0 c1 c2 c3 c4 op n1 n2 res hintIndex) g
  have hkeys := commitPositions_keys eid (mkEqnPositions c0 c1 c2 c3 c4 op n1 n2 res hintIndex) g
  refine ⟨?_, ?_, ?_, ?_, ?_, ?_, ?_, ?_⟩
  · dsimp only [pushEqn]
    rw [hkeys, hdims.1, hdims.2.1, hg.keys]
  · dsimp only [pushEqn]
    exact commitPositions_idcoh eid _ g hg.idcoh
  · intro s
    dsimp only [pushEqn]
    rw [hused, hdims.2.2.2]
    constructor
    · intro hs
      rcases List.mem_append.mp hs with h1 | h1
      · obtain ⟨e0, he0, hce⟩ := (hg.used_iff s).mp h1
        exact ⟨e0, List.mem_append.mpr (Or.inl he0), hce⟩
      · refine ⟨e, List.mem_append.mpr (Or.inr (List.mem_singleton.mpr rfl)), ?_⟩
        rw [hcells_eq]
        exact h1
    · rintro ⟨e0, he0, hce⟩
      rcases List.mem_append.mp he0 with h1 | h1
      · exact List.mem_append.mpr (Or.inl ((hg.used_iff s).mpr ⟨e0, h1, hce⟩))
      · rw [List.mem_singleton.mp h1, hcells_eq] at hce
        exact List.mem_append.mpr (Or.inr hce)
  · intro e0 he0
    dsimp only [pushEqn] at he0 ⊢
    rw [hdims.2.2.2] at he0
    rcases List.mem_append.mp he0 with h1 | h1
    · refine EqnWF_of_agree g.cells _ e0 ?_ (hg.wf e0 h1)
      intro cid hcid
      apply commitPositions_cells_other
      intro hmem
      exact hfree cid hmem ((hg.used_iff cid).mpr ⟨e0, h1, hcid⟩)
    · rw [List.mem_singleton.mp h1]
      refine ⟨n1, n2, res, op, cellId c0.1 c0.2, cellId c1.1 c1.2, cellId c2.1 c2.2,
        cellId c3.1 c3.2, cellId c4.1 c4.2, ?_, ?_, he_expr, hop, har, ?_, ?_, ?_, ?_, ?_, ?_⟩
      · rw [hcells_eq]
        rfl
      · exact hnd
      · rw [he_id]
        exact hnum0
      · rw [he_id]
        exact hsym1
      · rw [he_id]
        exact hnum2
      · rw [he_id]
        exact hsym3
      · rw [he_id]
        exact hnum4
      · by_cases hh0 : (hintIndex == some 0) = true
        · refine Or.inr (Or.inl ?_)
          obtain ⟨cb, hcb⟩ := mem_keys_mapGet g.cells (cellId c2.1 c2.2)
            (by rw [hg.keys]; exact mem_gridKeys g.width g.height c2.1 c2.2 (hbnd _ _ hid2).1 (hbnd _ _ hid2).2)
          refine ⟨_, by rw [hget2, hcb]; rfl, ?_⟩
          show (hintIndex == some 1) = false
          have hh : hintIndex = some 0 := by simpa using hh0
          rw [hh]
          decide
        · refine Or.inl ?_
          obtain ⟨cb, hcb⟩ := mem_keys_mapGet g.cells (cellId c0.1 c0.2)
            (by rw [hg.keys]; exact mem_gridKeys g.width g.height c0.1 c0.2 (hbnd _ _ hid0).1 (hbnd _ _ hid0).2)
          refine ⟨_, by rw [hget0, hcb]; rfl, ?_⟩
          show (hintIndex == some 0) = false
          cases hb : (hintIndex == some 0) with
          | false => rfl
          | true => exact absurd hb hh0
  · intro e0 he0
    dsimp only [pushEqn] at he0 ⊢
    rw [hdims.2.2.2] at he0
    rw [hdims.1, hdims.2.1]
    rcases List.mem_append.mp he0 with h1 | h1
    · exact hg.strip e0 h1
    · rw [List.mem_singleton.mp h1, he_hor, hcells_eq]
      exact hstrip
  · intro p hp hpu
    dsimp only [pushEqn] at hp hpu
    rw [hused] at hpu
    have hpid : p.1 ∉ (mkEqnPositions c0 c1 c2 c3 c4 op n1 n2 res hintIndex).map
        (fun q => cellId q.x q.y) := fun hmem => hpu (List.mem_append.mpr (Or.inr hmem))
    have hpg : p ∈ g.cells := commitPositions_mem_cells_of_ne eid _ g p hp hpid
    exact hg.fresh p hpg (fun hmem => hpu (List.mem_append.mpr (Or.inl hmem)))
  · dsimp only [pushEqn]
    rw [hdims.2.2.2]
    rw [List.pairwise_append]
    refine ⟨hg.disj, by simp, ?_⟩
    intro a ha b hb cid hcid
    rw [List.mem_singleton.mp hb, hcells_eq]
    intro hmem
    exact hfree cid hmem ((hg.used_iff cid).mpr ⟨a, ha, hcid⟩)
  · dsimp only [pushEqn]
    rw [hdims.2.2.2]
    rw [List.pairwise_append]
    refine ⟨hg.idnodup, by simp, ?_⟩
    intro a ha b hb
    rw [List.mem_singleton.mp hb, he_id]
    exact heid a ha

theorem commit_mkEqn_inv_record (g : GenState) (hg : GenInv g) (eid : String)
    (heid : ∀ e0 ∈ g.equations, e0.id ≠ eid)
    (c0 c1 c2 c3 c4 : Nat × Nat) (op : String) (n1 n2 res : Nat) (hintIndex : Option Nat)
    (hop : op = "+" ∨ op = "-" ∨ op = "*" ∨ op = "/")
    (har : opArith op n1 n2 res)
    (hor : Bool)
    (hstrip : EqnStripCells g.width g.height hor
      [cellId c0.1 c0.2, cellId c1.1 c1.2, cellId c2.1 c2.2, cellId c3.1 c3.2, cellId c4.1 c4.2])
    (hfree : ∀ cid ∈ ([cellId c0.1 c0.2, cellId c1.1 c1.2, cellId c2.1 c2.2, cellId c3.1 c3.2,
      cellId c4.1 c4.2] : List String), cid ∉ g.usedPositions)
    (sp : Nat × Nat) :
    GenInv (pushEqn
      (commitPositions eid (mkEqnPositions c0 c1 c2 c3 c4 op n1 n2 res hintIndex) g).2
      { id := eid,
        cells := (commitPositions eid (mkEqnPositions c0 c1 c2 c3 c4 op n1 n2 res hintIndex) g).1,
        expression := natToStr n1 ++ " " ++ op ++ " " ++ natToStr n2 ++ " = " ++ natToStr res,
        result := (res : Int), isHorizontal := hor, startPosition := sp,
        isComplete := false, isValid := false }) :=
  commit_mkEqn_inv g hg eid heid c0 c1 c2 c3 c4 op n1 n2 res hintIndex hop har hor hstrip hfree
    _ rfl rfl rfl rfl


theorem getD_ops4 (i : Nat) :
    ((["+", "-", "*", "/"] : List String).getD i "+") = "+" ∨
    ((["+", "-", "*", "/"] : List String).getD i "+") = "-" ∨
    ((["+", "-", "*", "/"] : List String).getD i "+") = "*" ∨
    ((["+", "-", "*", "/"] : List String).getD i "+") = "/" := by
  match i with
  | 0 => exact Or.inl rfl
  | 1 => exact Or.inr (Or.inl rfl)
  | 2 => exact Or.inr (Or.inr (Or.inl rfl))
  | 3 => exact Or.inr (Or.inr (Or.inr rfl))
  | (n + 4) => exact Or.inl rfl

theorem getD_ops3 (i : Nat) :
    ((["+", "-", "*"] : List String).getD i "+") = "+" ∨
    ((["+", "-", "*"] : List String).getD i "+") = "-" ∨
    ((["+", "-", "*"] : List String).getD i "+") = "*" := by
  match i with
  | 0 => exact Or.inl rfl
  | 1 => exact Or.inr (Or.inl rfl)
  | 2 => exact Or.inr (Or.inr rfl)
  | (n + 3) => exact Or.inl rfl

theorem getRandomOperation_mem (r : Rng) :
    (getRandomOperation r).1 = "+" ∨ (getRandomOperation r).1 = "-" ∨
    (getRandomOperation r).1 = "*" ∨ (getRandomOperation r).1 = "/" := by
  unfold getRandomOperation randChance randBelow Rng.next
  dsimp only
  by_cases h : (r.stream r.idx % 2 == 0) = true
  · rw [if_pos h]
    exact getD_ops4 _
  · rw [if_neg h]
    rcases getD_ops3 (r.stream (r.idx + 1) % 3) with h1 | h1 | h1
    · exact Or.inl h1
    · exact Or.inr (Or.inl h1)
    · exact Or.inr (Or.inr (Or.inl h1))

theorem generateNumbers_opArith (op : String) (r : Rng)
    (hop : op = "+" ∨ op = "-" ∨ op = "*" ∨ op = "/") :
    opArith op ((generateNumbers op r).1).1 ((generateNumbers op r).1).2.1
      ((generateNumbers op r).1).2.2 := by
  rcases hop with h | h | h | h <;> subst h
  · unfold generateNumbers randBelow Rng.next
    rw [if_pos rfl]
    exact Or.inl ⟨rfl, rfl⟩
  · unfold generateNumbers randBelow Rng.next
    rw [if_neg (by decide), if_pos rfl]
    exact Or.inr (Or.inl ⟨rfl, rfl⟩)
  · unfold generateNumbers randBelow Rng.next
    rw [if_neg (by decide), if_neg (by decide), if_pos rfl]
    exact Or.inr (Or.inr (Or.inl ⟨rfl, rfl⟩))
  · unfold generateNumbers randBelow Rng.next
    rw [if_neg (by decide), if_neg (by decide), if_neg (by decide), if_pos rfl]
    exact Or.inr (Or.inr (Or.inr ⟨rfl, Nat.le_add_left 2 _, rfl⟩))

theorem contains_false_not_mem (l : List String) (a : String)
    (h : l.contains a = false) : a ∉ l := by
  simp at h
  exact h

theorem canPlaceH_spec (g : GenState) (sx sy : Nat)
    (h : canPlaceHorizontalEquation g sx sy = true) (i : Nat) (hi : i < 5) :
    sx + i < g.width ∧ cellId (sx + i) sy ∉ g.usedPositions := by
  unfold canPlaceHorizontalEquation at h
  rw [List.all_eq_true] at h
  have h2 := h i (List.mem_range.mpr hi)
  rw [Bool.and_eq_true] at h2
  refine ⟨by exact_mod_cast of_decide_eq_true h2.1, ?_⟩
  apply contains_false_not_mem
  rw [Bool.not_eq_true'] at h2
  exact h2.2

theorem canPlaceV_spec (g : GenState) (sx sy : Nat)
    (h : canPlaceVerticalEquation g sx sy = true) (i : Nat) (hi : i < 5) :
    sy + i < g.height ∧ cellId sx (sy + i) ∉ g.usedPositions := by
  unfold canPlaceVerticalEquation at h
  rw [List.all_eq_true] at h
  have h2 := h i (List.mem_range.mpr hi)
  rw [Bool.and_eq_true] at h2
  refine ⟨by exact_mod_cast of_decide_eq_true h2.1, ?_⟩
  apply contains_false_not_mem
  rw [Bool.not_eq_true'] at h2
  exact h2.2


theorem commit_push_post (eid : String) (ps : List PosSpec) (g : GenState) (e : Equation) :
    (pushEqn (commitPositions eid ps g).2 e).equations = g.equations ++ [e] ∧
    (pushEqn (commitPositions eid ps g).2 e).width = g.width ∧
    (pushEqn (commitPositions eid ps g).2 e).height = g.height ∧
    (pushEqn (commitPositions eid ps g).2 e).equationCount = g.equationCount := by
  have hdims := commitPositions_dims eid ps g
  refine ⟨?_, ?_, ?_, ?_⟩
  · dsimp only [pushEqn]
    rw [hdims.2.2.2]
  · dsimp only [pushEqn]
    exact hdims.1
  · dsimp only [pushEqn]
    exact hdims.2.1
  · dsimp only [pushEqn]
    exact hdims.2.2.1

theorem idsSeq_append_aux (l : List Equation)
    (hids : ∀ e ∈ l, ∃ k, k < l.length ∧ e.id = "eq-" ++ natToStr (k + 1)) (e : Equation)
    (he : e.id = "eq-" ++ natToStr (l.length + 1)) (e0 : Equation) (he0 : e0 ∈ l ++ [e]) :
    ∃ k, k < (l ++ [e]).length ∧ e0.id = "eq-" ++ natToStr (k + 1) := by
  rw [List.length_append, List.length_singleton]
  rcases List.mem_append.mp he0 with h1 | h1
  · obtain ⟨k, hk, hk2⟩ := hids e0 h1
    exact ⟨k, by omega, hk2⟩
  · rw [List.mem_singleton.mp h1]
    exact ⟨l.length, by omega, he⟩

theorem randBelow_lt (n : Nat) (r : Rng) (h : 0 < n) : (randBelow n r).1 < n := by
  unfold randBelow Rng.next
  dsimp only
  rw [if_neg (by omega)]
  exact Nat.mod_lt _ h

theorem createStripEquation_inv (g : GenState) (hg : GenInv g) (hids : IdsSeq g)
    (hor : Bool) (sx sy : Nat) (r : Rng)
    (hcanH : hor = true → canPlaceHorizontalEquation g sx sy = true)
    (hcanV : hor = false → canPlaceVerticalEquation g sx sy = true)
    (hy : hor = true → sy < g.height) (hx : hor = false → sx < g.width) :
    GenInv (createStripEquation g hor sx sy r).1 ∧
    IdsSeq (createStripEquation g hor sx sy r).1 ∧
    (∃ e : Equation, (createStripEquation g hor sx sy r).1.equations = g.equations ++ [e] ∧
      e.isHorizontal = hor) ∧
    (createStripEquation g hor sx sy r).1.width = g.width ∧
    (createStripEquation g hor sx sy r).1.height = g.height ∧
    (createStripEquation g hor sx sy r).1.equationCount = g.equationCount := by
  have heid : ∀ e0 ∈ g.equations, e0.id ≠ "eq-" ++ natToStr (g.equations.length + 1) := by
    intro e0 he0 hq
    obtain ⟨k, hk, hk2⟩ := hids e0 he0
    rw [hk2] at hq
    have := prefix_natToStr_inj "eq-" (k + 1) (g.equations.length + 1) hq
    omega
  have hopm := getRandomOperation_mem r
  unfold createStripEquation
  rw [show getRandomOperation r = ((getRandomOperation r).1, (getRandomOperation r).2) from rfl]
  dsimp only
  generalize hOP : (getRandomOperation r).1 = operation
  rw [hOP] at hopm
  generalize hR2 : (getRandomOperation r).2 = r2
  have harith := generateNumbers_opArith operation r2 hopm
  rw [show generateNumbers operation r2 =
    ((generateNumbers operation r2).1, (generateNumbers operation r2).2) from rfl]
  dsimp only
  generalize hN : (generateNumbers operation r2).1 = nums
  rw [hN] at harith
  generalize hR3 : (generateNumbers operation r2).2 = r3
  rw [show randChance r3 = ((randChance r3).1, (randChance r3).2) from rfl]
  dsimp only
  generalize hDH : (randChance r3).1 = doHint
  generalize hR4 : (randChance r3).2 = r4
  cases hor with
  | true =>
    have hstripH : EqnStripCells g.width g.height true
        [cellId sx sy, cellId (sx + 1) sy, cellId (sx + 2) sy, cellId (sx + 3) sy,
         cellId (sx + 4) sy] := by
      refine ⟨sx, sy, Or.inl ⟨rfl, rfl, ?_, hy rfl⟩⟩
      exact (canPlaceH_spec g sx sy (hcanH rfl) 4 (by omega)).1
    have hfreeH : ∀ cid ∈ ([cellId sx sy, cellId (sx + 1) sy, cellId (sx + 2) sy,
        cellId (sx + 3) sy, cellId (sx + 4) sy] : List String), cid ∉ g.usedPositions := by
      intro cid hcid
      rcases List.mem_cons.mp hcid with h1 | hcid
      · rw [h1]
        simpa using (canPlaceH_spec g sx sy (hcanH rfl) 0 (by omega)).2
      rcases List.mem_cons.mp hcid with h1 | hcid
      · rw [h1]
        exact (canPlaceH_spec g sx sy (hcanH rfl) 1 (by omega)).2
      rcases List.mem_cons.mp hcid with h1 | hcid
      · rw [h1]
        exact (canPlaceH_spec g sx sy (hcanH rfl) 2 (by omega)).2
      rcases List.mem_cons.mp hcid with h1 | hcid
      · rw [h1]
        exact (canPlaceH_spec g sx sy (hcanH rfl) 3 (by omega)).2
      rcases List.mem_cons.mp hcid with h1 | hcid
      · rw [h1]
        exact (canPlaceH_spec g sx sy (hcanH rfl) 4 (by omega)).2
      · exact absurd hcid (List.not_mem_nil _)
    rw [if_pos rfl]
    cases doHint with
    | false =>
      rw [if_neg (by decide)]
      dsimp only
      refine ⟨?_, ?_, ?_, ?_, ?_, ?_⟩
      · exact commit_mkEqn_inv_record g hg _ heid (sx, sy) (sx + 1, sy) (sx + 2, sy) (sx + 3, sy)
          (sx + 4, sy) operation _ _ _ _ hopm harith true hstripH hfreeH (sx, sy)
      · intro e0 he0
        dsimp only [pushEqn] at he0 ⊢
        rw [(commitPositions_dims _ _ _).2.2.2] at he0 ⊢
        exact idsSeq_append_aux g.equations hids _ rfl e0 he0
      · dsimp only [pushEqn]
        rw [(commitPositions_dims _ _ _).2.2.2]
        exact ⟨_, rfl, rfl⟩
      · dsimp only [pushEqn]
        exact (commitPositions_dims _ _ _).1
      · dsimp only [pushEqn]
        exact (commitPositions_dims _ _ _).2.1
      · dsimp only [pushEqn]
        exact (commitPositions_dims _ _ _).2.2.1
    | true =>
      rw [if_pos rfl]
      dsimp only [randBelow, Rng.next]
      refine ⟨?_, ?_, ?_, ?_, ?_, ?_⟩
      · exact commit_mkEqn_inv_record g hg _ heid (sx, sy) (sx + 1, sy) (sx + 2, sy) (sx + 3, sy)
          (sx + 4, sy) operation _ _ _ _ hopm harith true hstripH hfreeH (sx, sy)
      · intro e0 he0
        dsimp only [pushEqn] at he0 ⊢
        rw [(commitPositions_dims _ _ _).2.2.2] at he0 ⊢
        exact idsSeq_append_aux g.equations hids _ rfl e0 he0
      · dsimp only [pushEqn]
        rw [(commitPositions_dims _ _ _).2.2.2]
        exact ⟨_, rfl, rfl⟩
      · dsimp only [pushEqn]
        exact (commitPositions_dims _ _ _).1
      · dsimp only [pushEqn]
        exact (commitPositions_dims _ _ _).2.1
      · dsimp only [pushEqn]
        exact (commitPositions_dims _ _ _).2.2.1
  | false =>
    have hstripV : EqnStripCells g.width g.height false
        [cellId sx sy, cellId sx (sy + 1), cellId sx (sy + 2), cellId sx (sy + 3),
         cellId sx (sy + 4)] := by
      refine ⟨sx, sy, Or.inr ⟨rfl, rfl, hx rfl, ?_⟩⟩
      exact (canPlaceV_spec g sx sy (hcanV rfl) 4 (by omega)).1
    have hfreeV : ∀ cid ∈ ([cellId sx sy, cellId sx (sy + 1), cellId sx (sy + 2),
        cellId sx (sy + 3), cellId sx (sy + 4)] : List String), cid ∉ g.usedPositions := by
      intro cid hcid
      rcases List.mem_cons.mp hcid with h1 | hcid
      · rw [h1]
        simpa using (canPlaceV_spec g sx sy (hcanV rfl) 0 (by omega)).2
      rcases List.mem_cons.mp hcid with h1 | hcid
      · rw [h1]
        exact (canPlaceV_spec g sx sy (hcanV rfl) 1 (by omega)).2
      rcases List.mem_cons.mp hcid with h1 | hcid
      · rw [h1]
        exact (canPlaceV_spec g sx sy (hcanV rfl) 2 (by omega)).2
      rcases List.mem_cons.mp hcid with h1 | hcid
      · rw [h1]
        exact (canPlaceV_spec g sx sy (hcanV rfl) 3 (by omega)).2
      rcases List.mem_cons.mp hcid with h1 | hcid
      · rw [h1]
        exact (canPlaceV_spec g sx sy (hcanV rfl) 4 (by omega)).2
      · exact absurd hcid (List.not_mem_nil _)
    rw [if_neg (by decide)]
    cases doHint with
    | false =>
      rw [if_neg (by decide)]
      dsimp only
      refine ⟨?_, ?_, ?_, ?_, ?_, ?_⟩
      · exact commit_mkEqn_inv_record g hg _ heid (sx, sy) (sx, sy + 1) (sx, sy + 2) (sx, sy + 3)
          (sx, sy + 4) operation _ _ _ _ hopm harith false hstripV hfreeV (sx, sy)
      · intro e0 he0
        dsimp only [pushEqn] at he0 ⊢
        rw [(commitPositions_dims _ _ _).2.2.2] at he0 ⊢
        exact idsSeq_append_aux g.equations hids _ rfl e0 he0
      · dsimp only [pushEqn]
        rw [(commitPositions_dims _ _ _).2.2.2]
        exact ⟨_, rfl, rfl⟩
      · dsimp only [pushEqn]
        exact (commitPositions_dims _ _ _).1
      · dsimp only [pushEqn]
        exact (commitPositions_dims _ _ _).2.1
      · dsimp only [pushEqn]
        exact (commitPositions_dims _ _ _).2.2.1
    | true =>
      rw [if_pos rfl]
      dsimp only [randBelow, Rng.next]
      refine ⟨?_, ?_, ?_, ?_, ?_, ?_⟩
      · exact commit_mkEqn_inv_record g hg _ heid (sx, sy) (sx, sy + 1) (sx, sy + 2) (sx, sy + 3)
          (sx, sy + 4) operation _ _ _ _ hopm harith false hstripV hfreeV (sx, sy)
      · intro e0 he0
        dsimp only [pushEqn] at he0 ⊢
        rw [(commitPositions_dims _ _ _).2.2.2] at he0 ⊢
        exact idsSeq_append_aux g.equations hids _ rfl e0 he0
      · dsimp only [pushEqn]
        rw [(commitPositions_dims _ _ _).2.2.2]
        exact ⟨_, rfl, rfl⟩
      · dsimp only [pushEqn]
        exact (commitPositions_dims _ _ _).1
      · dsimp only [pushEqn]
        exact (commitPositions_dims _ _ _).2.1
      · dsimp only [pushEqn]
        exact (commitPositions_dims _ _ _).2.2.1


theorem natToChars_ne_space (n : Nat) : ∀ c ∈ natToChars n, c ≠ ' ' := by
  intro c hc he
  have hd := natToChars_digits n c hc
  rw [he] at hd
  exact absurd hd (by decide)

theorem takeWhile_all (p : Char → Bool) (l : List Char) (h : ∀ c ∈ l, p c = true) :
    l.takeWhile p = l := by
  induction l with
  | nil => rfl
  | cons c t ih =>
    rw [List.takeWhile_cons, if_pos (h c (List.mem_cons_self _ _))]
    rw [ih (fun d hd => h d (List.mem_cons_of_mem _ hd))]

theorem parseIntJS_natToChars (n : Nat) : parseIntJS (natToChars n) = n := by
  unfold parseIntJS
  rw [takeWhile_all isDig _ (natToChars_digits n)]
  exact digitsToNat_natToChars n

theorem splitOnSpace_sep (xs rest : List Char) (hxs : ∀ c ∈ xs, c ≠ ' ') :
    splitOnSpace (xs ++ ' ' :: rest) = xs :: splitOnSpace rest := by
  induction xs with
  | nil =>
    show splitOnSpace (' ' :: rest) = [] :: splitOnSpace rest
    simp only [splitOnSpace]
    rw [if_pos trivial]
  | cons c xs ih =>
    have hc : c ≠ ' ' := hxs c (List.mem_cons_self _ _)
    show splitOnSpace (c :: (xs ++ ' ' :: rest)) = (c :: xs) :: splitOnSpace rest
    simp only [splitOnSpace]
    rw [if_neg hc, ih (fun d hd => hxs d (List.mem_cons_of_mem _ hd))]

theorem splitOnSpace_single_sep (c : Char) (rest : List Char) (hc : c ≠ ' ') :
    splitOnSpace (c :: ' ' :: rest) = [c] :: splitOnSpace rest := by
  show splitOnSpace (([c] : List Char) ++ ' ' :: rest) = [c] :: splitOnSpace rest
  exact splitOnSpace_sep [c] rest (by intro d hd; rw [List.mem_singleton.mp hd]; exact hc)

theorem splitOnSpace_ne_nil (l : List Char) : splitOnSpace l ≠ [] := by
  cases l with
  | nil => exact fun h => List.noConfusion h
  | cons c t =>
    unfold splitOnSpace
    by_cases hc : c = ' '
    · rw [if_pos hc]
      exact fun h => List.noConfusion h
    · rw [if_neg hc]
      cases hs : splitOnSpace t with
      | nil => exact fun h => List.noConfusion h
      | cons h2 t2 => exact fun h => List.noConfusion h

theorem splitOnSpace_nosep (xs : List Char) (hxs : ∀ c ∈ xs, c ≠ ' ') :
    splitOnSpace xs = [xs] := by
  induction xs with
  | nil => rfl
  | cons c t ih =>
    have hc : c ≠ ' ' := hxs c (List.mem_cons_self _ _)
    unfold splitOnSpace
    rw [if_neg hc, ih (fun d hd => hxs d (List.mem_cons_of_mem _ hd))]

theorem simpleEquationNumbers_opArith (op : String) (r : Rng)
    (hop : op = "+" ∨ op = "-" ∨ op = "*") :
    opArith op ((simpleEquationNumbers op r).1).1 ((simpleEquationNumbers op r).1).2.1
      ((simpleEquationNumbers op r).1).2.2 := by
  rcases hop with h | h | h <;> subst h
  · unfold simpleEquationNumbers randBelow Rng.next
    rw [if_pos rfl]
    exact Or.inl ⟨rfl, rfl⟩
  · unfold simpleEquationNumbers randBelow Rng.next
    rw [if_neg (by decide), if_pos rfl]
    exact Or.inr (Or.inl ⟨rfl, rfl⟩)
  · unfold simpleEquationNumbers randBelow Rng.next
    rw [if_neg (by decide), if_neg (by decide), if_pos rfl]
    exact Or.inr (Or.inr (Or.inl ⟨rfl, rfl⟩))


theorem createSimpleEquation_inv (g : GenState) (hg : GenInv g) (sx sy : Nat)
    (a b c : Nat) (op : String) (hop3 : op = "+" ∨ op = "-" ∨ op = "*")
    (har : opArith op a b c) (eqid : String)
    (heid : ∀ e0 ∈ g.equations, e0.id ≠ eqid) (r : Rng)
    (hcan : canPlaceHorizontalEquation g sx sy = true) (hy : sy < g.height) :
    GenInv (createSimpleEquation g sx sy
      (natToStr a ++ " " ++ op ++ " " ++ natToStr b ++ " = " ++ natToStr c) eqid r).1 ∧
    (∃ e : Equation, (createSimpleEquation g sx sy
      (natToStr a ++ " " ++ op ++ " " ++ natToStr b ++ " = " ++ natToStr c) eqid r).1.equations =
        g.equations ++ [e] ∧ e.id = eqid) ∧
    (createSimpleEquation g sx sy
      (natToStr a ++ " " ++ op ++ " " ++ natToStr b ++ " = " ++ natToStr c) eqid r).1.width =
      g.width ∧
    (createSimpleEquation g sx sy
      (natToStr a ++ " " ++ op ++ " " ++ natToStr b ++ " = " ++ natToStr c) eqid r).1.height =
      g.height ∧
    (createSimpleEquation g sx sy
      (natToStr a ++ " " ++ op ++ " " ++ natToStr b ++ " = " ++ natToStr c) eqid
      r).1.equationCount = g.equationCount := by
  have hstripH : EqnStripCells g.width g.height true
      [cellId sx sy, cellId (sx + 1) sy, cellId (sx + 2) sy, cellId (sx + 3) sy,
       cellId (sx + 4) sy] := by
    refine ⟨sx, sy, Or.inl ⟨rfl, rfl, ?_, hy⟩⟩
    exact (canPlaceH_spec g sx sy hcan 4 (by omega)).1
  have hfreeH : ∀ cid ∈ ([cellId sx sy, cellId (sx + 1) sy, cellId (sx + 2) sy,
      cellId (sx + 3) sy, cellId (sx + 4) sy] : List String), cid ∉ g.usedPositions := by
    intro cid hcid
    rcases List.mem_cons.mp hcid with h1 | hcid
    · rw [h1]
      simpa using (canPlaceH_spec g sx sy hcan 0 (by omega)).2
    rcases List.mem_cons.mp hcid with h1 | hcid
    · rw [h1]
      exact (canPlaceH_spec g sx sy hcan 1 (by omega)).2
    rcases List.mem_cons.mp hcid with h1 | hcid
    · rw [h1]
      exact (canPlaceH_spec g sx sy hcan 2 (by omega)).2
    rcases List.mem_cons.mp hcid with h1 | hcid
    · rw [h1]
      exact (canPlaceH_spec g sx sy hcan 3 (by omega)).2
    rcases List.mem_cons.mp hcid with h1 | hcid
    · rw [h1]
      exact (canPlaceH_spec g sx sy hcan 4 (by omega)).2
    · exact absurd hcid (List.not_mem_nil _)
  have hop4 : op = "+" ∨ op = "-" ∨ op = "*" ∨ op = "/" := by
    rcases hop3 with h | h | h
    · exact Or.inl h
    · exact Or.inr (Or.inl h)
    · exact Or.inr (Or.inr (Or.inl h))
  obtain ⟨opc, hopc, hnsp⟩ : ∃ opc : Char, op.data = [opc] ∧ opc ≠ ' ' := by
    rcases hop3 with h | h | h <;> subst h
    · exact ⟨'+', rfl, by decide⟩
    · exact ⟨'-', rfl, by decide⟩
    · exact ⟨'*', rfl, by decide⟩
  have hdata : (natToStr a ++ " " ++ op ++ " " ++ natToStr b ++ " = " ++ natToStr c).data =
      natToChars a ++ ' ' :: opc :: ' ' :: (natToChars b ++ ' ' :: '=' :: ' ' :: natToChars c) := by
    simp only [String.data_append, natToStr_data, hopc, List.append_assoc]
    rfl
  have hparts : splitOnSpace (natToStr a ++ " " ++ op ++ " " ++ natToStr b ++ " = " ++
      natToStr c).data = [natToChars a, [opc], natToChars b, ['='], natToChars c] := by
    rw [hdata, splitOnSpace_sep _ _ (natToChars_ne_space a),
      splitOnSpace_single_sep opc _ hnsp, splitOnSpace_sep _ _ (natToChars_ne_space b),
      splitOnSpace_single_sep '=' _ (by decide), splitOnSpace_nosep _ (natToChars_ne_space c)]
  have hg0 : parseIntJS (([natToChars a, [opc], natToChars b, ['='], natToChars c] :
      List (List Char)).getD 0 []) = a := parseIntJS_natToChars a
  have hg2 : parseIntJS (([natToChars a, [opc], natToChars b, ['='], natToChars c] :
      List (List Char)).getD 2 []) = b := parseIntJS_natToChars b
  have hg4 : parseIntJS (([natToChars a, [opc], natToChars b, ['='], natToChars c] :
      List (List Char)).getD 4 []) = c := parseIntJS_natToChars c
  have hop1 : String.mk (([natToChars a, [opc], natToChars b, ['='], natToChars c] :
      List (List Char)).getD 1 []) = op := by
    show String.mk [opc] = op
    rw [← hopc]
  unfold createSimpleEquation
  dsimp only
  rw [hparts, hg0, hop1, hg2, hg4]
  rw [show randChance r = ((randChance r).1, (randChance r).2) from rfl]
  dsimp only
  generalize hDH : (randChance r).1 = doHint
  generalize hR2 : (randChance r).2 = r2
  cases doHint with
  | false =>
    rw [if_neg (by decide)]
    dsimp only
    refine ⟨?_, ?_, ?_, ?_, ?_⟩
    · exact commit_mkEqn_inv_record g hg _ heid (sx, sy) (sx + 1, sy) (sx + 2, sy) (sx + 3, sy)
        (sx + 4, sy) op _ _ _ _ hop4 har true hstripH hfreeH (sx, sy)
    · dsimp only [pushEqn]
      rw [(commitPositions_dims _ _ _).2.2.2]
      exact ⟨_, rfl, rfl⟩
    · dsimp only [pushEqn]
      exact (commitPositions_dims _ _ _).1
    · dsimp only [pushEqn]
      exact (commitPositions_dims _ _ _).2.1
    · dsimp only [pushEqn]
      exact (commitPositions_dims _ _ _).2.2.1
  | true =>
    rw [if_pos rfl]
    dsimp only [randBelow, Rng.next]
    refine ⟨?_, ?_, ?_, ?_, ?_⟩
    · exact commit_mkEqn_inv_record g hg _ heid (sx, sy) (sx + 1, sy) (sx + 2, sy) (sx + 3, sy)
        (sx + 4, sy) op _ _ _ _ hop4 har true hstripH hfreeH (sx, sy)
    · dsimp only [pushEqn]
      rw [(commitPositions_dims _ _ _).2.2.2]
      exact ⟨_, rfl, rfl⟩
    · dsimp only [pushEqn]
      exact (commitPositions_dims _ _ _).1
    · dsimp only [pushEqn]
      exact (commitPositions_dims _ _ _).2.1
    · dsimp only [pushEqn]
      exact (commitPositions_dims _ _ _).2.2.1


theorem generateHorizontalLoop_inv (fuel : Nat) :
    ∀ (g : GenState) (r : Rng), GenInv g → IdsSeq g → 0 < g.height →
    GenInv (generateHorizontalLoop fuel g r).1 ∧
    IdsSeq (generateHorizontalLoop fuel g r).1 ∧
    (∃ l, (generateHorizontalLoop fuel g r).1.equations = g.equations ++ l) ∧
    (generateHorizontalLoop fuel g r).1.width = g.width ∧
    (generateHorizontalLoop fuel g r).1.height = g.height ∧
    (generateHorizontalLoop fuel g r).1.equationCount = g.equationCount := by
  induction fuel with
  | zero =>
    intro g r hg hids _
    exact ⟨hg, hids, ⟨[], by rw [List.append_nil]; rfl⟩, rfl, rfl, rfl⟩
  | succ fuel ih =>
    intro g r hg hids hh
    unfold generateHorizontalLoop
    by_cases hcond : (g.equations.filter (fun e => e.isHorizontal)).length <
        min ((3 * g.equationCount + 4) / 5) (4 * g.height / 5)
    · rw [if_pos hcond]
      rw [show randBelow (max 1 (g.width - 4)) r = ((randBelow (max 1 (g.width - 4)) r).1,
        (randBelow (max 1 (g.width - 4)) r).2) from rfl]
      dsimp only
      generalize hSX : (randBelow (max 1 (g.width - 4)) r).1 = sx
      generalize hR2 : (randBelow (max 1 (g.width - 4)) r).2 = r2
      have hsy := randBelow_lt g.height r2 hh
      rw [show randBelow g.height r2 = ((randBelow g.height r2).1,
        (randBelow g.height r2).2) from rfl]
      dsimp only
      generalize hSY : (randBelow g.height r2).1 = sy
      rw [hSY] at hsy
      generalize hR3 : (randBelow g.height r2).2 = r3
      by_cases hcp : canPlaceHorizontalEquation g sx sy = true
      · rw [if_pos hcp]
        unfold createHorizontalEquation
        obtain ⟨hg2, hids2, ⟨e, heq2, _⟩, hw2, hh2, hc2⟩ :=
          createStripEquation_inv g hg hids true sx sy r3 (fun _ => hcp)
            (fun hq => absurd hq (by decide)) (fun _ => hsy) (fun hq => absurd hq (by decide))
        rw [show createStripEquation g true sx sy r3 = ((createStripEquation g true sx sy r3).1,
          (createStripEquation g true sx sy r3).2) from rfl]
        dsimp only
        obtain ⟨hgf, hidsf, ⟨l, heqf⟩, hwf, hhf, hcf⟩ :=
          ih (createStripEquation g true sx sy r3).1 (createStripEquation g true sx sy r3).2
            hg2 hids2 (by rw [hh2]; exact hh)
        refine ⟨hgf, hidsf, ⟨[e] ++ l, ?_⟩, ?_, ?_, ?_⟩
        · rw [heqf, heq2, List.append_assoc]
        · rw [hwf, hw2]
        · rw [hhf, hh2]
        · rw [hcf, hc2]
      · rw [if_neg hcp]
        exact ih g r3 hg hids hh
    · rw [if_neg hcond]
      exact ⟨hg, hids, ⟨[], by rw [List.append_nil]⟩, rfl, rfl, rfl⟩

theorem generateVerticalLoop_inv (fuel : Nat) :
    ∀ (g : GenState) (r : Rng), GenInv g → IdsSeq g → 0 < g.width →
    GenInv (generateVerticalLoop fuel g r).1 ∧
    IdsSeq (generateVerticalLoop fuel g r).1 ∧
    (∃ l, (generateVerticalLoop fuel g r).1.equations = g.equations ++ l) ∧
    (generateVerticalLoop fuel g r).1.width = g.width ∧
    (generateVerticalLoop fuel g r).1.height = g.height ∧
    (generateVerticalLoop fuel g r).1.equationCount = g.equationCount := by
  induction fuel with
  | zero =>
    intro g r hg hids _
    exact ⟨hg, hids, ⟨[], by rw [List.append_nil]; rfl⟩, rfl, rfl, rfl⟩
  | succ fuel ih =>
    intro g r hg hids hw
    unfold generateVerticalLoop
    by_cases hcond : (g.equations.filter (fun e => !e.isHorizontal)).length <
        min ((2 * g.equationCount + 4) / 5) (4 * g.width / 5)
    · rw [if_pos hcond]
      have hsx := randBelow_lt g.width r hw
      rw [show randBelow g.width r = ((randBelow g.width r).1,
        (randBelow g.width r).2) from rfl]
      dsimp only
      generalize hSX : (randBelow g.width r).1 = sx
      rw [hSX] at hsx
      generalize hR2 : (randBelow g.width r).2 = r2
      rw [show randBelow (max 1 (g.height - 4)) r2 = ((randBelow (max 1 (g.height - 4)) r2).1,
        (randBelow (max 1 (g.height - 4)) r2).2) from rfl]
      dsimp only
      generalize hSY : (randBelow (max 1 (g.height - 4)) r2).1 = sy
      generalize hR3 : (randBelow (max 1 (g.height - 4)) r2).2 = r3
      by_cases hcp : canPlaceVerticalEquation g sx sy = true
      · rw [if_pos hcp]
        unfold createVerticalEquation
        obtain ⟨hg2, hids2, ⟨e, heq2, _⟩, hw2, hh2, hc2⟩ :=
          createStripEquation_inv g hg hids false sx sy r3 (fun hq => absurd hq (by decide))
            (fun _ => hcp) (fun hq => absurd hq (by decide)) (fun _ => hsx)
        rw [show createStripEquation g false sx sy r3 = ((createStripEquation g false sx sy r3).1,
          (createStripEquation g false sx sy r3).2) from rfl]
        dsimp only
        obtain ⟨hgf, hidsf, ⟨l, heqf⟩, hwf, hhf, hcf⟩ :=
          ih (createStripEquation g false sx sy r3).1 (createStripEquation g false sx sy r3).2
            hg2 hids2 (by rw [hw2]; exact hw)
        refine ⟨hgf, hidsf, ⟨[e] ++ l, ?_⟩, ?_, ?_, ?_⟩
        · rw [heqf, heq2, List.append_assoc]
        · rw [hwf, hw2]
        · rw [hhf, hh2]
        · rw [hcf, hc2]
      · rw [if_neg hcp]
        exact ih g r3 hg hids hw
    · rw [if_neg hcond]
      exact ⟨hg, hids, ⟨[], by rw [List.append_nil]⟩, rfl, rfl, rfl⟩

theorem addRandomEquationLoop_inv (fuel : Nat) :
    ∀ (g : GenState) (r : Rng), GenInv g → IdsSeq g → 0 < g.width → 0 < g.height →
    GenInv (addRandomEquationLoop fuel g r).1 ∧
    IdsSeq (addRandomEquationLoop fuel g r).1 ∧
    (∃ l, (addRandomEquationLoop fuel g r).1.equations = g.equations ++ l) ∧
    (addRandomEquationLoop fuel g r).1.width = g.width ∧
    (addRandomEquationLoop fuel g r).1.height = g.height ∧
    (addRandomEquationLoop fuel g r).1.equationCount = g.equationCount := by
  induction fuel with
  | zero =>
    intro g r hg hids _ _
    exact ⟨hg, hids, ⟨[], by rw [List.append_nil]; rfl⟩, rfl, rfl, rfl⟩
  | succ fuel ih =>
    intro g r hg hids hw hh
    unfold addRandomEquationLoop
    rw [show randChance r = ((randChance r).1, (randChance r).2) from rfl]
    dsimp only
    generalize hIH : (randChance r).1 = isHor
    generalize hR2 : (randChance r).2 = r2
    cases isHor with
    | true =>
      rw [if_pos rfl]
      rw [show randBelow (g.width - 6) r2 = ((randBelow (g.width - 6) r2).1,
        (randBelow (g.width - 6) r2).2) from rfl]
      dsimp only
      generalize hSX : (randBelow (g.width - 6) r2).1 = sx
      generalize hR3 : (randBelow (g.width - 6) r2).2 = r3
      have hsy := randBelow_lt g.height r3 hh
      rw [show randBelow g.height r3 = ((randBelow g.height r3).1,
        (randBelow g.height r3).2) from rfl]
      dsimp only
      generalize hSY : (randBelow g.height r3).1 = sy
      rw [hSY] at hsy
      generalize hR4 : (randBelow g.height r3).2 = r4
      by_cases hcp : canPlaceHorizontalEquation g sx sy = true
      · rw [if_pos hcp]
        unfold createHorizontalEquation
        obtain ⟨hg2, hids2, ⟨e, heq2, _⟩, hw2, hh2, hc2⟩ :=
          createStripEquation_inv g hg hids true sx sy r4 (fun _ => hcp)
            (fun hq => absurd hq (by decide)) (fun _ => hsy) (fun hq => absurd hq (by decide))
        exact ⟨hg2, hids2, ⟨[e], heq2⟩, hw2, hh2, hc2⟩
      · rw [if_neg hcp]
        exact ih g r4 hg hids hw hh
    | false =>
      rw [if_neg (by decide)]
      have hsx := randBelow_lt g.width r2 hw
      rw [show randBelow g.width r2 = ((randBelow g.width r2).1,
        (randBelow g.width r2).2) from rfl]
      dsimp only
      generalize hSX : (randBelow g.width r2).1 = sx
      rw [hSX] at hsx
      generalize hR3 : (randBelow g.width r2).2 = r3
      rw [show randBelow (g.height - 6) r3 = ((randBelow (g.height - 6) r3).1,
        (randBelow (g.height - 6) r3).2) from rfl]
      dsimp only
      generalize hSY : (randBelow (g.height - 6) r3).1 = sy
      generalize hR4 : (randBelow (g.height - 6) r3).2 = r4
      by_cases hcp : canPlaceVerticalEquation g sx sy = true
      · rw [if_pos hcp]
        unfold createVerticalEquation
        obtain ⟨hg2, hids2, ⟨e, heq2, _⟩, hw2, hh2, hc2⟩ :=
          createStripEquation_inv g hg hids false sx sy r4 (fun hq => absurd hq (by decide))
            (fun _ => hcp) (fun hq => absurd hq (by decide)) (fun _ => hsx)
        exact ⟨hg2, hids2, ⟨[e], heq2⟩, hw2, hh2, hc2⟩
      · rw [if_neg hcp]
        exact ih g r4 hg hids hw hh

theorem addRandomOuterLoop_inv (fuel : Nat) :
    ∀ (g : GenState) (r : Rng), GenInv g → IdsSeq g → 0 < g.width → 0 < g.height →
    GenInv (addRandomOuterLoop fuel g r).1 ∧
    IdsSeq (addRandomOuterLoop fuel g r).1 ∧
    (∃ l, (addRandomOuterLoop fuel g r).1.equations = g.equations ++ l) ∧
    (addRandomOuterLoop fuel g r).1.width = g.width ∧
    (addRandomOuterLoop fuel g r).1.height = g.height ∧
    (addRandomOuterLoop fuel g r).1.equationCount = g.equationCount := by
  induction fuel with
  | zero =>
    intro g r hg hids _ _
    exact ⟨hg, hids, ⟨[], by rw [List.append_nil]; rfl⟩, rfl, rfl, rfl⟩
  | succ fuel ih =>
    intro g r hg hids hw hh
    unfold addRandomOuterLoop
    by_cases hcond : g.equations.length < g.equationCount
    · rw [if_pos hcond]
      unfold addRandomEquation
      rw [show addRandomEquationLoop 50 g r = ((addRandomEquationLoop 50 g r).1,
        (addRandomEquationLoop 50 g r).2) from rfl]
      dsimp only
      obtain ⟨hg2, hids2, ⟨l1, heq2⟩, hw2, hh2, hc2⟩ :=
        addRandomEquationLoop_inv 50 g r hg hids hw hh
      obtain ⟨hgf, hidsf, ⟨l2, heqf⟩, hwf, hhf, hcf⟩ :=
        ih (addRandomEquationLoop 50 g r).1 (addRandomEquationLoop 50 g r).2 hg2 hids2
          (by rw [hw2]; exact hw) (by rw [hh2]; exact hh)
      refine ⟨hgf, hidsf, ⟨l1 ++ l2, ?_⟩, ?_, ?_, ?_⟩
      · rw [heqf, heq2, List.append_assoc]
      · rw [hwf, hw2]
      · rw [hhf, hh2]
      · rw [hcf, hc2]
    · rw [if_neg hcond]
      exact ⟨hg, hids, ⟨[], by rw [List.append_nil]⟩, rfl, rfl, rfl⟩

theorem fillPlaceLoop_inv (fuel : Nat) :
    ∀ (g : GenState) (r : Rng) (a b c : Nat) (op : String) (eqid : String),
    GenInv g → (op = "+" ∨ op = "-" ∨ op = "*") → opArith op a b c →
    (∀ e0 ∈ g.equations, e0.id ≠ eqid) → 0 < g.height →
    GenInv (fillPlaceLoop fuel g (natToStr a ++ " " ++ op ++ " " ++ natToStr b ++ " = " ++
      natToStr c) eqid r).1 ∧
    (∃ l, (fillPlaceLoop fuel g (natToStr a ++ " " ++ op ++ " " ++ natToStr b ++ " = " ++
      natToStr c) eqid r).1.equations = g.equations ++ l ∧ ∀ e0 ∈ l, e0.id = eqid) ∧
    (fillPlaceLoop fuel g (natToStr a ++ " " ++ op ++ " " ++ natToStr b ++ " = " ++
      natToStr c) eqid r).1.width = g.width ∧
    (fillPlaceLoop fuel g (natToStr a ++ " " ++ op ++ " " ++ natToStr b ++ " = " ++
      natToStr c) eqid r).1.height = g.height ∧
    (fillPlaceLoop fuel g (natToStr a ++ " " ++ op ++ " " ++ natToStr b ++ " = " ++
      natToStr c) eqid r).1.equationCount = g.equationCount := by
  induction fuel with
  | zero =>
    intro g r a b c op eqid hg _ _ _ _
    exact ⟨hg, ⟨[], by rw [List.append_nil]; rfl, by intro e0 he0; exact absurd he0 (List.not_mem_nil _)⟩,
      rfl, rfl, rfl⟩
  | succ fuel ih =>
    intro g r a b c op eqid hg hop3 har hfr hh
    unfold fillPlaceLoop
    rw [show randBelow (max 1 (g.width - 4)) r = ((randBelow (max 1 (g.width - 4)) r).1,
      (randBelow (max 1 (g.width - 4)) r).2) from rfl]
    dsimp only
    generalize hSX : (randBelow (max 1 (g.width - 4)) r).1 = sx
    generalize hR2 : (randBelow (max 1 (g.width - 4)) r).2 = r2
    have hsy := randBelow_lt g.height r2 hh
    rw [show randBelow g.height r2 = ((randBelow g.height r2).1,
      (randBelow g.height r2).2) from rfl]
    dsimp only
    generalize hSY : (randBelow g.height r2).1 = sy
    rw [hSY] at hsy
    generalize hR3 : (randBelow g.height r2).2 = r3
    by_cases hcp : canPlaceHorizontalEquation g sx sy = true
    · rw [if_pos hcp]
      obtain ⟨hg2, ⟨e, heq2, hid2⟩, hw2, hh2, hc2⟩ :=
        createSimpleEquation_inv g hg sx sy a b c op hop3 har eqid hfr r3 hcp hsy
      refine ⟨hg2, ⟨[e], heq2, ?_⟩, hw2, hh2, hc2⟩
      intro e0 he0
      rw [List.mem_singleton.mp he0]
      exact hid2
    · rw [if_neg hcp]
      exact ih g r3 a b c op eqid hg hop3 har hfr hh

theorem fillGo_inv (idxs : List Nat) :
    ∀ (g : GenState) (r : Rng), GenInv g →
    (∀ e0 ∈ g.equations, ∀ i ∈ idxs, e0.id ≠ "simple-" ++ natToStr i) →
    idxs.Nodup → 0 < g.height →
    GenInv (fillWithSimpleEquationsGo idxs g r).1 ∧
    (∃ l, (fillWithSimpleEquationsGo idxs g r).1.equations = g.equations ++ l) ∧
    (fillWithSimpleEquationsGo idxs g r).1.width = g.width ∧
    (fillWithSimpleEquationsGo idxs g r).1.height = g.height ∧
    (fillWithSimpleEquationsGo idxs g r).1.equationCount = g.equationCount := by
  induction idxs with
  | nil =>
    intro g r hg _ _ _
    exact ⟨hg, ⟨[], by rw [List.append_nil]; rfl⟩, rfl, rfl, rfl⟩
  | cons i rest ih =>
    intro g r hg hfr hnd hh
    unfold fillWithSimpleEquationsGo
    have hops := getD_ops3 (randBelow 3 r).1
    rw [show randBelow 3 r = ((randBelow 3 r).1, (randBelow 3 r).2) from rfl]
    dsimp only
    generalize hOI : (randBelow 3 r).1 = oi
    rw [hOI] at hops
    generalize hR2 : (randBelow 3 r).2 = r2
    generalize hOPg : (["+", "-", "*"] : List String).getD oi "+" = op
    rw [hOPg] at hops
    have harith := simpleEquationNumbers_opArith op r2 hops
    rw [show simpleEquationNumbers op r2 = ((simpleEquationNumbers op r2).1,
      (simpleEquationNumbers op r2).2) from rfl]
    dsimp only
    generalize hN : (simpleEquationNumbers op r2).1 = nums
    rw [hN] at harith
    generalize hR3 : (simpleEquationNumbers op r2).2 = r3
    rw [show fillPlaceLoop 20 g (natToStr nums.1 ++ " " ++ op ++ " " ++ natToStr nums.2.1 ++
        " = " ++ natToStr nums.2.2) ("simple-" ++ natToStr i) r3 =
      ((fillPlaceLoop 20 g (natToStr nums.1 ++ " " ++ op ++ " " ++ natToStr nums.2.1 ++
        " = " ++ natToStr nums.2.2) ("simple-" ++ natToStr i) r3).1,
       (fillPlaceLoop 20 g (natToStr nums.1 ++ " " ++ op ++ " " ++ natToStr nums.2.1 ++
        " = " ++ natToStr nums.2.2) ("simple-" ++ natToStr i) r3).2) from rfl]
    dsimp only
    obtain ⟨hg2, ⟨l1, heq2, hidl1⟩, hw2, hh2, hc2⟩ :=
      fillPlaceLoop_inv 20 g r3 nums.1 nums.2.1 nums.2.2 op ("simple-" ++ natToStr i) hg hops
        harith (fun e0 he0 => hfr e0 he0 i (List.mem_cons_self _ _)) hh
    have hfr2 : ∀ e0 ∈ (fillPlaceLoop 20 g (natToStr nums.1 ++ " " ++ op ++ " " ++
        natToStr nums.2.1 ++ " = " ++ natToStr nums.2.2) ("simple-" ++ natToStr i)
        r3).1.equations, ∀ j ∈ rest, e0.id ≠ "simple-" ++ natToStr j := by
      intro e0 he0 j hj hq
      rw [heq2] at he0
      rcases List.mem_append.mp he0 with h1 | h1
      · exact hfr e0 h1 j (List.mem_cons_of_mem _ hj) hq
      · have hidq := hidl1 e0 h1
        rw [hidq] at hq
        have hij := prefix_natToStr_inj "simple-" i j hq
        rw [List.nodup_cons] at hnd
        exact hnd.1 (by rw [hij]; exact hj)
    obtain ⟨hgf, ⟨l2, heqf⟩, hwf, hhf, hcf⟩ :=
      ih (fillPlaceLoop 20 g (natToStr nums.1 ++ " " ++ op ++ " " ++ natToStr nums.2.1 ++
          " = " ++ natToStr nums.2.2) ("simple-" ++ natToStr i) r3).1
        (fillPlaceLoop 20 g (natToStr nums.1 ++ " " ++ op ++ " " ++ natToStr nums.2.1 ++
          " = " ++ natToStr nums.2.2) ("simple-" ++ natToStr i) r3).2
        hg2 hfr2 (List.nodup_cons.mp hnd).2 (by rw [hh2]; exact hh)
    refine ⟨hgf, ⟨l1 ++ l2, ?_⟩, ?_, ?_, ?_⟩
    · rw [heqf, heq2, List.append_assoc]
    · rw [hwf, hw2]
    · rw [hhf, hh2]
    · rw [hcf, hc2]

theorem fillWithSimpleEquations_inv (g : GenState) (r : Rng) (hg : GenInv g) (hids : IdsSeq g)
    (hh : 0 < g.height) :
    GenInv (fillWithSimpleEquations g r).1 ∧
    (∃ l, (fillWithSimpleEquations g r).1.equations = g.equations ++ l) ∧
    (fillWithSimpleEquations g r).1.width = g.width ∧
    (fillWithSimpleEquations g r).1.height = g.height ∧
    (fillWithSimpleEquations g r).1.equationCount = g.equationCount := by
  unfold fillWithSimpleEquations
  refine fillGo_inv (List.range (g.equationCount - g.equations.length)) g r hg ?_
    (List.nodup_range _) hh
  intro e0 he0 i _ hq
  obtain ⟨k, _, hk2⟩ := hids e0 he0
  rw [hk2] at hq
  exact eq_id_ne_simple_id (k + 1) i hq


theorem canPlaceH_reset (w h c sx sy : Nat) (hx : sx + 4 < w) :
    canPlaceHorizontalEquation (resetState w h c) sx sy = true := by
  unfold canPlaceHorizontalEquation
  rw [List.all_eq_true]
  intro i hi
  rw [List.mem_range] at hi
  rw [Bool.and_eq_true]
  constructor
  · have hlt : sx + i < w := by omega
    exact decide_eq_true hlt
  · rfl

theorem generateHorizontalLoop_succ_nonempty (fuel : Nat) (w h c : Nat) (hw : 6 ≤ w)
    (hh : 6 ≤ h) (hc : 1 ≤ c) (r : Rng) :
    (generateHorizontalLoop (Nat.succ fuel) (resetState w h c) r).1.equations ≠ [] := by
  have hg0 := resetState_inv w h c
  have hids0 := resetState_idsSeq w h c
  have hcond : ((resetState w h c).equations.filter (fun e => e.isHorizontal)).length <
      min ((3 * (resetState w h c).equationCount + 4) / 5) (4 * (resetState w h c).height / 5) := by
    show 0 < min ((3 * c + 4) / 5) (4 * h / 5)
    rw [Nat.lt_min]
    constructor
    · omega
    · omega
  unfold generateHorizontalLoop
  rw [if_pos hcond]
  have hsxb := randBelow_lt (max 1 ((resetState w h c).width - 4)) r (by positivity)
  rw [show randBelow (max 1 ((resetState w h c).width - 4)) r =
    ((randBelow (max 1 ((resetState w h c).width - 4)) r).1,
     (randBelow (max 1 ((resetState w h c).width - 4)) r).2) from rfl]
  dsimp only
  generalize hSX : (randBelow (max 1 ((resetState w h c).width - 4)) r).1 = sx
  rw [hSX] at hsxb
  generalize hR2 : (randBelow (max 1 ((resetState w h c).width - 4)) r).2 = r2
  have hsyb := randBelow_lt (resetState w h c).height r2 (show 0 < h by omega)
  rw [show randBelow (resetState w h c).height r2 = ((randBelow (resetState w h c).height r2).1,
    (randBelow (resetState w h c).height r2).2) from rfl]
  dsimp only
  generalize hSY : (randBelow (resetState w h c).height r2).1 = sy
  rw [hSY] at hsyb
  generalize hR3 : (randBelow (resetState w h c).height r2).2 = r3
  have hsx4 : sx + 4 < w := by
    have hm : max 1 ((resetState w h c).width - 4) = w - 4 := by
      show max 1 (w - 4) = w - 4
      omega
    rw [hm] at hsxb
    omega
  have hcp := canPlaceH_reset w h c sx sy hsx4
  rw [if_pos hcp]
  unfold createHorizontalEquation
  obtain ⟨hg2, hids2, ⟨e, heq2, _⟩, hw2, hh2, hc2⟩ :=
    createStripEquation_inv (resetState w h c) hg0 hids0 true sx sy r3 (fun _ => hcp)
      (fun hq => absurd hq (by decide)) (fun _ => hsyb) (fun hq => absurd hq (by decide))
  rw [show createStripEquation (resetState w h c) true sx sy r3 =
    ((createStripEquation (resetState w h c) true sx sy r3).1,
     (createStripEquation (resetState w h c) true sx sy r3).2) from rfl]
  dsimp only
  obtain ⟨_, _, ⟨l, heqf⟩, _, _, _⟩ :=
    generateHorizontalLoop_inv fuel (createStripEquation (resetState w h c) true sx sy r3).1
      (createStripEquation (resetState w h c) true sx sy r3).2 hg2 hids2
      (by rw [hh2]; show 0 < h; omega)
  rw [heqf, heq2]
  intro hcontra
  have h1 := List.append_eq_nil.mp hcontra
  have h2 := List.append_eq_nil.mp h1.1
  exact List.cons_ne_nil e [] h2.2

theorem generateHorizontalEquations_reset (w h c : Nat) (hw : 6 ≤ w) (hh : 6 ≤ h) (hc : 1 ≤ c)
    (r : Rng) :
    GenInv (generateHorizontalEquations (resetState w h c) r).1 ∧
    IdsSeq (generateHorizontalEquations (resetState w h c) r).1 ∧
    (generateHorizontalEquations (resetState w h c) r).1.equations ≠ [] ∧
    (generateHorizontalEquations (resetState w h c) r).1.width = w ∧
    (generateHorizontalEquations (resetState w h c) r).1.height = h ∧
    (generateHorizontalEquations (resetState w h c) r).1.equationCount = c := by
  obtain ⟨hg1, hids1, ⟨l, heq1⟩, hw1, hh1, hc1⟩ :=
    generateHorizontalLoop_inv 50 (resetState w h c) r (resetState_inv w h c)
      (resetState_idsSeq w h c) (show 0 < h by omega)
  exact ⟨hg1, hids1, generateHorizontalLoop_succ_nonempty 49 w h c hw hh hc r, hw1, hh1, hc1⟩

theorem generatePuzzleState_facts (w h c : Nat) (hw : 6 ≤ w) (hh : 6 ≤ h) (hc : 1 ≤ c)
    (r : Rng) :
    GenInv (generatePuzzleState w h c r).1 ∧
    (generatePuzzleState w h c r).1.equations ≠ [] ∧
    (generatePuzzleState w h c r).1.width = w ∧
    (generatePuzzleState w h c r).1.height = h := by
  unfold generatePuzzleState
  dsimp only
  obtain ⟨hg1, hids1, hne1, hw1, hh1, hc1⟩ := generateHorizontalEquations_reset w h c hw hh hc r
  rw [show generateHorizontalEquations (resetState w h c) r =
    ((generateHorizontalEquations (resetState w h c) r).1,
     (generateHorizontalEquations (resetState w h c) r).2) from rfl]
  dsimp only
  unfold generateVerticalEquations
  obtain ⟨hg2, hids2, ⟨l2, heq2⟩, hw2, hh2, hc2⟩ :=
    generateVerticalLoop_inv 50 (generateHorizontalEquations (resetState w h c) r).1
      (generateHorizontalEquations (resetState w h c) r).2 hg1 hids1
      (by rw [hw1]; omega)
  rw [show generateVerticalLoop 50 (generateHorizontalEquations (resetState w h c) r).1
      (generateHorizontalEquations (resetState w h c) r).2 =
    ((generateVerticalLoop 50 (generateHorizontalEquations (resetState w h c) r).1
        (generateHorizontalEquations (resetState w h c) r).2).1,
     (generateVerticalLoop 50 (generateHorizontalEquations (resetState w h c) r).1
        (generateHorizontalEquations (resetState w h c) r).2).2) from rfl]
  dsimp only
  obtain ⟨hg3, hids3, ⟨l3, heq3⟩, hw3, hh3, hc3⟩ :=
    addRandomOuterLoop_inv 50
      (generateVerticalLoop 50 (generateHorizontalEquations (resetState w h c) r).1
        (generateHorizontalEquations (resetState w h c) r).2).1
      (generateVerticalLoop 50 (generateHorizontalEquations (resetState w h c) r).1
        (generateHorizontalEquations (resetState w h c) r).2).2 hg2 hids2
      (by rw [hw2, hw1]; omega) (by rw [hh2, hh1]; omega)
  rw [show addRandomOuterLoop 50
      (generateVerticalLoop 50 (generateHorizontalEquations (resetState w h c) r).1
        (generateHorizontalEquations (resetState w h c) r).2).1
      (generateVerticalLoop 50 (generateHorizontalEquations (resetState w h c) r).1
        (generateHorizontalEquations (resetState w h c) r).2).2 =
    ((addRandomOuterLoop 50
        (generateVerticalLoop 50 (generateHorizontalEquations (resetState w h c) r).1
          (generateHorizontalEquations (resetState w h c) r).2).1
        (generateVerticalLoop 50 (generateHorizontalEquations (resetState w h c) r).1
          (generateHorizontalEquations (resetState w h c) r).2).2).1,
     (addRandomOuterLoop 50
        (generateVerticalLoop 50 (generateHorizontalEquations (resetState w h c) r).1
          (generateHorizontalEquations (resetState w h c) r).2).1
        (generateVerticalLoop 50 (generateHorizontalEquations (resetState w h c) r).1
          (generateHorizontalEquations (resetState w h c) r).2).2).2) from rfl]
  dsimp only
  set g3 := (addRandomOuterLoop 50
      (generateVerticalLoop 50 (generateHorizontalEquations (resetState w h c) r).1
        (generateHorizontalEquations (resetState w h c) r).2).1
      (generateVerticalLoop 50 (generateHorizontalEquations (resetState w h c) r).1
        (generateHorizontalEquations (resetState w h c) r).2).2).1 with hg3def
  set r3 := (addRandomOuterLoop 50
      (generateVerticalLoop 50 (generateHorizontalEquations (resetState w h c) r).1
        (generateHorizontalEquations (resetState w h c) r).2).1
      (generateVerticalLoop 50 (generateHorizontalEquations (resetState w h c) r).1
        (generateHorizontalEquations (resetState w h c) r).2).2).2 with hr3def
  have hne3 : g3.equations ≠ [] := by
    rw [hg3def, heq3, heq2]
    intro hcontra
    have h1 := List.append_eq_nil.mp hcontra
    have h2 := List.append_eq_nil.mp h1.1
    exact hne1 h2.1
  by_cases hfill : g3.equations.length < g3.equationCount
  · rw [if_pos hfill]
    obtain ⟨hgf, ⟨lf, heqff⟩, hwf, hhf, hcf⟩ :=
      fillWithSimpleEquations_inv g3 r3 hg3 hids3 (by rw [hh3, hh2, hh1]; omega)
    refine ⟨hgf, ?_, by rw [hwf, hw3, hw2, hw1], by rw [hhf, hh3, hh2, hh1]⟩
    rw [heqff]
    intro hcontra
    exact hne3 (List.append_eq_nil.mp hcontra).1
  · rw [if_neg hfill]
    exact ⟨hg3, hne3, by rw [hw3, hw2, hw1], by rw [hh3, hh2, hh1]⟩

theorem EqnWF_cells_present (cells : CellMap) (e : Equation) (hwf : EqnWF cells e) :
    ∀ cid ∈ e.cells, ∃ v, mapGet cells cid = some v := by
  obtain ⟨n1, n2, res, op, i0, i1, i2, i3, i4, hce, _, _, _, _, h0, h1, h2, h3, h4, _⟩ := hwf
  intro cid hcid
  rw [hce] at hcid
  rcases List.mem_cons.mp hcid with hq | hcid
  · obtain ⟨c0, hc0, _⟩ := h0
    exact ⟨c0, by rw [hq]; exact hc0⟩
  rcases List.mem_cons.mp hcid with hq | hcid
  · obtain ⟨c0, hc0, _⟩ := h1
    exact ⟨c0, by rw [hq]; exact hc0⟩
  rcases List.mem_cons.mp hcid with hq | hcid
  · obtain ⟨c0, hc0, _⟩ := h2
    exact ⟨c0, by rw [hq]; exact hc0⟩
  rcases List.mem_cons.mp hcid with hq | hcid
  · obtain ⟨c0, hc0, _⟩ := h3
    exact ⟨c0, by rw [hq]; exact hc0⟩
  rcases List.mem_cons.mp hcid with hq | hcid
  · obtain ⟨c0, hc0, _⟩ := h4
    exact ⟨c0, by rw [hq]; exact hc0⟩
  · exact absurd hcid (List.not_mem_nil _)

theorem GenInv_belongs (g : GenState) (hg : GenInv g) :
    ∀ p ∈ g.cells, ∀ eid ∈ (p.2).belongsToEquation, ∃ e ∈ g.equations, e.id = eid := by
  intro p hp eid heid
  by_cases hu : p.1 ∈ g.usedPositions
  · obtain ⟨e, he, hce⟩ := (hg.used_iff p.1).mp hu
    refine ⟨e, he, ?_⟩
    have hnd : (g.cells.map Prod.fst).Nodup := by
      rw [hg.keys]
      exact gridKeys_nodup _ _
    have hget : mapGet g.cells p.1 = some p.2 := mapGet_of_mem_nodup g.cells p.1 p.2 hp hnd
    obtain ⟨n1, n2, res, op, i0, i1, i2, i3, i4, hce2, _, _, _, _, h0, h1, h2, h3, h4, _⟩ :=
      hg.wf e he
    rw [hce2] at hce
    have hbel : (p.2).belongsToEquation = [e.id] := by
      rcases List.mem_cons.mp hce with hq | hce
      · obtain ⟨c0, hc0, _, _, hb, _⟩ := h0
        rw [← hq, hget] at hc0
        rw [show p.2 = c0 from Option.some.inj hc0]
        exact hb
      rcases List.mem_cons.mp hce with hq | hce
      · obtain ⟨c0, hc0, _, _, hb, _⟩ := h1
        rw [← hq, hget] at hc0
        rw [show p.2 = c0 from Option.some.inj hc0]
        exact hb
      rcases List.mem_cons.mp hce with hq | hce
      · obtain ⟨c0, hc0, _, _, hb, _⟩ := h2
        rw [← hq, hget] at hc0
        rw [show p.2 = c0 from Option.some.inj hc0]
        exact hb
      rcases List.mem_cons.mp hce with hq | hce
      · obtain ⟨c0, hc0, _, _, hb, _⟩ := h3
        rw [← hq, hget] at hc0
        rw [show p.2 = c0 from Option.some.inj hc0]
        exact hb
      rcases List.mem_cons.mp hce with hq | hce
      · obtain ⟨c0, hc0, _, _, hb, _⟩ := h4
        rw [← hq, hget] at hc0
        rw [show p.2 = c0 from Option.some.inj hc0]
        exact hb
      · exact absurd hce (List.not_mem_nil _)
    rw [hbel] at heid
    exact (List.mem_singleton.mp heid).symm
  · have hfr := hg.fresh p hp hu
    rw [hfr.2.2.2] at heid
    exact absurd heid (List.not_mem_nil _)


/-- C5: for every grid configuration with both dimensions at least 6 and a positive
equation target — bounds satisfied by all four `DIFFICULTY_CONFIG` tiers, as the
last conjunct records — and for every random stream, puzzle generation returns a
board with at least one equation, every equation's five cell references resolve in
the cell map, and every cell's equation-membership reference names an equation
present on the board. Termination is by construction: every retry loop of the
source is embedded with fuel equal to its own attempt bound (50 per phase, 20 per
fill slot), so the generator is a total function evaluated here on arbitrary
streams. -/
theorem claim_C5_generation (w h c : Nat) (hw : 6 ≤ w) (hh : 6 ≤ h) (hc : 1 ≤ c) (r : Rng) :
    (generatePuzzle w h c r).1.equations ≠ [] ∧
    (∀ q ∈ (generatePuzzle w h c r).1.equations, ∀ cid ∈ (q.2).cells,
      ∃ v, mapGet (generatePuzzle w h c r).1.cells cid = some v) ∧
    (∀ p ∈ (generatePuzzle w h c r).1.cells, ∀ eid ∈ (p.2).belongsToEquation,
      ∃ q ∈ (generatePuzzle w h c r).1.equations, q.1 = eid) ∧
    (∀ d : DifficultyLevel, 6 ≤ (DIFFICULTY_CONFIG d).2.1 ∧ 6 ≤ (DIFFICULTY_CONFIG d).2.2 ∧
      1 ≤ (DIFFICULTY_CONFIG d).1) := by
  obtain ⟨hg, hne, hwq, hhq⟩ := generatePuzzleState_facts w h c hw hh hc r
  unfold generatePuzzle
  dsimp only [mkBoard]
  refine ⟨?_, ?_, ?_, ?_⟩
  · intro hcontra
    exact hne (List.map_eq_nil_iff.mp hcontra)
  · intro q hq cid hcid
    rcases List.mem_map.mp hq with ⟨e, he, hqe⟩
    apply EqnWF_cells_present _ _ (hg.wf e he)
    rw [← hqe] at hcid
    exact hcid
  · intro p hp eid heid
    obtain ⟨e, he, hide⟩ := GenInv_belongs _ hg p hp eid heid
    exact ⟨(e.id, e), List.mem_map.mpr ⟨e, he, rfl⟩, hide⟩
  · intro d
    cases d
    · exact ⟨by decide, by decide, by decide⟩
    · exact ⟨by decide, by decide, by decide⟩
    · exact ⟨by decide, by decide, by decide⟩
    · exact ⟨by decide, by decide, by decide⟩

/-- Witness instantiating the C5 theorem at the easy-tier grid on a concrete
stream. -/
theorem claim_C5_witness :
    6 ≤ 8 ∧ 6 ≤ 6 ∧ 1 ≤ 10 ∧
    ((generatePuzzle 8 6 10 ⟨fun _ => 0, 0⟩).1.equations ≠ [] ∧
     (∀ q ∈ (generatePuzzle 8 6 10 ⟨fun _ => 0, 0⟩).1.equations, ∀ cid ∈ (q.2).cells,
       ∃ v, mapGet (generatePuzzle 8 6 10 ⟨fun _ => 0, 0⟩).1.cells cid = some v) ∧
     (∀ p ∈ (generatePuzzle 8 6 10 ⟨fun _ => 0, 0⟩).1.cells, ∀ eid ∈ (p.2).belongsToEquation,
       ∃ q ∈ (generatePuzzle 8 6 10 ⟨fun _ => 0, 0⟩).1.equations, q.1 = eid) ∧
     (∀ d : DifficultyLevel, 6 ≤ (DIFFICULTY_CONFIG d).2.1 ∧ 6 ≤ (DIFFICULTY_CONFIG d).2.2 ∧
       1 ≤ (DIFFICULTY_CONFIG d).1)) :=
  ⟨by decide, by decide, by decide,
   claim_C5_generation 8 6 10 (by decide) (by decide) (by decide) ⟨fun _ => 0, 0⟩⟩

/-- C6: in every board the generator returns (dimensions at least 6, positive
equation target, any random stream), each equation's cell list is exactly five
consecutive in-bounds cells along its orientation — commitment always wrote the
whole strip whose feasibility check had passed — and no two distinct equations
claim a common cell. -/
theorem claim_C6_strips_disjoint (w h c : Nat) (hw : 6 ≤ w) (hh : 6 ≤ h) (hc : 1 ≤ c)
    (r : Rng) :
    (∀ q ∈ (generatePuzzle w h c r).1.equations,
      EqnStripCells w h (q.2).isHorizontal (q.2).cells) ∧
    List.Pairwise (fun q1 q2 => ∀ cid ∈ (q1.2).cells, cid ∉ (q2.2).cells)
      (generatePuzzle w h c r).1.equations := by
  obtain ⟨hg, _, hwq, hhq⟩ := generatePuzzleState_facts w h c hw hh hc r
  unfold generatePuzzle
  dsimp only [mkBoard]
  constructor
  · intro q hq
    rcases List.mem_map.mp hq with ⟨e, he, hqe⟩
    have hs := hg.strip e he
    rw [hwq, hhq] at hs
    rw [← hqe]
    exact hs
  · rw [List.pairwise_map]
    exact hg.disj

/-- Witness instantiating the C6 theorem at the easy-tier grid on a concrete
stream. -/
theorem claim_C6_witness :
    6 ≤ 8 ∧ 6 ≤ 6 ∧ 1 ≤ 10 ∧
    ((∀ q ∈ (generatePuzzle 8 6 10 ⟨fun _ => 0, 0⟩).1.equations,
       EqnStripCells 8 6 (q.2).isHorizontal (q.2).cells) ∧
     List.Pairwise (fun q1 q2 => ∀ cid ∈ (q1.2).cells, cid ∉ (q2.2).cells)
       (generatePuzzle 8 6 10 ⟨fun _ => 0, 0⟩).1.equations) :=
  ⟨by decide, by decide, by decide,
   claim_C6_strips_disjoint 8 6 10 (by decide) (by decide) (by decide) ⟨fun _ => 0, 0⟩⟩


theorem mapGet_map_values {α β : Type} (l : List (String × α)) (f : α → β) (k : String) :
    mapGet (l.map (fun p => (p.1, f p.2))) k = (mapGet l k).map f := by
  induction l with
  | nil => rfl
  | cons p rest ih =>
    rw [List.map_cons, mapGet_cons, mapGet_cons]
    by_cases hk : (p.1 == k) = true
    · rw [if_pos hk, if_pos hk]
      rfl
    · rw [if_neg hk, if_neg hk, ih]

theorem mapGet_eqnList (l : List Equation) (hnd : List.Pairwise (fun a b => a.id ≠ b.id) l)
    (e : Equation) (he : e ∈ l) :
    mapGet (l.map (fun e0 => (e0.id, e0))) e.id = some e := by
  induction l with
  | nil => exact absurd he (List.not_mem_nil _)
  | cons e0 rest ih =>
    rw [List.pairwise_cons] at hnd
    rw [List.map_cons, mapGet_cons]
    rcases List.mem_cons.mp he with h1 | h1
    · rw [h1]
      rw [if_pos (by simp)]
    · have hne : (e0.id == e.id) = false := by
        rw [beq_eq_false_iff_ne]
        exact hnd.1 e h1
      rw [if_neg (by rw [hne]; exact Bool.false_ne_true)]
      exact ih hnd.2 h1

theorem foldl_filtered_append {α β : Type} (P : α → Bool) (f : α → List β) :
    ∀ (l : List α) (acc : List β),
    l.foldl (fun a p => if P p then a ++ f p else a) acc =
      acc ++ l.flatMap (fun p => if P p then f p else []) := by
  intro l
  induction l with
  | nil =>
    intro acc
    rw [List.foldl_nil, List.flatMap_nil, List.append_nil]
  | cons p rest ih =>
    intro acc
    rw [List.foldl_cons, List.flatMap_cons, ih]
    by_cases hp : P p = true
    · rw [if_pos hp, if_pos hp, List.append_assoc]
    · rw [if_neg hp, if_neg hp, List.nil_append]

theorem neededNumbers_flatMap (b : GameBoard) :
    neededNumbers b = b.cells.flatMap (fun p =>
      if p.2.type == CellType.number && !p.2.isFixed then cellNeededValues b p.2 else []) := by
  unfold neededNumbers
  rw [foldl_filtered_append (fun p => p.2.type == CellType.number && !p.2.isFixed)
    (fun p => cellNeededValues b p.2) b.cells []]
  rw [List.nil_append]


theorem idxOf_cons (a : String) (l : List String) (x : String) :
    idxOf (a :: l) x = if a == x then some 0 else (idxOf l x).map (fun n => n + 1) := rfl

theorem mapGet_solvedCells (b : GameBoard) (k : String) :
    mapGet (solvedCells b) k = (mapGet b.cells k).map (solveCell b) :=
  mapGet_map_values _ _ _

theorem solveCell_fields (b : GameBoard) (c : CellData) :
    (solveCell b c).type = c.type ∧ (solveCell b c).isFixed = c.isFixed ∧
    (solveCell b c).id = c.id ∧ (solveCell b c).belongsToEquation = c.belongsToEquation := by
  unfold solveCell
  split
  · exact ⟨rfl, rfl, rfl, rfl⟩
  · exact ⟨rfl, rfl, rfl, rfl⟩

theorem solveCell_value_num (b : GameBoard) (c : CellData) (v : Int)
    (ht : c.type = CellType.number) (hsing : cellNeededValues b c = [v])
    (hfx : c.isFixed = true → c.value = some (CellValue.num v)) :
    (solveCell b c).value = some (CellValue.num v) := by
  unfold solveCell
  cases hf : c.isFixed
  · rw [if_pos (by simp [ht, hf])]
    dsimp only
    rw [hsing]
    rfl
  · rw [if_neg (by simp [hf])]
    exact hfx hf

theorem solveCell_not_number (b : GameBoard) (c : CellData) (ht : c.type ≠ CellType.number) :
    solveCell b c = c := by
  have hb : (c.type == CellType.number) = false := beq_eq_false_iff_ne.mpr ht
  unfold solveCell
  rw [if_neg (by rw [hb]; simp)]

theorem equation_slots (g : GenState) (hg : GenInv g) (e : Equation) (he : e ∈ g.equations) :
    ∃ n1 n2 res : Nat, ∃ op : String, ∃ i0 i1 i2 i3 i4 : String,
      ∃ c0 c1 c2 c3 c4 : CellData,
      e.cells = [i0, i1, i2, i3, i4] ∧
      (op = "+" ∨ op = "-" ∨ op = "*" ∨ op = "/") ∧ opArith op n1 n2 res ∧
      mapGet g.cells i0 = some c0 ∧ c0.type = CellType.number ∧
        cellNeededValues (mkBoard g) c0 = [(n1 : Int)] ∧
        (c0.isFixed = true → c0.value = some (CellValue.num (n1 : Int))) ∧
        (c0.isFixed = false → c0.value = none) ∧
      mapGet g.cells i1 = some c1 ∧ c1.type = CellType.operator ∧
        c1.value = some (CellValue.sym op) ∧
      mapGet g.cells i2 = some c2 ∧ c2.type = CellType.number ∧
        cellNeededValues (mkBoard g) c2 = [(n2 : Int)] ∧
        (c2.isFixed = true → c2.value = some (CellValue.num (n2 : Int))) ∧
        (c2.isFixed = false → c2.value = none) ∧
      mapGet g.cells i3 = some c3 ∧ c3.type = CellType.equals ∧
        c3.value = some (CellValue.sym "=") ∧
      mapGet g.cells i4 = some c4 ∧ c4.type = CellType.number ∧
        cellNeededValues (mkBoard g) c4 = [(res : Int)] ∧
        (c4.isFixed = true → c4.value = some (CellValue.num (res : Int))) ∧
        (c4.isFixed = false → c4.value = none) ∧
      (c0.isFixed = false ∨ c2.isFixed = false ∨ c4.isFixed = false) := by
  obtain ⟨n1, n2, res, op, i0, i1, i2, i3, i4, hcells, hpw, hexpr, hop, har,
    h0, h1, h2, h3, h4, h5⟩ := hg.wf e he
  obtain ⟨c0, hc0get, hc0id, hc0type, hc0bel, hc0fx, hc0nfx⟩ := h0
  obtain ⟨c1, hc1get, hc1id, hc1type, hc1bel, hc1val, hc1fx⟩ := h1
  obtain ⟨c2, hc2get, hc2id, hc2type, hc2bel, hc2fx, hc2nfx⟩ := h2
  obtain ⟨c3, hc3get, hc3id, hc3type, hc3bel, hc3val, hc3fx⟩ := h3
  obtain ⟨c4, hc4get, hc4id, hc4type, hc4bel, hc4fx, hc4nfx⟩ := h4
  obtain ⟨opc, hpe⟩ := parseExpression_template n1 n2 res op hop
  rw [← hexpr] at hpe
  have hmge : mapGet (mkBoard g).equations e.id = some e :=
    mapGet_eqnList g.equations hg.idnodup e he
  rw [List.pairwise_cons] at hpw
  obtain ⟨hd0, hpw⟩ := hpw
  rw [List.pairwise_cons] at hpw
  obtain ⟨hd1, hpw⟩ := hpw
  rw [List.pairwise_cons] at hpw
  obtain ⟨hd2, hpw⟩ := hpw
  rw [List.pairwise_cons] at hpw
  obtain ⟨hd3, _⟩ := hpw
  have hidx0 : idxOf e.cells i0 = some 0 := by
    rw [hcells, idxOf_cons, if_pos (by simp)]
  have hidx2 : idxOf e.cells i2 = some 2 := by
    have hb0 : ¬((i0 == i2) = true) := by
      simp only [beq_iff_eq]
      exact hd0 i2 (by simp)
    have hb1 : ¬((i1 == i2) = true) := by
      simp only [beq_iff_eq]
      exact hd1 i2 (by simp)
    rw [hcells, idxOf_cons, if_neg hb0, idxOf_cons, if_neg hb1, idxOf_cons,
      if_pos (by simp)]
    rfl
  have hidx4 : idxOf e.cells i4 = some 4 := by
    have hb0 : ¬((i0 == i4) = true) := by
      simp only [beq_iff_eq]
      exact hd0 i4 (by simp)
    have hb1 : ¬((i1 == i4) = true) := by
      simp only [beq_iff_eq]
      exact hd1 i4 (by simp)
    have hb2 : ¬((i2 == i4) = true) := by
      simp only [beq_iff_eq]
      exact hd2 i4 (by simp)
    have hb3 : ¬((i3 == i4) = true) := by
      simp only [beq_iff_eq]
      exact hd3 i4 (by simp)
    rw [hcells, idxOf_cons, if_neg hb0, idxOf_cons, if_neg hb1, idxOf_cons, if_neg hb2,
      idxOf_cons, if_neg hb3, idxOf_cons, if_pos (by simp)]
    rfl
  have hneed : ∀ (c : CellData) (idx : Nat) (v : Nat), c.belongsToEquation = [e.id] →
      idxOf e.cells c.id = some idx →
      (idx = 0 → v = n1) → (idx = 2 → v = n2) → (idx = 4 → v = res) →
      (idx = 0 ∨ idx = 2 ∨ idx = 4) →
      cellNeededValues (mkBoard g) c = [(v : Int)] := by
    intro c idx v hbel hidx hv0 hv2 hv4 hcase
    unfold cellNeededValues
    rw [hbel, List.filterMap_cons, List.filterMap_nil]
    rw [hmge]
    dsimp only
    rw [hpe]
    dsimp only
    rw [hidx]
    rcases hcase with hq | hq | hq <;> subst hq <;> dsimp only
    · rw [hv0 rfl]
    · rw [hv2 rfl]
    · rw [hv4 rfl]
  refine ⟨n1, n2, res, op, i0, i1, i2, i3, i4, c0, c1, c2, c3, c4, hcells, hop, har,
    hc0get, hc0type, ?_, hc0fx, hc0nfx, hc1get, hc1type, hc1val,
    hc2get, hc2type, ?_, hc2fx, hc2nfx, hc3get, hc3type, hc3val,
    hc4get, hc4type, ?_, hc4fx, hc4nfx, ?_⟩
  · exact hneed c0 0 n1 hc0bel (by rw [hc0id]; exact hidx0) (fun _ => rfl)
      (by omega) (by omega) (Or.inl rfl)
  · exact hneed c2 2 n2 hc2bel (by rw [hc2id]; exact hidx2) (by omega) (fun _ => rfl)
      (by omega) (Or.inr (Or.inl rfl))
  · exact hneed c4 4 res hc4bel (by rw [hc4id]; exact hidx4) (by omega) (by omega)
      (fun _ => rfl) (Or.inr (Or.inr rfl))
  · rcases h5 with ⟨c, hcg, hfx⟩ | ⟨c, hcg, hfx⟩ | ⟨c, hcg, hfx⟩
    · rw [hc0get] at hcg
      rw [show c0 = c from Option.some.inj hcg]
      exact Or.inl hfx
    · rw [hc2get] at hcg
      rw [show c2 = c from Option.some.inj hcg]
      exact Or.inr (Or.inl hfx)
    · rw [hc4get] at hcg
      rw [show c4 = c from Option.some.inj hcg]
      exact Or.inr (Or.inr hfx)


theorem GenInv_cells_nodupkeys (g : GenState) (hg : GenInv g) :
    (g.cells.map Prod.fst).Nodup := by
  rw [hg.keys]
  exact gridKeys_nodup _ _

theorem editable_needed (g : GenState) (hg : GenInv g) (p : String × CellData)
    (hp : p ∈ g.cells) (ht : (p.2).type = CellType.number) (hf : (p.2).isFixed = false) :
    (∃ v : Int, cellNeededValues (mkBoard g) p.2 = [v]) ∧ (p.2).value = none := by
  have hget : mapGet g.cells p.1 = some p.2 :=
    mapGet_of_mem_nodup g.cells p.1 p.2 hp (GenInv_cells_nodupkeys g hg)
  by_cases hu : p.1 ∈ g.usedPositions
  · obtain ⟨e, he, hce⟩ := (hg.used_iff p.1).mp hu
    obtain ⟨n1, n2, res, op, i0, i1, i2, i3, i4, c0, c1, c2, c3, c4, hcells, hop, har,
      hg0, ht0, hn0, hfx0, hnfx0, hg1, ht1, hv1, hg2, ht2, hn2, hfx2, hnfx2,
      hg3, ht3, hv3, hg4, ht4, hn4, hfx4, hnfx4, _⟩ := equation_slots g hg e he
    rw [hcells] at hce
    rcases List.mem_cons.mp hce with hq | hce
    · rw [← hq, hget] at hg0
      have hcc := Option.some.inj hg0
      rw [← hcc] at hn0 hnfx0
      exact ⟨⟨(n1 : Int), hn0⟩, hnfx0 hf⟩
    rcases List.mem_cons.mp hce with hq | hce
    · rw [← hq, hget] at hg1
      have hcc := Option.some.inj hg1
      rw [← hcc] at ht1
      rw [ht] at ht1
      exact absurd ht1 (by decide)
    rcases List.mem_cons.mp hce with hq | hce
    · rw [← hq, hget] at hg2
      have hcc := Option.some.inj hg2
      rw [← hcc] at hn2 hnfx2
      exact ⟨⟨(n2 : Int), hn2⟩, hnfx2 hf⟩
    rcases List.mem_cons.mp hce with hq | hce
    · rw [← hq, hget] at hg3
      have hcc := Option.some.inj hg3
      rw [← hcc] at ht3
      rw [ht] at ht3
      exact absurd ht3 (by decide)
    rcases List.mem_cons.mp hce with hq | hce
    · rw [← hq, hget] at hg4
      have hcc := Option.some.inj hg4
      rw [← hcc] at hn4 hnfx4
      exact ⟨⟨(res : Int), hn4⟩, hnfx4 hf⟩
    · exact absurd hce (List.not_mem_nil _)
  · have hfr := hg.fresh p hp hu
    rw [hfr.1] at ht
    exact absurd ht (by decide)

theorem solved_equation_ok (g : GenState) (hg : GenInv g) (e : Equation)
    (he : e ∈ g.equations) :
    isEquationComplete (solvedCells (mkBoard g)) e = true ∧
    validateEquation (solvedCells (mkBoard g)) e = true := by
  obtain ⟨n1, n2, res, op, i0, i1, i2, i3, i4, c0, c1, c2, c3, c4, hcells, hop, har,
    hg0, ht0, hn0, hfx0, hnfx0, hg1, ht1, hv1, hg2, ht2, hn2, hfx2, hnfx2,
    hg3, ht3, hv3, hg4, ht4, hn4, hfx4, hnfx4, _⟩ := equation_slots g hg e he
  have hb0 : mapGet (solvedCells (mkBoard g)) i0 = some (solveCell (mkBoard g) c0) := by
    rw [mapGet_solvedCells]
    show (mapGet g.cells i0).map _ = _
    rw [hg0]
    rfl
  have hb1 : mapGet (solvedCells (mkBoard g)) i1 = some c1 := by
    rw [mapGet_solvedCells]
    show (mapGet g.cells i1).map _ = _
    rw [hg1, Option.map_some', solveCell_not_number _ _ (by rw [ht1]; decide)]
  have hb2 : mapGet (solvedCells (mkBoard g)) i2 = some (solveCell (mkBoard g) c2) := by
    rw [mapGet_solvedCells]
    show (mapGet g.cells i2).map _ = _
    rw [hg2]
    rfl
  have hb3 : mapGet (solvedCells (mkBoard g)) i3 = some c3 := by
    rw [mapGet_solvedCells]
    show (mapGet g.cells i3).map _ = _
    rw [hg3, Option.map_some', solveCell_not_number _ _ (by rw [ht3]; decide)]
  have hb4 : mapGet (solvedCells (mkBoard g)) i4 = some (solveCell (mkBoard g) c4) := by
    rw [mapGet_solvedCells]
    show (mapGet g.cells i4).map _ = _
    rw [hg4]
    rfl
  have hsv0 : (solveCell (mkBoard g) c0).value = some (CellValue.num (n1 : Int)) :=
    solveCell_value_num _ _ _ ht0 hn0 hfx0
  have hsv2 : (solveCell (mkBoard g) c2).value = some (CellValue.num (n2 : Int)) :=
    solveCell_value_num _ _ _ ht2 hn2 hfx2
  have hsv4 : (solveCell (mkBoard g) c4).value = some (CellValue.num (res : Int)) :=
    solveCell_value_num _ _ _ ht4 hn4 hfx4
  constructor
  · unfold isEquationComplete
    rw [hcells]
    simp only [List.all_cons, List.all_nil, Bool.and_true]
    rw [hb0, hb1, hb2, hb3, hb4]
    dsimp only
    rw [hsv0, hsv2, hsv4, hv1, hv3]
    simp
  · unfold validateEquation cellValueAt
    rw [hcells]
    have hq0 : ([i0, i1, i2, i3, i4] : List String).get? 0 = some i0 := rfl
    have hq1 : ([i0, i1, i2, i3, i4] : List String).get? 1 = some i1 := rfl
    have hq2 : ([i0, i1, i2, i3, i4] : List String).get? 2 = some i2 := rfl
    have hq4 : ([i0, i1, i2, i3, i4] : List String).get? 4 = some i4 := rfl
    rw [hq0, hq1, hq2, hq4]
    dsimp only
    rw [hb0, hb1, hb2, hb4]
    dsimp only
    rw [hsv0, hsv2, hsv4, hv1]
    dsimp only
    rcases hop with hq | hq | hq | hq <;> subst hq
    · rw [if_pos rfl]
      unfold opArith at har
      have ha : n1 + n2 = res := by
        rcases har with ⟨_, h⟩ | ⟨h, _⟩ | ⟨h, _⟩ | ⟨h, _⟩
        · exact h
        · exact absurd h.symm (by decide)
        · exact absurd h.symm (by decide)
        · exact absurd h.symm (by decide)
      rw [beq_iff_eq]
      omega
    · rw [if_neg (by decide), if_pos rfl]
      unfold opArith at har
      have ha : res + n2 = n1 := by
        rcases har with ⟨h, _⟩ | ⟨_, h⟩ | ⟨h, _⟩ | ⟨h, _⟩
        · exact absurd h (by decide)
        · exact h
        · exact absurd h (by decide)
        · exact absurd h (by decide)
      rw [beq_iff_eq]
      omega
    · rw [if_neg (by decide), if_neg (by decide), if_pos rfl]
      unfold opArith at har
      have ha : n1 * n2 = res := by
        rcases har with ⟨h, _⟩ | ⟨h, _⟩ | ⟨_, h⟩ | ⟨h, _⟩
        · exact absurd h (by decide)
        · exact absurd h (by decide)
        · exact h
        · exact absurd h (by decide)
      rw [beq_iff_eq]
      exact_mod_cast ha
    · rw [if_neg (by decide), if_neg (by decide), if_neg (by decide), if_pos rfl]
      unfold opArith at har
      have ha : 2 ≤ n2 ∧ n1 = res * n2 := by
        rcases har with ⟨h, _⟩ | ⟨h, _⟩ | ⟨h, _⟩ | ⟨_, h⟩
        · exact absurd h (by decide)
        · exact absurd h (by decide)
        · exact absurd h (by decide)
        · exact h
      rw [Bool.and_eq_true]
      constructor
      · rw [bne_iff_ne]
        intro hcontra
        have : n2 = 0 := by exact_mod_cast hcontra
        omega
      · rw [beq_iff_eq]
        exact_mod_cast ha.2


theorem freshTilesOf_cons (st : Nat) (v : Int) (rest : List Int) :
    freshTilesOf st (v :: rest) =
      { id := "tile-" ++ natToStr st, value := v, isUsed := false } ::
        freshTilesOf (st + 1) rest := rfl

theorem usedTilesOf_cons (st : Nat) (v : Int) (rest : List Int) :
    usedTilesOf st (v :: rest) =
      { id := "tile-" ++ natToStr st, value := v, isUsed := true } ::
        usedTilesOf (st + 1) rest := rfl

theorem tileId_ne (j k : Nat) (h : j ≠ k) :
    ("tile-" ++ natToStr j) ≠ ("tile-" ++ natToStr k) :=
  fun hq => h (prefix_natToStr_inj "tile-" j k hq)

theorem tiles_step (pre : List Int) : ∀ (st : Nat) (v : Int) (rest : List Int),
    findTile (usedTilesOf st pre ++ freshTilesOf (st + pre.length) (v :: rest))
      ("tile-" ++ natToStr (st + pre.length)) =
      some { id := "tile-" ++ natToStr (st + pre.length), value := v, isUsed := false } ∧
    updateFirstTile (usedTilesOf st pre ++ freshTilesOf (st + pre.length) (v :: rest))
      ("tile-" ++ natToStr (st + pre.length)) (fun t => { t with isUsed := true }) =
      usedTilesOf st (pre ++ [v]) ++ freshTilesOf (st + pre.length + 1) rest := by
  induction pre with
  | nil =>
    intro st v rest
    rw [List.length_nil, Nat.add_zero, show usedTilesOf st [] = [] from rfl, List.nil_append,
      List.nil_append, freshTilesOf_cons]
    constructor
    · rw [findTile_cons, if_pos (by simp)]
    · show updateFirstTile _ _ _ = _
      unfold updateFirstTile
      rw [if_pos (by simp)]
      rfl
  | cons w pre ih =>
    intro st v rest
    have hlen : st + (w :: pre).length = (st + 1) + pre.length := by
      rw [List.length_cons]
      omega
    have hne : ("tile-" ++ natToStr st) ≠ ("tile-" ++ natToStr ((st + 1) + pre.length)) :=
      tileId_ne _ _ (by omega)
    rw [hlen, usedTilesOf_cons, List.cons_append]
    constructor
    · rw [findTile_cons, if_neg (by simp [hne])]
      exact (ih (st + 1) v rest).1
    · show updateFirstTile _ _ _ = _
      unfold updateFirstTile
      rw [if_neg (by simp [hne])]
      rw [(ih (st + 1) v rest).2]
      rw [List.cons_append, usedTilesOf_cons, List.cons_append]

theorem editableCellIds_sublist (b : GameBoard) :
    (editableCellIds b).Sublist (b.cells.map Prod.fst) := by
  unfold editableCellIds
  induction b.cells with
  | nil => exact List.Sublist.slnil
  | cons p rest ih =>
    rw [List.filterMap_cons, List.map_cons]
    by_cases hp : (p.2.type == CellType.number && !p.2.isFixed) = true
    · rw [if_pos hp]
      exact List.Sublist.cons₂ _ ih
    · rw [if_neg hp]
      exact List.Sublist.cons _ ih

theorem board_pl_aux (b : GameBoard) : ∀ (l : List (String × CellData)),
    (∀ p ∈ l, ((p.2).type == CellType.number && !(p.2).isFixed) = true →
      (∃ v, cellNeededValues b p.2 = [v]) ∧ (p.2).value = none ∧
        mapGet b.cells p.1 = some p.2 ∧ ∃ qe ∈ b.equations, p.1 ∈ (qe.2).cells) →
    ∃ pl : List (String × Int),
      pl.map Prod.fst = l.filterMap (fun p =>
        if (p.2).type == CellType.number && !(p.2).isFixed then some p.1 else none) ∧
      pl.map Prod.snd = l.flatMap (fun p =>
        if (p.2).type == CellType.number && !(p.2).isFixed then cellNeededValues b p.2
        else []) ∧
      ∀ q ∈ pl, (∃ c, mapGet b.cells q.1 = some c ∧ c.type = CellType.number ∧
          c.isFixed = false ∧ c.value = none ∧ cellNeededValues b c = [q.2]) ∧
        ∃ qe ∈ b.equations, q.1 ∈ (qe.2).cells := by
  intro l
  induction l with
  | nil =>
    intro _
    exact ⟨[], rfl, rfl, by intro q hq; exact absurd hq (List.not_mem_nil _)⟩
  | cons p rest ih =>
    intro hall
    obtain ⟨pl, hfst, hsnd, hmem⟩ := ih (fun q hq => hall q (List.mem_cons_of_mem _ hq))
    rw [List.filterMap_cons, List.flatMap_cons]
    by_cases hp : ((p.2).type == CellType.number && !(p.2).isFixed) = true
    · obtain ⟨⟨v, hv⟩, hval, hget, hqe⟩ := hall p (List.mem_cons_self _ _) hp
      refine ⟨(p.1, v) :: pl, ?_, ?_, ?_⟩
      · rw [if_pos hp, List.map_cons, hfst]
      · rw [if_pos hp, List.map_cons, hsnd, hv]
        rfl
      · intro q hq
        rcases List.mem_cons.mp hq with h1 | h1
        · subst h1
          rw [Bool.and_eq_true, beq_iff_eq, Bool.not_eq_true'] at hp
          exact ⟨⟨p.2, hget, hp.1, hp.2, hval, hv⟩, hqe⟩
        · exact hmem q h1
    · refine ⟨pl, ?_, ?_, hmem⟩
      · rw [if_neg hp]
        exact hfst
      · rw [if_neg hp, List.nil_append]
        exact hsnd

theorem board_pl (g : GenState) (hg : GenInv g) :
    ∃ pl : List (String × Int),
      pl.map Prod.fst = editableCellIds (mkBoard g) ∧
      pl.map Prod.snd = neededNumbers (mkBoard g) ∧
      ∀ q ∈ pl, (∃ c, mapGet (mkBoard g).cells q.1 = some c ∧ c.type = CellType.number ∧
          c.isFixed = false ∧ c.value = none ∧ cellNeededValues (mkBoard g) c = [q.2]) ∧
        ∃ qe ∈ (mkBoard g).equations, q.1 ∈ (qe.2).cells := by
  have hside : ∀ p ∈ (mkBoard g).cells,
      ((p.2).type == CellType.number && !(p.2).isFixed) = true →
      (∃ v, cellNeededValues (mkBoard g) p.2 = [v]) ∧ (p.2).value = none ∧
        mapGet (mkBoard g).cells p.1 = some p.2 ∧
        ∃ qe ∈ (mkBoard g).equations, p.1 ∈ (qe.2).cells := by
    intro p hp hed
    rw [Bool.and_eq_true, beq_iff_eq, Bool.not_eq_true'] at hed
    have hp2 : p ∈ g.cells := hp
    obtain ⟨hne, hval⟩ := editable_needed g hg p hp2 hed.1 hed.2
    have hget : mapGet g.cells p.1 = some p.2 :=
      mapGet_of_mem_nodup g.cells p.1 p.2 hp2 (GenInv_cells_nodupkeys g hg)
    refine ⟨hne, hval, hget, ?_⟩
    have hu : p.1 ∈ g.usedPositions := by
      by_cases hu2 : p.1 ∈ g.usedPositions
      · exact hu2
      · have hfr := hg.fresh p hp2 hu2
        rw [hfr.1] at hed
        exact absurd hed.1 (by decide)
    obtain ⟨e, he, hce⟩ := (hg.used_iff p.1).mp hu
    exact ⟨(e.id, e), List.mem_map.mpr ⟨e, he, rfl⟩, hce⟩
  obtain ⟨pl, hfst, hsnd, hmem⟩ := board_pl_aux (mkBoard g) (mkBoard g).cells hside
  exact ⟨pl, hfst, by rw [hsnd, neededNumbers_flatMap], hmem⟩


theorem cellShape_fields (c c' : CellData) (h : cellShape c = cellShape c') :
    c.id = c'.id ∧ c.type = c'.type ∧ c.value = c'.value ∧ c.position = c'.position ∧
    c.isFixed = c'.isFixed ∧ c.belongsToEquation = c'.belongsToEquation := by
  refine ⟨?_, ?_, ?_, ?_, ?_, ?_⟩
  · have := congrArg CellData.id h
    simpa [cellShape] using this
  · have := congrArg CellData.type h
    simpa [cellShape] using this
  · have := congrArg CellData.value h
    simpa [cellShape] using this
  · have := congrArg CellData.position h
    simpa [cellShape] using this
  · have := congrArg CellData.isFixed h
    simpa [cellShape] using this
  · have := congrArg CellData.belongsToEquation h
    simpa [cellShape] using this

theorem cellShape_set_value (c c' : CellData) (v : Option CellValue)
    (h : cellShape c = cellShape c') :
    cellShape { c with value := v } = cellShape { c' with value := v } := by
  obtain ⟨h1, h2, _, h4, h5, h6⟩ := cellShape_fields c c' h
  unfold cellShape
  rw [h1, h2, h4, h5, h6]

theorem incomplete_of_unfilled (cells : CellMap) (e : Equation) (cid : String)
    (hmem : cid ∈ e.cells) (c : CellData) (hc : mapGet cells cid = some c)
    (ht : c.type = CellType.number) (hv : c.value = none) :
    isEquationComplete cells e = false := by
  cases hall : isEquationComplete cells e
  · rfl
  · exfalso
    unfold isEquationComplete at hall
    rw [List.all_eq_true] at hall
    have h2 := hall cid hmem
    rw [hc] at h2
    dsimp only at h2
    rw [hv, ht] at h2
    exact absurd h2 (by decide)

theorem isEquationComplete_cells_eq (cs : CellMap) (e e' : Equation)
    (h : e.cells = e'.cells) : isEquationComplete cs e = isEquationComplete cs e' := by
  unfold isEquationComplete
  rw [h]

theorem validateEquation_cells_eq (cs : CellMap) (e e' : Equation)
    (h : e.cells = e'.cells) : validateEquation cs e = validateEquation cs e' := by
  unfold validateEquation cellValueAt
  rw [h]

theorem checkEquations_eqnShape (s : GameState) :
    (checkEquations s).board.equations.map (fun q => (q.1, eqnShape q.2)) =
      s.board.equations.map (fun q => (q.1, eqnShape q.2)) := by
  rw [checkEquations_eqns, List.map_map]
  apply List.map_congr_left
  intro q _
  rfl

theorem checkGameCompletion_nofire (s : GameState) (h1 : s.isComplete = false)
    (h2 : s.board.equations.all (fun p => (p.2).isComplete && (p.2).isValid) = false) :
    checkGameCompletion s = s := by
  unfold checkGameCompletion
  rw [if_neg (by rw [h1]; exact Bool.false_ne_true),
    if_neg (by rw [h2]; exact Bool.false_ne_true)]

theorem checkGameCompletion_fire (s : GameState) (h1 : s.isComplete = false)
    (h2 : s.board.equations.all (fun p => (p.2).isComplete && (p.2).isValid) = true) :
    checkGameCompletion s = completeGame s := by
  unfold checkGameCompletion
  rw [if_neg (by rw [h1]; exact Bool.false_ne_true), if_pos h2]

theorem all_eq_false_of_mem {α : Type} (l : List α) (p : α → Bool) (a : α) (ha : a ∈ l)
    (hpa : p a = false) : l.all p = false := by
  cases h : l.all p
  · rfl
  · rw [List.all_eq_true] at h
    rw [h a ha] at hpa
    exact absurd hpa (by decide)


theorem solveCell_noop (b : GameBoard) (c : CellData)
    (h : (c.type == CellType.number && !c.isFixed) = false) : solveCell b c = c := by
  unfold solveCell
  rw [if_neg (by rw [h]; exact Bool.false_ne_true)]

theorem solveCell_eq_set (b : GameBoard) (c : CellData) (v : Int)
    (ht : c.type = CellType.number) (hf : c.isFixed = false)
    (hv : cellNeededValues b c = [v]) :
    solveCell b c = { c with value := some (CellValue.num v) } := by
  unfold solveCell
  rw [if_pos (by rw [ht, hf]; decide)]
  rw [hv]
  rfl

theorem mem_editableCellIds (b : GameBoard) (cid : String) (c : CellData)
    (hnd : (b.cells.map Prod.fst).Nodup) (hget : mapGet b.cells cid = some c) :
    cid ∈ editableCellIds b ↔ (c.type == CellType.number && !c.isFixed) = true := by
  constructor
  · intro hmem
    obtain ⟨p, hp, hif⟩ := List.mem_filterMap.mp hmem
    by_cases hg : ((p.2).type == CellType.number && !(p.2).isFixed) = true
    · rw [if_pos hg] at hif
      have hk : p.1 = cid := Option.some.inj hif
      have hg2 : mapGet b.cells cid = some p.2 := by
        rw [← hk]
        exact mapGet_of_mem_nodup b.cells p.1 p.2 (by rw [show (p.1, p.2) = p from rfl]; exact hp) hnd
      rw [hget] at hg2
      rw [Option.some.inj hg2]
      exact hg
    · rw [if_neg hg] at hif
      exact absurd hif (by simp)
  · intro hg
    exact List.mem_filterMap.mpr ⟨(cid, c), mapGet_mem b.cells cid c hget, by rw [if_pos hg]⟩

theorem solvedCells_noneditable (b : GameBoard) (cid : String)
    (hnd : (b.cells.map Prod.fst).Nodup) (hniff : cid ∉ editableCellIds b) :
    mapGet (solvedCells b) cid = mapGet b.cells cid := by
  rw [mapGet_solvedCells]
  cases hget : mapGet b.cells cid with
  | none => rfl
  | some c =>
    rw [Option.map_some']
    rw [solveCell_noop b c ?_]
    cases hg : (c.type == CellType.number && !c.isFixed)
    · rfl
    · exact absurd ((mem_editableCellIds b cid c hnd hget).mpr hg) hniff

theorem startNewGame_tiles (lvl : DifficultyLevel) (b : GameBoard) (vals : List Int) :
    (startNewGameState lvl b vals).availableNumbers = freshTilesOf 0 vals := rfl

theorem editable_nonempty (g : GenState) (hg : GenInv g) (hne : g.equations ≠ []) :
    editableCellIds (mkBoard g) ≠ [] := by
  obtain ⟨e, he⟩ := List.exists_mem_of_ne_nil g.equations hne
  obtain ⟨n1, n2, res, op, i0, i1, i2, i3, i4, c0, c1, c2, c3, c4, hcells, hop, har,
    hg0, ht0, hn0, hfx0, hnfx0, hg1, ht1, hv1, hg2, ht2, hn2, hfx2, hnfx2,
    hg3, ht3, hv3, hg4, ht4, hn4, hfx4, hnfx4, hed⟩ := equation_slots g hg e he
  have hnd : ((mkBoard g).cells.map Prod.fst).Nodup := GenInv_cells_nodupkeys g hg
  rcases hed with hf | hf | hf
  · exact List.ne_nil_of_mem ((mem_editableCellIds (mkBoard g) i0 c0 hnd hg0).mpr
      (by rw [ht0, hf]; decide))
  · exact List.ne_nil_of_mem ((mem_editableCellIds (mkBoard g) i2 c2 hnd hg2).mpr
      (by rw [ht2, hf]; decide))
  · exact List.ne_nil_of_mem ((mem_editableCellIds (mkBoard g) i4 c4 hnd hg4).mpr
      (by rw [ht4, hf]; decide))


theorem deflag_transfer (l1 l2 : EqnMap)
    (h : l1.map (fun q => (q.1, eqnShape q.2)) = l2.map (fun q => (q.1, eqnShape q.2)))
    (qe : String × Equation) (hqe : qe ∈ l2) :
    ∃ qe1 ∈ l1, (qe1.2).cells = (qe.2).cells := by
  have hmem : (qe.1, eqnShape qe.2) ∈ l2.map (fun q => (q.1, eqnShape q.2)) :=
    List.mem_map.mpr ⟨qe, hqe, rfl⟩
  rw [← h] at hmem
  obtain ⟨qe1, hqe1, heq⟩ := List.mem_map.mp hmem
  refine ⟨qe1, hqe1, ?_⟩
  have h2 : eqnShape qe1.2 = eqnShape qe.2 := congrArg Prod.snd heq
  have h3 : (eqnShape qe1.2).cells = (eqnShape qe.2).cells := congrArg Equation.cells h2
  exact h3

theorem place_step (b : GameBoard) (s : GameState) (done_ids : List String)
    (k : Nat) (preVals : List Int) (cid : String) (v : Int) (restVals : List Int)
    (c : CellData) (hget : mapGet b.cells cid = some c) (ht : c.type = CellType.number)
    (hf : c.isFixed = false) (hv : cellNeededValues b c = [v])
    (hnd : cid ∉ done_ids)
    (hshape : ∀ x : String, (mapGet s.board.cells x).map cellShape =
      if x ∈ done_ids then (mapGet (solvedCells b) x).map cellShape
      else (mapGet b.cells x).map cellShape)
    (hcomp : s.isComplete = false)
    (hlen : preVals.length = k)
    (htiles : s.availableNumbers = usedTilesOf 0 preVals ++ freshTilesOf k (v :: restVals)) :
    ∃ s1 : GameState,
      placeTileCore s ("tile-" ++ natToStr k) cid =
        (true, checkGameCompletion (checkEquations s1)) ∧
      (∀ x : String, (mapGet s1.board.cells x).map cellShape =
        if x ∈ done_ids ++ [cid] then (mapGet (solvedCells b) x).map cellShape
        else (mapGet b.cells x).map cellShape) ∧
      s1.board.equations = s.board.equations ∧
      s1.isComplete = false ∧
      s1.availableNumbers = usedTilesOf 0 (preVals ++ [v]) ++ freshTilesOf (k + 1) restVals := by
  have hsx := hshape cid
  rw [if_neg hnd, hget] at hsx
  cases hc' : mapGet s.board.cells cid with
  | none =>
    rw [hc'] at hsx
    exact absurd hsx (by simp)
  | some c' =>
    rw [hc'] at hsx
    rw [Option.map_some', Option.map_some'] at hsx
    have hcs : cellShape c' = cellShape c := Option.some.inj hsx
    obtain ⟨hid', htype', hval', hpos', hfix', hbel'⟩ := cellShape_fields c' c hcs
    have h1 := (tiles_step preVals 0 v restVals).1
    have h2 := (tiles_step preVals 0 v restVals).2
    rw [Nat.zero_add, hlen] at h1 h2
    refine ⟨{ s with availableNumbers := updateFirstTile (usedTilesOf 0 preVals ++ freshTilesOf k (v :: restVals)) ("tile-" ++ natToStr k) (fun t => { t with isUsed := true }), board := { s.board with cells := updateFirst s.board.cells cid (fun c0 => { c0 with value := some (CellValue.num v) }) }, moves := s.moves ++ [{ type := MoveType.place, tileId := "tile-" ++ natToStr k, cellId := cid }] }, ?_, ?_, ?_, ?_, ?_⟩
    · unfold placeTileCore
      rw [if_neg (show ¬ (s.isComplete = true) from by rw [hcomp]; exact Bool.false_ne_true)]
      rw [htiles, h1, hc']
      dsimp only
      have hcond : ((false || c'.isFixed) || (c'.type != CellType.number)) = false := by
        rw [hfix', hf, htype', ht]
        decide
      rw [hcond, if_neg Bool.false_ne_true]
    · intro x
      dsimp only
      rw [mapGet_updateFirst]
      by_cases hx : x = cid
      · subst hx
        rw [if_pos rfl]
        rw [if_pos (List.mem_append.mpr (Or.inr (List.mem_singleton.mpr rfl)))]
        rw [hc', mapGet_solvedCells, hget, Option.map_some', Option.map_some',
          Option.map_some', Option.map_some']
        rw [solveCell_eq_set b c v ht hf hv]
        exact congrArg some (cellShape_set_value c' c _ hcs)
      · rw [if_neg hx]
        have hmm : (x ∈ done_ids ++ [cid]) ↔ (x ∈ done_ids) := by
          rw [List.mem_append, List.mem_singleton]
          exact ⟨fun hor => hor.resolve_right hx, Or.inl⟩
        by_cases hxd : x ∈ done_ids
        · rw [if_pos (hmm.mpr hxd)]
          have hs := hshape x
          rw [if_pos hxd] at hs
          exact hs
        · rw [if_neg (fun hq => hxd (hmm.mp hq))]
          have hs := hshape x
          rw [if_neg hxd] at hs
          exact hs
    · rfl
    · exact hcomp
    · exact h2


theorem postcheck_nofire (b : GameBoard) (s1 : GameState)
    (heqns : s1.board.equations.map (fun q => (q.1, eqnShape q.2)) =
      b.equations.map (fun q => (q.1, eqnShape q.2)))
    (hcomp : s1.isComplete = false)
    (cid2 : String) (c2 : CellData) (hc2 : mapGet s1.board.cells cid2 = some c2)
    (ht2 : c2.type = CellType.number) (hv2 : c2.value = none)
    (qe : String × Equation) (hqe : qe ∈ b.equations) (hcid2 : cid2 ∈ (qe.2).cells) :
    checkGameCompletion (checkEquations s1) = checkEquations s1 := by
  apply checkGameCompletion_nofire
  · rw [checkEquations_isComplete]
    exact hcomp
  · obtain ⟨qe1, hqe1, hcells⟩ := deflag_transfer s1.board.equations b.equations heqns qe hqe
    have hincomp : isEquationComplete s1.board.cells qe1.2 = false := by
      rw [isEquationComplete_cells_eq s1.board.cells qe1.2 qe.2 hcells]
      exact incomplete_of_unfilled s1.board.cells qe.2 cid2 hcid2 c2 hc2 ht2 hv2
    have hel : ((qe1.1, { qe1.2 with isComplete := isEquationComplete s1.board.cells qe1.2, isValid := isEquationComplete s1.board.cells qe1.2 && validateEquation s1.board.cells qe1.2 }) : String × Equation) ∈ (checkEquations s1).board.equations := by
      rw [checkEquations_eqns]
      exact List.mem_map.mpr ⟨qe1, hqe1, rfl⟩
    apply all_eq_false_of_mem _ _ _ hel
    show (isEquationComplete s1.board.cells qe1.2 &&
      (isEquationComplete s1.board.cells qe1.2 && validateEquation s1.board.cells qe1.2)) = false
    rw [hincomp]
    rfl

theorem postcheck_fire (b : GameBoard) (s1 : GameState)
    (hB1 : ∀ q ∈ b.equations, isEquationComplete (solvedCells b) (q.2) = true ∧
      validateEquation (solvedCells b) (q.2) = true)
    (heqns : s1.board.equations.map (fun q => (q.1, eqnShape q.2)) =
      b.equations.map (fun q => (q.1, eqnShape q.2)))
    (hcomp : s1.isComplete = false)
    (hshape : ∀ x : String, (mapGet s1.board.cells x).map cellShape =
      (mapGet (solvedCells b) x).map cellShape) :
    checkGameCompletion (checkEquations s1) = completeGame (checkEquations s1) ∧
    (checkEquations s1).board.equations.all
      (fun p => (p.2).isComplete && (p.2).isValid) = true := by
  have hall : (checkEquations s1).board.equations.all
      (fun p => (p.2).isComplete && (p.2).isValid) = true := by
    rw [checkEquations_eqns, List.all_eq_true]
    intro p0 hp0
    obtain ⟨qe1, hqe1, hpe⟩ := List.mem_map.mp hp0
    subst hpe
    show (isEquationComplete s1.board.cells qe1.2 &&
      (isEquationComplete s1.board.cells qe1.2 && validateEquation s1.board.cells qe1.2)) = true
    obtain ⟨qe, hqe, hcells⟩ := deflag_transfer b.equations s1.board.equations heqns.symm qe1 hqe1
    have hceq : isEquationComplete s1.board.cells qe1.2 = true := by
      rw [isEquationComplete_cells_eq s1.board.cells qe1.2 qe.2 hcells.symm]
      rw [isEquationComplete_shape_congr (solvedCells b) s1.board.cells qe.2 hshape]
      exact (hB1 qe hqe).1
    have hveq : validateEquation s1.board.cells qe1.2 = true := by
      rw [validateEquation_cells_eq s1.board.cells qe1.2 qe.2 hcells.symm]
      rw [validateEquation_shape_congr (solvedCells b) s1.board.cells qe.2 hshape]
      exact (hB1 qe hqe).2
    rw [hceq, hveq]
    rfl
  refine ⟨?_, hall⟩
  exact checkGameCompletion_fire _ (by rw [checkEquations_isComplete]; exact hcomp) hall


theorem placeAll_go (b : GameBoard)
    (hB1 : ∀ q ∈ b.equations, isEquationComplete (solvedCells b) (q.2) = true ∧
      validateEquation (solvedCells b) (q.2) = true)
    (hndk : (b.cells.map Prod.fst).Nodup) :
    ∀ (todoPl : List (String × Int)), todoPl ≠ [] →
    ∀ (done_ids : List String) (k : Nat) (preVals : List Int) (s : GameState) (flag : Bool),
    (∀ q ∈ todoPl, ∃ c, mapGet b.cells q.1 = some c ∧ c.type = CellType.number ∧
        c.isFixed = false ∧ c.value = none ∧ cellNeededValues b c = [q.2]) →
    (∀ q ∈ todoPl, ∃ qe ∈ b.equations, q.1 ∈ (qe.2).cells) →
    (todoPl.map Prod.fst).Nodup →
    (∀ x ∈ todoPl.map Prod.fst, x ∉ done_ids) →
    (∀ x ∈ editableCellIds b, x ∈ done_ids ∨ x ∈ todoPl.map Prod.fst) →
    (∀ x : String, (mapGet s.board.cells x).map cellShape =
      if x ∈ done_ids then (mapGet (solvedCells b) x).map cellShape
      else (mapGet b.cells x).map cellShape) →
    s.board.equations.map (fun q => (q.1, eqnShape q.2)) =
      b.equations.map (fun q => (q.1, eqnShape q.2)) →
    s.isComplete = false →
    preVals.length = k →
    s.availableNumbers = usedTilesOf 0 preVals ++ freshTilesOf k (todoPl.map Prod.snd) →
    ∃ sfin : GameState,
      List.foldl (fun acc pr => (acc.1 && (placeTileCore acc.2 pr.1 pr.2).1, (placeTileCore acc.2 pr.1 pr.2).2)) (flag, s)
        ((List.enumFrom k (todoPl.map Prod.fst)).map (fun p => ("tile-" ++ natToStr p.1, p.2))) = (flag, sfin) ∧
      sfin.isComplete = true ∧
      sfin.board.equations.all (fun p => (p.2).isComplete && (p.2).isValid) = true := by
  intro todoPl
  induction todoPl with
  | nil => intro hne; exact absurd rfl hne
  | cons q rest ih =>
    intro _ done_ids k preVals s flag hall howns hndp hnotdone hcover hshape hdeflag hcomp hlen htiles
    obtain ⟨c, hget, ht, hf, hvnone, hv⟩ := hall q (List.mem_cons_self _ _)
    have hqnd : q.1 ∉ done_ids := hnotdone q.1 (List.mem_map.mpr ⟨q, List.mem_cons_self _ _, rfl⟩)
    have hqnotrest : q.1 ∉ rest.map Prod.fst := by
      rw [List.map_cons, List.nodup_cons] at hndp
      exact hndp.1
    obtain ⟨s1, hpt, hshape1, heqs1, hcomp1, htiles1⟩ :=
      place_step b s done_ids k preVals q.1 q.2 (rest.map Prod.snd) c hget ht hf hv hqnd
        hshape hcomp hlen htiles
    have hdeflag1 : s1.board.equations.map (fun p => (p.1, eqnShape p.2)) =
        b.equations.map (fun p => (p.1, eqnShape p.2)) := by
      rw [heqs1]
      exact hdeflag
    cases rest with
    | nil =>
      have hfull : ∀ x : String, (mapGet s1.board.cells x).map cellShape =
          (mapGet (solvedCells b) x).map cellShape := by
        intro x
        have hs := hshape1 x
        by_cases hxd : x ∈ done_ids ++ [q.1]
        · rw [if_pos hxd] at hs
          exact hs
        · rw [if_neg hxd] at hs
          have hxe : x ∉ editableCellIds b := by
            intro hxe
            rcases hcover x hxe with h1 | h1
            · exact hxd (List.mem_append.mpr (Or.inl h1))
            · rw [List.map_cons, List.map_nil] at h1
              exact hxd (List.mem_append.mpr (Or.inr h1))
          rw [solvedCells_noneditable b x hndk hxe]
          exact hs
      obtain ⟨hfire, hflags⟩ := postcheck_fire b s1 hB1 hdeflag1 hcomp1 hfull
      have hpt2 : placeTileCore s ("tile-" ++ natToStr k) q.1 =
          (true, completeGame (checkEquations s1)) := by
        rw [hpt, hfire]
      refine ⟨completeGame (checkEquations s1), ?_, rfl, ?_⟩
      · rw [show (List.enumFrom k ((q :: []).map Prod.fst)).map (fun p => ("tile-" ++ natToStr p.1, p.2)) = [("tile-" ++ natToStr k, q.1)] from rfl]
        rw [List.foldl_cons, List.foldl_nil]
        dsimp only
        rw [hpt2, Bool.and_true]
      · exact hflags
    | cons q2 rest2 =>
      obtain ⟨c2, hget2, ht2, hf2, hvnone2, hv2⟩ :=
        hall q2 (List.mem_cons_of_mem _ (List.mem_cons_self _ _))
      obtain ⟨qe2, hqe2, hcid2⟩ := howns q2 (List.mem_cons_of_mem _ (List.mem_cons_self _ _))
      have hq2mem : q2.1 ∈ (q2 :: rest2).map Prod.fst :=
        List.mem_map.mpr ⟨q2, List.mem_cons_self _ _, rfl⟩
      have hq2nd : q2.1 ∉ done_ids ++ [q.1] := by
        intro hmem
        rcases List.mem_append.mp hmem with h1 | h1
        · exact hnotdone q2.1 (List.mem_map.mpr ⟨q2, List.mem_cons_of_mem _ (List.mem_cons_self _ _), rfl⟩) h1
        · exact hqnotrest (by rw [← List.mem_singleton.mp h1]; exact hq2mem)
      have hsq2 := hshape1 q2.1
      rw [if_neg hq2nd, hget2] at hsq2
      cases hc2' : mapGet s1.board.cells q2.1 with
      | none =>
        rw [hc2'] at hsq2
        exact absurd hsq2 (by simp)
      | some c2' =>
        rw [hc2', Option.map_some', Option.map_some'] at hsq2
        obtain ⟨_, htype2', hval2', _, _, _⟩ :=
          cellShape_fields c2' c2 (Option.some.inj hsq2)
        have hnofire : checkGameCompletion (checkEquations s1) = checkEquations s1 :=
          postcheck_nofire b s1 hdeflag1 hcomp1 q2.1 c2' hc2'
            (by rw [htype2']; exact ht2) (by rw [hval2']; exact hvnone2) qe2 hqe2 hcid2
        have hpt2 : placeTileCore s ("tile-" ++ natToStr k) q.1 = (true, checkEquations s1) := by
          rw [hpt, hnofire]
        have hndp2 : ((q2 :: rest2).map Prod.fst).Nodup := by
          rw [List.map_cons, List.nodup_cons] at hndp
          exact hndp.2
        have hnotdone2 : ∀ x ∈ (q2 :: rest2).map Prod.fst, x ∉ done_ids ++ [q.1] := by
          intro x hx hmem
          rcases List.mem_append.mp hmem with h1 | h1
          · exact hnotdone x (List.mem_map.mpr (by obtain ⟨p, hp, hpx⟩ := List.mem_map.mp hx; exact ⟨p, List.mem_cons_of_mem _ hp, hpx⟩)) h1
          · exact hqnotrest (by rw [← List.mem_singleton.mp h1]; exact hx)
        have hcover2 : ∀ x ∈ editableCellIds b,
            x ∈ done_ids ++ [q.1] ∨ x ∈ (q2 :: rest2).map Prod.fst := by
          intro x hx
          rcases hcover x hx with h1 | h1
          · exact Or.inl (List.mem_append.mpr (Or.inl h1))
          · rw [List.map_cons] at h1
            rcases List.mem_cons.mp h1 with h2 | h2
            · exact Or.inl (List.mem_append.mpr (Or.inr (List.mem_singleton.mpr h2)))
            · exact Or.inr h2
        have hshape2 : ∀ x : String, (mapGet (checkEquations s1).board.cells x).map cellShape =
            if x ∈ done_ids ++ [q.1] then (mapGet (solvedCells b) x).map cellShape
            else (mapGet b.cells x).map cellShape := by
          intro x
          rw [checkEquations_cells_shape]
          exact hshape1 x
        have hdeflag2 : (checkEquations s1).board.equations.map (fun p => (p.1, eqnShape p.2)) =
            b.equations.map (fun p => (p.1, eqnShape p.2)) := by
          rw [checkEquations_eqnShape]
          exact hdeflag1
        have hcomp2 : (checkEquations s1).isComplete = false := by
          rw [checkEquations_isComplete]
          exact hcomp1
        have hlen2 : (preVals ++ [q.2]).length = k + 1 := by
          rw [List.length_append, hlen]
          rfl
        have htiles2 : (checkEquations s1).availableNumbers =
            usedTilesOf 0 (preVals ++ [q.2]) ++
              freshTilesOf (k + 1) ((q2 :: rest2).map Prod.snd) := by
          rw [checkEquations_tiles]
          exact htiles1
        obtain ⟨sfin, hfold, hcompl, hflags⟩ := ih (List.cons_ne_nil q2 rest2)
          (done_ids ++ [q.1]) (k + 1) (preVals ++ [q.2]) (checkEquations s1) flag
          (fun p hp => hall p (List.mem_cons_of_mem _ hp))
          (fun p hp => howns p (List.mem_cons_of_mem _ hp))
          hndp2 hnotdone2 hcover2 hshape2 hdeflag2 hcomp2 hlen2 htiles2
        refine ⟨sfin, ?_, hcompl, hflags⟩
        rw [show (List.enumFrom k ((q :: q2 :: rest2).map Prod.fst)).map (fun p => ("tile-" ++ natToStr p.1, p.2)) = ("tile-" ++ natToStr k, q.1) :: (List.enumFrom (k + 1) ((q2 :: rest2).map Prod.fst)).map (fun p => ("tile-" ++ natToStr p.1, p.2)) from rfl]
        rw [List.foldl_cons]
        dsimp only
        rw [hpt2, Bool.and_true]
        exact hfold


theorem placeAll_eq (s : GameState) (pairs : List (String × String)) :
    placeAll s pairs = List.foldl (fun acc pr =>
      (acc.1 && (placeTileCore acc.2 pr.1 pr.2).1, (placeTileCore acc.2 pr.1 pr.2).2))
      (true, s) pairs := rfl

/-- C2: for every generated board (dimensions at least 6, positive equation
target, any random stream) and any difficulty level, the needed-number hand has
exactly one tile per editable (blank, non-fixed number) cell; pairing the k-th
needed tile with the k-th editable cell in derivation order and feeding all the
pairs to the engine makes every `placeTile` step succeed, leaves every equation
on the final board complete and valid, and triggers the automatic completion of
the game — the needed subset alone solves the puzzle, and no decoy tile is
required (none is ever consumed). -/
theorem claim_C2_needed_tiles_complete (w h c : Nat) (hw : 6 ≤ w) (hh : 6 ≤ h)
    (hc : 1 ≤ c) (lvl : DifficultyLevel) (r : Rng) :
    (neededNumbers (generatePuzzle w h c r).1).length =
      (editableCellIds (generatePuzzle w h c r).1).length ∧
    (placeAll (startNewGameState lvl (generatePuzzle w h c r).1
        (neededNumbers (generatePuzzle w h c r).1))
      (neededPairs (generatePuzzle w h c r).1)).1 = true ∧
    ((placeAll (startNewGameState lvl (generatePuzzle w h c r).1
        (neededNumbers (generatePuzzle w h c r).1))
      (neededPairs (generatePuzzle w h c r).1)).2).isComplete = true ∧
    ((placeAll (startNewGameState lvl (generatePuzzle w h c r).1
        (neededNumbers (generatePuzzle w h c r).1))
      (neededPairs (generatePuzzle w h c r).1)).2).board.equations.all
        (fun p => (p.2).isComplete && (p.2).isValid) = true := by
  obtain ⟨hg, hne, _, _⟩ := generatePuzzleState_facts w h c hw hh hc r
  have hb : (generatePuzzle w h c r).1 = mkBoard (generatePuzzleState w h c r).1 := rfl
  rw [hb]
  have hB1 : ∀ q ∈ (mkBoard (generatePuzzleState w h c r).1).equations,
      isEquationComplete (solvedCells (mkBoard (generatePuzzleState w h c r).1)) (q.2) = true ∧
      validateEquation (solvedCells (mkBoard (generatePuzzleState w h c r).1)) (q.2) = true := by
    intro q hq
    obtain ⟨e, he, hqe⟩ := List.mem_map.mp hq
    rw [← hqe]
    exact solved_equation_ok (generatePuzzleState w h c r).1 hg e he
  have hndk : ((mkBoard (generatePuzzleState w h c r).1).cells.map Prod.fst).Nodup :=
    GenInv_cells_nodupkeys (generatePuzzleState w h c r).1 hg
  obtain ⟨pl, hfst, hsnd, hmem⟩ := board_pl (generatePuzzleState w h c r).1 hg
  have hplne : pl ≠ [] := by
    intro hq
    rw [hq] at hfst
    exact editable_nonempty (generatePuzzleState w h c r).1 hg hne hfst.symm
  have hlen : (neededNumbers (mkBoard (generatePuzzleState w h c r).1)).length =
      (editableCellIds (mkBoard (generatePuzzleState w h c r).1)).length := by
    rw [← hfst, ← hsnd, List.length_map, List.length_map]
  obtain ⟨sfin, hfold, hcompl, hflags⟩ :=
    placeAll_go (mkBoard (generatePuzzleState w h c r).1) hB1 hndk pl hplne [] 0 []
      (startNewGameState lvl (mkBoard (generatePuzzleState w h c r).1)
        (neededNumbers (mkBoard (generatePuzzleState w h c r).1))) true
      (fun q hq => (hmem q hq).1)
      (fun q hq => (hmem q hq).2)
      (by rw [hfst]; exact List.Nodup.sublist (editableCellIds_sublist _) hndk)
      (fun x _ => List.not_mem_nil x)
      (fun x hx => Or.inr (by rw [hfst]; exact hx))
      (fun x => by rw [if_neg (List.not_mem_nil x)]; rfl)
      rfl rfl rfl
      (by rw [show usedTilesOf 0 ([] : List Int) = [] from rfl, List.nil_append, hsnd]; exact startNewGame_tiles lvl _ _)
  have hpairs : neededPairs (mkBoard (generatePuzzleState w h c r).1) =
      (List.enumFrom 0 (pl.map Prod.fst)).map (fun p => ("tile-" ++ natToStr p.1, p.2)) := by
    unfold neededPairs
    rw [hfst]
    rfl
  have hrun : placeAll (startNewGameState lvl (mkBoard (generatePuzzleState w h c r).1)
      (neededNumbers (mkBoard (generatePuzzleState w h c r).1)))
      (neededPairs (mkBoard (generatePuzzleState w h c r).1)) = (true, sfin) := by
    rw [placeAll_eq, hpairs]
    exact hfold
  rw [hrun]
  exact ⟨hlen, rfl, hcompl, hflags⟩

/-- Witness for C2 at the 8-by-6 grid with equation target 10, difficulty easy
and the all-zero random stream. -/
theorem claim_C2_witness :
    6 ≤ 8 ∧ 6 ≤ 6 ∧ 1 ≤ 10 ∧
    ((neededNumbers (generatePuzzle 8 6 10 ⟨fun _ => 0, 0⟩).1).length =
      (editableCellIds (generatePuzzle 8 6 10 ⟨fun _ => 0, 0⟩).1).length ∧
    (placeAll (startNewGameState DifficultyLevel.easy (generatePuzzle 8 6 10 ⟨fun _ => 0, 0⟩).1
        (neededNumbers (generatePuzzle 8 6 10 ⟨fun _ => 0, 0⟩).1))
      (neededPairs (generatePuzzle 8 6 10 ⟨fun _ => 0, 0⟩).1)).1 = true ∧
    ((placeAll (startNewGameState DifficultyLevel.easy (generatePuzzle 8 6 10 ⟨fun _ => 0, 0⟩).1
        (neededNumbers (generatePuzzle 8 6 10 ⟨fun _ => 0, 0⟩).1))
      (neededPairs (generatePuzzle 8 6 10 ⟨fun _ => 0, 0⟩).1)).2).isComplete = true ∧
    ((placeAll (startNewGameState DifficultyLevel.easy (generatePuzzle 8 6 10 ⟨fun _ => 0, 0⟩).1
        (neededNumbers (generatePuzzle 8 6 10 ⟨fun _ => 0, 0⟩).1))
      (neededPairs (generatePuzzle 8 6 10 ⟨fun _ => 0, 0⟩).1)).2).board.equations.all
        (fun p => (p.2).isComplete && (p.2).isValid) = true) :=
  ⟨by decide, by decide, by decide,
   claim_C2_needed_tiles_complete 8 6 10 (by decide) (by decide) (by decide)
     DifficultyLevel.easy ⟨fun _ => 0, 0⟩⟩

end MCW
